import Mathlib

/-! # Contour: the CDS resource cache, the cluster visitor, the annotation parsers, the object cache, the builder and the names of the projected resources

A shallow embedding of `internal/contour/cluster.go` and
`internal/dag/annotations.go`. The object cache and the builder of package
`dag`, the names that package `envoy` gives the projected clusters and
secrets, and the secret projection are modelled from the specification,
sections 4.1 to 4.3, and agree with the tests of `cache_test.go`,
`status_test.go`, `secret_test.go` and package `e2e`.

Conventions of the embedding

* A Go `string` is a Lean `String`. Kubernetes objects reach Contour through
  JSON or protobuf, so their strings are valid UTF-8; on valid UTF-8 Go's
  byte-wise `<` is the order of the code points, which is Lean's order on
  `String`.
* A Go `map[string]V` is an association list with pairwise distinct keys
  (`GoMap V`). The order of its entries stands for the order in which a
  `range` loop happens to deliver them, which Go leaves unspecified: a
  statement quantified over every `GoMap` holds for every iteration order.
  A nil map reads like the empty map.
* A `*envoy_api_v2.Cluster` is a non-nil message; only its `Name` is read by
  the cache.
* The mutex of the cache is not modelled: the operations are atomic steps on
  the cache state.
-/

namespace Contour

/-! ## Go strings and maps -/

/-- Go's `a < b` on strings, computed on the character lists so that it
evaluates by reduction. -/
def strLess (a b : String) : Bool := decide (a.toList < b.toList)

/-- A Go `map[string]V`. -/
abbrev GoMap (V : Type) := AList (fun _ : String => V)

/-- The values of a map in the order a `range` loop delivers them. -/
def GoMap.values {V : Type} (m : GoMap V) : List V := m.entries.map (fun e => e.2)

/-- Builds a map from key/value pairs; a later pair with a key already seen is
dropped. -/
def GoMap.ofList {V : Type} (l : List (String × V)) : GoMap V :=
  (l.map (fun p => (⟨p.1, p.2⟩ : Sigma (fun _ : String => V)))).toAList

/-! ## `internal/contour/cluster.go` -/

/-- The message `envoy_api_v2.Cluster`. `Name` is the field the cache sorts by;
`AltStatName` and `ServiceName` (of `EdsClusterConfig`) stand for the rest of
the message, which cluster.go never reads. -/
structure Cluster where
  Name : String
  AltStatName : String
  ServiceName : String
deriving DecidableEq, Repr

/-- Method `clusterByName.Less`: `c[i].Name < c[j].Name`. -/
def clusterByName.Less (a b : Cluster) : Bool := strLess a.Name b.Name

/-- The call `sort.Stable(clusterByName(values))`. The standard library's contract is
that the result is ordered by `Less` and elements none of which is `Less` than
the other keep their original order; that fixes the result, computed here by
stable insertion (an element goes before the first later element that is not
`Less` than it). -/
def clusterByName.sortStable (values : List Cluster) : List Cluster :=
  values.insertionSort (fun a b => clusterByName.Less b a = false)

/-- Modelled from the spec: the notifier `Cond` embedded in `ClusterCache`,
whose declaration is not part of cluster.go. The spec gives a resource cache a
`version`; a waiter registered with `last` below the version is released on
`Notify`. `last` is that version. -/
structure Cond where
  last : Nat
deriving DecidableEq, Repr

/-- Modelled from the spec: `Cond.Notify`, the version bump that releases the
waiters; it advances the version by one (the e2e tests read the successive
versions "0", "1", "2", ... off the stream). -/
def Cond.Notify (c : Cond) : Cond := { last := c.last + 1 }

/-- Type `ClusterCache`: the contents of the gRPC CDS cache. -/
structure ClusterCache where
  values : GoMap Cluster
  cond : Cond

/-- The version of the cache, as the xDS server stamps it on a response. -/
def ClusterCache.version (c : ClusterCache) : Nat := c.cond.last

/-- Method `ClusterCache.Update`: `c.values = v; c.Cond.Notify()`. -/
def ClusterCache.Update (c : ClusterCache) (v : GoMap Cluster) : ClusterCache :=
  { values := v, cond := c.cond.Notify }

/-- Method `ClusterCache.Contents`: append every value of the map, then sort. -/
def ClusterCache.Contents (c : ClusterCache) : List Cluster :=
  let values := c.values.entries.foldl (fun values e => values ++ [e.2]) []
  clusterByName.sortStable values

/-- Method `ClusterCache.Query`: append the value of every name that is registered,
then sort. -/
def ClusterCache.Query (c : ClusterCache) (names : List String) : List Cluster :=
  let values := names.foldl
    (fun values n =>
      match c.values.lookup n with
      | some v => values ++ [v]
      | none => values) []
  clusterByName.sortStable values

/-- The DAG as the visitor sees it. A vertex is named by a number.
`asCluster v` is the outcome of the type assertion `vertex.(*dag.Cluster)`
and `children v` lists the vertices that `vertex.Visit(f)` hands to `f`, in
that order. `K` stands for the type `dag.Cluster`; it and the `Visit` methods
are declared in package dag and are taken as parameters. -/
structure Dag (K : Type) where
  asCluster : Nat → Option K
  children : Nat → List Nat

/-- The two functions of package envoy that the visitor calls, taken as
parameters: `envoy.Clustername` and `envoy.Cluster`. -/
structure Envoy (K : Type) where
  Clustername : K → String
  Cluster : K → Contour.Cluster

/-- Type `clusterVisitor`: the map under construction. -/
structure clusterVisitor where
  clusters : GoMap Cluster

/-- Method `clusterVisitor.visit`. The first argument bounds the depth of the
recursion: `none` means that the bound was reached before the walk ended. -/
def clusterVisitor.visit {K : Type} (e : Envoy K) (g : Dag K) :
    Nat → clusterVisitor → Nat → Option clusterVisitor
  | 0, _, _ => none
  | fuel + 1, v, vertex =>
    let v1 : clusterVisitor :=
      match g.asCluster vertex with
      | some cluster =>
        let name := e.Clustername cluster
        match v.clusters.lookup name with
        | some _ => v
        | none =>
          let c := e.Cluster cluster
          { clusters := v.clusters.insert c.Name c }
      | none => v
    -- recurse into children of v
    (g.children vertex).foldlM (fun acc child => clusterVisitor.visit e g fuel acc child) v1

/-- Function `visitClusters`: the map of clusters produced by a walk from `root`. -/
def visitClusters {K : Type} (e : Envoy K) (g : Dag K) (fuel : Nat) (root : Nat) :
    Option (GoMap Cluster) :=
  (clusterVisitor.visit e g fuel { clusters := ∅ } root).map (fun cv => cv.clusters)

/-- Vertex `v` can be reached from `root` along child edges (`root` itself
included). -/
def Dag.Reachable {K : Type} (g : Dag K) (root v : Nat) : Prop :=
  Relation.ReflTransGen (fun a b => b ∈ g.children a) root v

/-! ## `internal/dag/annotations.go` -/

/-- The two errors of `strconv.ParseUint`. -/
inductive NumError where
  | ErrSyntax
  | ErrRange
deriving DecidableEq, Repr

/-- Function `lower(c)` of package strconv: `c | ('x' - 'X')`. -/
def strconv.lower (c : Nat) : Nat := c ||| 0x20

/-- The loop of `strconv.ParseUint(s, 10, 32)` over the bytes of `s`, with `n`
the number read so far (a uint64, hence the reductions modulo 2^64). The loop
is run over the characters: every byte of a character outside ASCII is 0x80 or
more and ends the loop in the `default` case, as the character does here.
`cutoff` is `maxUint64/10 + 1` and `maxVal` is `1<<32 - 1`. -/
def strconv.parseUintLoop : List Char → Nat → Except NumError Nat
  | [], n => .ok n
  | c :: cs, n =>
    let base := 10
    let cutoff := (2 ^ 64 - 1) / 10 + 1
    let maxVal := 2 ^ 32 - 1
    let digit : Option Nat :=
      if '0'.toNat ≤ c.toNat ∧ c.toNat ≤ '9'.toNat then some (c.toNat - '0'.toNat)
      else if 'a'.toNat ≤ strconv.lower c.toNat ∧ strconv.lower c.toNat ≤ 'z'.toNat then
        some (strconv.lower c.toNat - 'a'.toNat + 10)
      else none
    match digit with
    | none => .error .ErrSyntax
    | some d =>
      if d ≥ base then .error .ErrSyntax
      else if n ≥ cutoff then .error .ErrRange
      else
        let n' := (n * base) % 2 ^ 64
        let n1 := (n' + d) % 2 ^ 64
        if n1 < n' ∨ n1 > maxVal then .error .ErrRange
        else strconv.parseUintLoop cs n1

/-- The call `strconv.ParseUint(s, 10, 32)`. -/
def strconv.ParseUint (s : String) : Except NumError Nat :=
  if s = "" then .error .ErrSyntax
  else strconv.parseUintLoop s.toList 0

/-- Function `parseUInt32`: zero when the value is malformed or out of range. -/
def parseUInt32 (s : String) : Nat :=
  match strconv.ParseUint s with
  | .error _ => 0
  | .ok v => v % 2 ^ 32

/-- Function `unicode.IsSpace`: the white space of Latin-1, then the code points
of the Unicode property White_Space. -/
def unicode.IsSpace (r : Char) : Bool :=
  let n := r.toNat
  if n ≤ 0xFF then
    n = 0x09 ∨ n = 0x0A ∨ n = 0x0B ∨ n = 0x0C ∨ n = 0x0D ∨ n = 0x20 ∨ n = 0x85 ∨ n = 0xA0
  else
    n = 0x1680 ∨ (0x2000 ≤ n ∧ n ≤ 0x200A) ∨ n = 0x2028 ∨ n = 0x2029 ∨ n = 0x202F
      ∨ n = 0x205F ∨ n = 0x3000

/-- Function `strings.TrimSpace`: the string without its leading and trailing white
space. -/
def strings.TrimSpace (s : String) : String :=
  String.mk ((s.toList.dropWhile unicode.IsSpace).reverse.dropWhile unicode.IsSpace).reverse

/-- The pieces of a character list between the occurrences of `sep`. -/
def strings.splitChars (sep : Char) : List Char → List (List Char)
  | [] => [[]]
  | c :: cs =>
    if c = sep then [] :: strings.splitChars sep cs
    else
      match strings.splitChars sep cs with
      | [] => [[c]]
      | w :: ws => (c :: w) :: ws

/-- Function `strings.Split(s, sep)` for a separator of one character. The empty string
splits into one empty piece. -/
def strings.Split (s : String) (sep : Char) : List String :=
  (strings.splitChars sep s.toList).map String.mk

/-- The index expression `annotations[key]` on a `map[string]string`: the empty string for a missing
key. -/
def GoMap.index (m : GoMap String) (key : String) : String :=
  (m.lookup key).getD ""

/-- Function `parseUpstreamProtocols`. The key read for a protocol is
`fmt.Sprintf("%s.%s", annotation, protocol)`. -/
def parseUpstreamProtocols (annotations : GoMap String) ( annotation : String)
    (protocols : List String) : GoMap String :=
  protocols.foldl
    (fun up protocol =>
      let ports := annotations.index ( annotation ++ "." ++ protocol)
      (strings.Split ports ',').foldl
        (fun up v =>
          let port := strings.TrimSpace v
          if port ≠ "" then up.insert port protocol else up)
        up)
    ∅

/-- Function `getIngressClassAnnotation`: the first of the two class annotations that is
present, `contour.heptio.com/ingress.class` before
`kubernetes.io/ingress.class`. -/
def getIngressClassAnnotation (annotations : GoMap String) : String :=
  match annotations.lookup "contour.heptio.com/ingress.class" with
  | some cls => cls
  | none =>
    match annotations.lookup "kubernetes.io/ingress.class" with
    | some cls => cls
    | none => ""

/-! ### Kubernetes objects

The objects that the object cache and the builder read, reduced to the fields
the spec's rules mention. -/

/-- The key `Meta` of package dag: the name and the namespace of an object. -/
structure Meta where
  name : String
  ns : String
deriving DecidableEq, Repr

/-- A map keyed by `Meta`, such as the cache's `map[Meta]*v1.Service`. -/
abbrev MetaMap (V : Type) := AList (fun _ : Meta => V)

/-- The part of `v1beta1.IngressSpec` that names services and secrets:
`Backend` is the `ServiceName` of the default backend, `TLS` lists the
`SecretName` of each TLS section, and `Rules` lists, rule by rule, the
`ServiceName` of the backend of each path. -/
structure IngressSpec where
  Backend : Option String := none
  TLS : List String := []
  Rules : List (List String) := []
deriving DecidableEq, Repr

/-- The object `v1beta1.Ingress`. -/
structure Ingress where
  Name : String
  Namespace : String
  Annotations : GoMap String := ∅
  Spec : IngressSpec := {}

/-- Function `httpAllowed`: true unless the annotation
`kubernetes.io/ingress.allow-http` is present and set to "false". -/
def httpAllowed (i : Ingress) : Bool :=
  !(i.Annotations.index "kubernetes.io/ingress.allow-http" == "false")

/-- Function `tlsRequired`: true if the annotation
`ingress.kubernetes.io/force-ssl-redirect` is present and set to "true". -/
def tlsRequired (i : Ingress) : Bool :=
  i.Annotations.index "ingress.kubernetes.io/force-ssl-redirect" == "true"

/-- Constant `annotationWebsocketRoutes`. -/
def annotationWebsocketRoutes : String := "contour.heptio.com/websocket-routes"

/-- Constant `annotationMaxRetries`. -/
def annotationMaxRetries : String := "contour.heptio.com/max-retries"

/-- Function `websocketRoutes`: the routes listed by the annotation
`contour.heptio.com/websocket-routes` of an Ingress. -/
def websocketRoutes (i : Ingress) : GoMap Bool :=
  (strings.Split (i.Annotations.index annotationWebsocketRoutes) ',').foldl
    (fun routes v =>
      let route := strings.TrimSpace v
      if route ≠ "" then routes.insert route true else routes)
    ∅

/-- A service named by a route or a TCPProxy (`ingressroutev1.Service`,
`projcontour.Service`): its name and its port. -/
structure ServiceRef where
  Name : String
  Port : Int
deriving DecidableEq, Repr

/-- The target of a delegation (`ingressroutev1.Delegate`): a document named
by name and namespace; an empty namespace stands for the namespace of the
delegating document. -/
structure Delegate where
  Name : String
  Namespace : String := ""
deriving DecidableEq, Repr

/-- An entry of the include list of an HTTPProxy (`projcontour.Include`): the
included document and the path of the include's condition. -/
structure Include where
  Name : String
  Namespace : String := ""
  Condition : String := ""
deriving DecidableEq, Repr

/-- A route of an IngressRoute or HTTPProxy: its match (the path of its
condition for an HTTPProxy), its services, and for an IngressRoute the
document it delegates to. -/
structure Route where
  Match : String := ""
  Services : List ServiceRef := []
  Delegate : Option Contour.Delegate := none
deriving DecidableEq, Repr

/-- The TLS section of a virtual host (`projcontour.TLS`). -/
structure TLS where
  SecretName : String := ""
  Passthrough : Bool := false
deriving DecidableEq, Repr

/-- The virtual host of a root document (`projcontour.VirtualHost`). -/
structure VirtualHost where
  Fqdn : String := ""
  TLS : Option Contour.TLS := none
deriving DecidableEq, Repr

/-- The spec of an IngressRoute or of an HTTPProxy. A document with a
`VirtualHost` is a root. An IngressRoute delegates from its routes and has no
include list; an HTTPProxy delegates from its include list. -/
structure ProxySpec where
  VirtualHost : Option Contour.VirtualHost := none
  Includes : List Include := []
  Routes : List Route := []
  TCPProxy : Option (List ServiceRef) := none
deriving DecidableEq, Repr

/-- An IngressRoute or HTTPProxy object. -/
structure Proxy where
  Name : String
  Namespace : String
  Annotations : GoMap String := ∅
  Spec : ProxySpec := {}

/-- A port of a Service (`v1.ServicePort`). -/
structure ServicePort where
  Name : String := ""
  Port : Int
deriving DecidableEq, Repr

/-- The object `v1.Service`. -/
structure Service where
  Name : String
  Namespace : String
  Ports : List ServicePort := []
deriving DecidableEq, Repr

/-- The object `v1.Secret`: its type (the field `Type`) and the keys and values
of its data. -/
structure Secret where
  Name : String
  Namespace : String
  SecretType : String := ""
  Data : GoMap String := ∅

/-- The stored part of a Secret: its type and its data. -/
structure SecretBody where
  SecretType : String := ""
  Data : GoMap String := ∅

/-- One grant of a TLSCertificateDelegation (`CertificateDelegation`). -/
structure CertificateDelegation where
  SecretName : String
  TargetNamespaces : List String := []
deriving DecidableEq, Repr

/-- The object TLSCertificateDelegation, of either API group. -/
structure TLSCertificateDelegation where
  Name : String
  Namespace : String
  Delegations : List CertificateDelegation := []
deriving DecidableEq, Repr

/-- The three kinds of routing object. -/
inductive RoutingKind where
  | Ingress
  | IngressRoute
  | HTTPProxy
deriving DecidableEq, Repr

/-- A routing object as the object cache reads it on insertion: its kind, its
identity and its annotation map. -/
structure RoutingObject where
  kind : RoutingKind
  Namespace : String
  Name : String
  Annotations : GoMap String

/-- Modelled from the spec: the object cache `KubernetesCache` of package dag,
whose source is not available (only its test is). It holds the configured
ingress class, the configured root namespaces, and the stored objects of each
kind under their `Meta`. Of these only the ingress class matters to the
verdict on a routing object. -/
structure KubernetesCache where
  ingressClass : String
  RootNamespaces : List String := []
  ingresses : MetaMap IngressSpec := ∅
  ingressroutes : MetaMap ProxySpec := ∅
  httpproxies : MetaMap ProxySpec := ∅
  secrets : MetaMap SecretBody := ∅
  services : MetaMap (List ServicePort) := ∅
  delegations : MetaMap (List CertificateDelegation) := ∅

/-- Modelled from the spec: the verdict of `KubernetesCache.Insert` on an
Ingress, IngressRoute or HTTPProxy. The spec: the object is relevant iff its
ingress-class annotation is absent or equals the configured class. The
annotation is read with `getIngressClassAnnotation`, which answers the empty
string when there is none. -/
def KubernetesCache.InsertRouting (kc : KubernetesCache) (obj : RoutingObject) : Bool :=
  let cls := getIngressClassAnnotation obj.Annotations
  cls == "" || cls == kc.ingressClass

/-! ### The object cache -/

/-- A value handed to `Insert` or `Remove`: an object of one of the kinds the
cache knows, or a value of any other type (`Unknown`, such as the string
"not an object" of the tests). -/
inductive Object where
  | Ingress (i : Contour.Ingress)
  | IngressRoute (p : Proxy)
  | HTTPProxy (p : Proxy)
  | Service (s : Contour.Service)
  | Secret (s : Contour.Secret)
  | TLSCertificateDelegation (d : Contour.TLSCertificateDelegation)
  | Unknown

/-- The key under which an Ingress is stored. -/
def Ingress.toMeta (i : Ingress) : Meta := { name := i.Name, ns := i.Namespace }

/-- The key under which an IngressRoute or HTTPProxy is stored. -/
def Proxy.toMeta (p : Proxy) : Meta := { name := p.Name, ns := p.Namespace }

/-- The key under which a Service is stored. -/
def Service.toMeta (s : Service) : Meta := { name := s.Name, ns := s.Namespace }

/-- The key under which a Secret is stored. -/
def Secret.toMeta (s : Secret) : Meta := { name := s.Name, ns := s.Namespace }

/-- The part of a Secret that is stored under its key. -/
def Secret.body (s : Secret) : SecretBody := { SecretType := s.SecretType, Data := s.Data }

/-- The key under which a TLSCertificateDelegation is stored. -/
def TLSCertificateDelegation.toMeta (d : TLSCertificateDelegation) : Meta :=
  { name := d.Name, ns := d.Namespace }

/-- An Ingress as the class check reads it. -/
def Ingress.routingObject (i : Ingress) : RoutingObject :=
  { kind := RoutingKind.Ingress, Namespace := i.Namespace, Name := i.Name,
    Annotations := i.Annotations }

/-- An IngressRoute or HTTPProxy as the class check reads it. -/
def Proxy.routingObject (k : RoutingKind) (p : Proxy) : RoutingObject :=
  { kind := k, Namespace := p.Namespace, Name := p.Name, Annotations := p.Annotations }

/-- An Ingress names a service as its default backend or as the backend of a
path of a rule. -/
def IngressSpec.namesService (s : IngressSpec) (name : String) : Bool :=
  s.Backend == some name || s.Rules.any (fun rule => rule.contains name)

/-- An IngressRoute or HTTPProxy names a service in a route or in its
TCPProxy. -/
def ProxySpec.namesService (s : ProxySpec) (name : String) : Bool :=
  s.Routes.any (fun r => r.Services.any (fun svc => svc.Name == name))
    || (match s.TCPProxy with
        | some svcs => svcs.any (fun svc => svc.Name == name)
        | none => false)

/-- The secret names an IngressRoute or HTTPProxy carries: the `SecretName` of
the TLS section of its virtual host. -/
def ProxySpec.secretNames (s : ProxySpec) : List String :=
  match s.VirtualHost with
  | some vh =>
    match vh.TLS with
    | some tls => [tls.SecretName]
    | none => []
  | none => []

/-- Modelled from the spec: the relevance of a Service. "Service: relevant iff
some currently stored routing object names it (by name and namespace)." -/
def KubernetesCache.serviceRelevant (kc : KubernetesCache) (m : Meta) : Bool :=
  kc.ingresses.entries.any (fun e => e.1.ns == m.ns && e.2.namesService m.name)
    || kc.ingressroutes.entries.any (fun e => e.1.ns == m.ns && e.2.namesService m.name)
    || kc.httpproxies.entries.any (fun e => e.1.ns == m.ns && e.2.namesService m.name)

/-- Modelled from the spec: a stored TLSCertificateDelegation in the namespace
of secret `m` grants `m` to the namespace `target`: it names the secret and
lists `target` or "*" among the target namespaces. -/
def KubernetesCache.delegated (kc : KubernetesCache) (m : Meta) (target : String) : Bool :=
  kc.delegations.entries.any (fun e =>
    e.1.ns == m.ns
      && e.2.any (fun cd =>
        cd.SecretName == m.name
          && (cd.TargetNamespaces.contains target || cd.TargetNamespaces.contains "*")))

/-- Modelled from the spec: a routing object of namespace `docNs` that carries
the secret names `names` names the secret `m`: directly (same namespace, bare
name), or as `<ns>/<name>` under a delegation that grants the secret to
`docNs`. -/
def KubernetesCache.namedFrom (kc : KubernetesCache) (m : Meta) (docNs : String)
    (names : List String) : Bool :=
  (docNs == m.ns && names.contains m.name)
    || (names.contains (m.ns ++ "/" ++ m.name) && kc.delegated m docNs)

/-- Modelled from the spec: some stored routing object names the secret `m`. -/
def KubernetesCache.secretReferenced (kc : KubernetesCache) (m : Meta) : Bool :=
  kc.ingresses.entries.any (fun e => kc.namedFrom m e.1.ns e.2.TLS)
    || kc.ingressroutes.entries.any (fun e => kc.namedFrom m e.1.ns e.2.secretNames)
    || kc.httpproxies.entries.any (fun e => kc.namedFrom m e.1.ns e.2.secretNames)

/-- Modelled from the spec: the relevance of a Secret. "TLS Secret: relevant
iff some routing object in the same namespace names it directly, or a
TLSCertificateDelegation grants it to a namespace where it is referenced as
`<sourcens>/<name>`"; "CA Secret (data map contains `ca.crt`): conservatively
relevant"; no other rule speaks for a secret, so any other secret is not
relevant. -/
def KubernetesCache.secretRelevant (kc : KubernetesCache) (m : Meta) (body : SecretBody) :
    Bool :=
  (body.Data.lookup "ca.crt").isSome
    || (body.SecretType == "kubernetes.io/tls" && kc.secretReferenced m)

/-- Modelled from the spec: `KubernetesCache.Insert`, "store under (kind, ns,
name); return true iff the caller should trigger a rebuild". The verdict
follows the relevance rules of the spec. A routing object of a foreign ingress
class is not stored (the test of `Remove` finds nothing to remove after such an
insert), and neither is a value of unknown type. -/
def KubernetesCache.Insert (kc : KubernetesCache) : Object → Bool × KubernetesCache
  | .Ingress i =>
    if kc.InsertRouting i.routingObject then
      (true, { kc with ingresses := kc.ingresses.insert i.toMeta i.Spec })
    else (false, kc)
  | .IngressRoute p =>
    if kc.InsertRouting (p.routingObject RoutingKind.IngressRoute) then
      (true, { kc with ingressroutes := kc.ingressroutes.insert p.toMeta p.Spec })
    else (false, kc)
  | .HTTPProxy p =>
    if kc.InsertRouting (p.routingObject RoutingKind.HTTPProxy) then
      (true, { kc with httpproxies := kc.httpproxies.insert p.toMeta p.Spec })
    else (false, kc)
  | .Service s =>
    (kc.serviceRelevant s.toMeta, { kc with services := kc.services.insert s.toMeta s.Ports })
  | .Secret s =>
    (kc.secretRelevant s.toMeta s.body, { kc with secrets := kc.secrets.insert s.toMeta s.body })
  | .TLSCertificateDelegation d =>
    (true, { kc with delegations := kc.delegations.insert d.toMeta d.Delegations })
  | .Unknown => (false, kc)

/-- The cache holds an object of the kind, namespace and name of `obj`. -/
def KubernetesCache.holds (kc : KubernetesCache) : Object → Bool
  | .Ingress i => (kc.ingresses.lookup i.toMeta).isSome
  | .IngressRoute p => (kc.ingressroutes.lookup p.toMeta).isSome
  | .HTTPProxy p => (kc.httpproxies.lookup p.toMeta).isSome
  | .Service s => (kc.services.lookup s.toMeta).isSome
  | .Secret s => (kc.secrets.lookup s.toMeta).isSome
  | .TLSCertificateDelegation d => (kc.delegations.lookup d.toMeta).isSome
  | .Unknown => false

/-- Modelled from the spec: `KubernetesCache.Remove`. The spec calls it
analogous to `Insert`; the test of `Remove` fixes the answer: true for an
object that an earlier `Insert` stored, also when nothing references it, false
for one that was not stored. The stored object of the same kind, namespace and
name is deleted, and the answer is whether there was one. -/
def KubernetesCache.Remove (kc : KubernetesCache) : Object → Bool × KubernetesCache
  | .Ingress i =>
    ((kc.ingresses.lookup i.toMeta).isSome, { kc with ingresses := kc.ingresses.erase i.toMeta })
  | .IngressRoute p =>
    ((kc.ingressroutes.lookup p.toMeta).isSome,
      { kc with ingressroutes := kc.ingressroutes.erase p.toMeta })
  | .HTTPProxy p =>
    ((kc.httpproxies.lookup p.toMeta).isSome,
      { kc with httpproxies := kc.httpproxies.erase p.toMeta })
  | .Service s =>
    ((kc.services.lookup s.toMeta).isSome, { kc with services := kc.services.erase s.toMeta })
  | .Secret s =>
    ((kc.secrets.lookup s.toMeta).isSome, { kc with secrets := kc.secrets.erase s.toMeta })
  | .TLSCertificateDelegation d =>
    ((kc.delegations.lookup d.toMeta).isSome,
      { kc with delegations := kc.delegations.erase d.toMeta })
  | .Unknown => (false, kc)

/-- The rule by which `Insert` answers for the kind of `obj`, read on the cache
`kc`: the class rule for a routing object, the reference rules for a Service
and a Secret, true for a TLSCertificateDelegation, false for an unknown
type. -/
def KubernetesCache.relevant (kc : KubernetesCache) (obj : Object) : Bool :=
  (kc.Insert obj).1

/-- Modelled from the spec: the event handler, reduced to the object cache it
feeds (`Source`) and the resource caches it updates: the cluster cache, and the
notifiers of the listener, route, secret and endpoint caches, whose contents
are not modelled. -/
structure EventHandler where
  Source : KubernetesCache
  ClusterCache : Contour.ClusterCache
  ListenerCond : Cond
  RouteCond : Cond
  SecretCond : Cond
  EndpointCond : Cond

/-- Modelled from the spec: the handling of an added object. The handler is
"fed from the Object Cache's relevance verdicts": a relevant event makes it
rebuild and "Update each Resource Cache"; an event that is not relevant leaves
the resource caches alone. `project` stands for the builder followed by the
cluster projector. The debounce timer is not modelled: every relevant event is
followed by its own rebuild. -/
def EventHandler.OnAdd (project : KubernetesCache → GoMap Cluster) (eh : EventHandler)
    (obj : Object) : EventHandler :=
  match eh.Source.Insert obj with
  | (true, src) =>
    { Source := src,
      ClusterCache := eh.ClusterCache.Update (project src),
      ListenerCond := eh.ListenerCond.Notify,
      RouteCond := eh.RouteCond.Notify,
      SecretCond := eh.SecretCond.Notify,
      EndpointCond := eh.EndpointCond.Notify }
  | (false, src) => { eh with Source := src }

/-! ### The builder

Modelled from the spec, sections 4.2 and 8, for the two kinds of hierarchical
routing document. Where the spec leaves the order of two rules open, the status
tests of package dag fix it. The status of a document is its `Status` and
`Description`; the virtual host recorded with it is not modelled. -/

/-- The two kinds of hierarchical routing document. -/
inductive ProxyKind where
  | IngressRoute
  | HTTPProxy
deriving DecidableEq, Repr

/-- The name of the kind as a status description writes it. -/
def ProxyKind.title : ProxyKind → String
  | .IngressRoute => "IngressRoute"
  | .HTTPProxy => "HTTPProxy"

/-- The name of the kind in lower case. -/
def ProxyKind.lower : ProxyKind → String
  | .IngressRoute => "ingressroute"
  | .HTTPProxy => "httpproxy"

/-- The plural of the name of the kind. -/
def ProxyKind.plural : ProxyKind → String
  | .IngressRoute => "IngressRoutes"
  | .HTTPProxy => "HTTPProxies"

/-- What a delegation is called in a document of the kind: an IngressRoute
delegates from a route, an HTTPProxy from an include. -/
def ProxyKind.edge : ProxyKind → String
  | .IngressRoute => "route"
  | .HTTPProxy => "include"

/-- The stored documents of a kind. -/
def KubernetesCache.proxies (kc : KubernetesCache) : ProxyKind → MetaMap ProxySpec
  | .IngressRoute => kc.ingressroutes
  | .HTTPProxy => kc.httpproxies

/-- The status of a document: `Status` is "valid", "invalid" or "orphaned". -/
structure Status where
  Status : String
  Description : String
deriving DecidableEq, Repr

/-- The status of a document without error. -/
def Status.valid (k : ProxyKind) : Contour.Status :=
  { Status := "valid", Description := "valid " ++ k.title }

/-- The status of a document with an error. -/
def Status.invalid (description : String) : Contour.Status :=
  { Status := "invalid", Description := description }

/-- The status of a document that no walk reaches. -/
def Status.orphaned (k : ProxyKind) : Contour.Status :=
  { Status := "orphaned",
    Description := "this " ++ k.title ++ " is not part of a delegation chain from a root "
      ++ k.title }

/-- The text `<ns>/<name>` of a key. -/
def Meta.path (m : Meta) : String := m.ns ++ "/" ++ m.name

/-- The order of the keys: by namespace, then by name. -/
def Meta.le (a b : Meta) : Bool :=
  strLess a.ns b.ns || (a.ns == b.ns && !strLess b.name a.name)

/-- Strings in ascending order (`sort.Strings`). -/
def sortStrings (l : List String) : List String :=
  l.insertionSort (fun a b => strLess b a = false)

/-- Modelled from the spec: the roots of kind `k` that declare the FQDN
`fqdn`. -/
def KubernetesCache.claimants (kc : KubernetesCache) (k : ProxyKind) (fqdn : String) :
    List Meta :=
  ((kc.proxies k).entries.filter (fun e =>
    match e.2.VirtualHost with
    | some vh => vh.Fqdn == fqdn
    | none => false)).map (fun e => e.1)

/-- Modelled from the spec: the description given to every root that declares
an FQDN declared by several roots of its kind,
`fqdn "<f>" is used in multiple <kind>: <list>`, the list sorted. -/
def KubernetesCache.conflictDescription (kc : KubernetesCache) (k : ProxyKind)
    (fqdn : String) : String :=
  "fqdn \"" ++ fqdn ++ "\" is used in multiple " ++ k.plural ++ ": "
    ++ ", ".intercalate (sortStrings ((kc.claimants k fqdn).map Meta.path))

/-- Modelled from the spec: a root may be defined in the namespace `ns`. With
no root namespace configured (the configuration of the e2e tests, whose roots
live in `default`) every namespace is allowed. -/
def KubernetesCache.rootAllowed (kc : KubernetesCache) (ns : String) : Bool :=
  kc.RootNamespaces.isEmpty || kc.RootNamespaces.contains ns

/-- Modelled from the spec: the secret that a `SecretName` refers to from a
document of namespace `docNs`: a bare name is looked up in the namespace of the
document, `ns/name` names the secret `name` of namespace `ns`. -/
def splitSecret (secretName docNs : String) : Meta :=
  match secretName.toList.span (fun c => c != '/') with
  | (_, []) => { name := secretName, ns := docNs }
  | (nsChars, _ :: nameChars) => { name := String.mk nameChars, ns := String.mk nsChars }

/-- Modelled from the spec: a stored secret can serve a virtual host: its
"type must be TLS-cert-bearing and both cert and key must parse". Parsing is
not modelled: the certificate and the key must be present and not empty. -/
def SecretBody.validTLS (b : SecretBody) : Bool :=
  b.SecretType == "kubernetes.io/tls" && b.Data.index "tls.crt" != ""
    && b.Data.index "tls.key" != ""

/-- Modelled from the spec: phase D for a root of namespace `docNs`: the
status to give when the TLS section of its virtual host does not resolve. A
secret that is missing or malformed gives `TLS Secret [<ref>] not found or is
malformed`; a secret of another namespace that no delegation grants gives
`<ref>: certificate delegation not permitted`; passthrough without a TCPProxy
is invalid (the spec names no description for it). -/
def KubernetesCache.tlsCheck (kc : KubernetesCache) (docNs : String) (spec : ProxySpec)
    (vh : VirtualHost) : Option Contour.Status :=
  match vh.TLS with
  | none => none
  | some tls =>
    if tls.SecretName != "" then
      match kc.secrets.lookup (splitSecret tls.SecretName docNs) with
      | some body =>
        if body.validTLS then
          if (splitSecret tls.SecretName docNs).ns == docNs
              || kc.delegated (splitSecret tls.SecretName docNs) docNs then none
          else some (Status.invalid (tls.SecretName ++ ": certificate delegation not permitted"))
        else
          some (Status.invalid ("TLS Secret [" ++ tls.SecretName ++ "] not found or is malformed"))
      | none =>
        some (Status.invalid ("TLS Secret [" ++ tls.SecretName ++ "] not found or is malformed"))
    else if tls.Passthrough && spec.TCPProxy.isNone then some (Status.invalid "")
    else none

/-- Modelled from the spec: the checks on a root before its routes are
walked, and the status of the first that fails: the FQDN is declared by
several roots of the kind; the namespace is not a root namespace; the FQDN is
empty; the FQDN holds a wildcard; the TLS section does not resolve. -/
def KubernetesCache.precheck (kc : KubernetesCache) (k : ProxyKind) (m : Meta)
    (spec : ProxySpec) (vh : VirtualHost) : Option Contour.Status :=
  if 2 ≤ (kc.claimants k vh.Fqdn).length then
    some (Status.invalid (kc.conflictDescription k vh.Fqdn))
  else if !kc.rootAllowed m.ns then
    some (Status.invalid ("root " ++ k.title ++ " cannot be defined in this namespace"))
  else if vh.Fqdn == "" then some (Status.invalid "Spec.VirtualHost.Fqdn must be specified")
  else if vh.Fqdn.toList.contains '*' then
    some (Status.invalid ("Spec.VirtualHost.Fqdn \"" ++ vh.Fqdn ++ "\" cannot use wildcards"))
  else kc.tlsCheck m.ns spec vh

/-- What the walk does for an item of a document that has no error: it
descends into a delegate, it reports a cycle, or it attaches a route to the
virtual host. -/
inductive Step where
  | descend (target : Meta) (path : String)
  | cycle (target : Meta)
  | route (path : String)
deriving DecidableEq, Repr

/-- An item of a document: an include, or a route. -/
inductive Item where
  | incl (i : Contour.Include)
  | route (r : Contour.Route)
deriving DecidableEq, Repr

/-- The items of a document in the order the walk reads them: the include
list, then the routes. -/
def ProxySpec.items (spec : ProxySpec) : List Item :=
  spec.Includes.map Item.incl ++ spec.Routes.map Item.route

/-- Modelled from the spec: phase C for one service of a route of a document
of namespace `docNs`: the port must lie in 1..65535, and the Service of that
name in the namespace of the document must be stored and have the port. -/
def KubernetesCache.serviceError (kc : KubernetesCache) (docNs : String) (routeMatch : String)
    (svc : ServiceRef) : Option Contour.Status :=
  if svc.Port < 1 ∨ 65535 < svc.Port then
    some (Status.invalid ("route \"" ++ routeMatch ++ "\": service \"" ++ svc.Name
      ++ "\": port must be in the range 1-65535"))
  else
    match kc.services.lookup { name := svc.Name, ns := docNs } with
    | some ports =>
      if ports.any (fun p => p.Port == svc.Port) then none
      else
        some (Status.invalid ("Service [" ++ svc.Name ++ ":" ++ toString svc.Port
          ++ "] is invalid or missing"))
    | none =>
      some (Status.invalid ("Service [" ++ svc.Name ++ ":" ++ toString svc.Port
        ++ "] is invalid or missing"))

/-- The document that the document `m` names by `name` and `ns`: an empty
namespace stands for the namespace of `m`. -/
def delegateTarget (m : Meta) (name ns : String) : Meta :=
  { name := name, ns := if ns == "" then m.ns else ns }

/-- Modelled from the spec: phase B for one delegation of the document `m`,
read while `visited` is on the walk (`m` included): the target is resolved by
name and namespace, the namespace defaulting to that of `m`. A target that is
not stored leads nowhere. A target that is a root makes `m` invalid. A target
that is on the walk is a cycle. Any other target is walked. -/
def KubernetesCache.delegateStep (kc : KubernetesCache) (k : ProxyKind) (m : Meta)
    (visited : List Meta) (name ns path : String) : Except Contour.Status (List Step) :=
  match (kc.proxies k).lookup (delegateTarget m name ns) with
  | none => .ok []
  | some tspec =>
    if tspec.VirtualHost.isSome then
      .error (Status.invalid ("root " ++ k.lower ++ " cannot delegate to another root "
        ++ k.lower))
    else if visited.contains (delegateTarget m name ns) then
      .ok [Step.cycle (delegateTarget m name ns)]
    else .ok [Step.descend (delegateTarget m name ns) path]

/-- Modelled from the spec: what one item of the document `m` yields: an error
of `m`, or steps of the walk. A route may not both delegate and name services.
A route with services must, in an IngressRoute, extend the path `parent` under
which the document was reached, and each of its services must pass phase C; it
is then attached to the virtual host. -/
def KubernetesCache.itemStep (kc : KubernetesCache) (k : ProxyKind) (m : Meta)
    (visited : List Meta) (parent : String) : Item → Except Contour.Status (List Step)
  | .incl i => kc.delegateStep k m visited i.Name i.Namespace i.Condition
  | .route r =>
    if r.Services ≠ [] ∧ r.Delegate.isSome then
      .error (Status.invalid ("route \"" ++ r.Match
        ++ "\": cannot specify services and delegate in the same route"))
    else if r.Services ≠ [] then
      if k = ProxyKind.IngressRoute ∧ ¬ parent.toList.isPrefixOf r.Match.toList then
        .error (Status.invalid ("the path prefix \"" ++ r.Match
          ++ "\" does not match the parent's path prefix \"" ++ parent ++ "\""))
      else
        match r.Services.findSome? (kc.serviceError m.ns r.Match) with
        | some st => .error st
        | none => .ok [Step.route r.Match]
    else
      match r.Delegate with
      | some d => kc.delegateStep k m visited d.Name d.Namespace r.Match
      | none => .ok []

/-- Modelled from the spec: the reading of the items of the document `m`, in
order, up to its first error: the steps of the items read without error, and
the status the document earns, its first error or valid. -/
def KubernetesCache.scan (kc : KubernetesCache) (k : ProxyKind) (m : Meta)
    (visited : List Meta) (parent : String) : List Item → List Step × Contour.Status
  | [] => ([], Status.valid k)
  | item :: rest =>
    match kc.itemStep k m visited parent item with
    | .error st => ([], st)
    | .ok steps =>
      (steps ++ (kc.scan k m visited parent rest).1, (kc.scan k m visited parent rest).2)

/-- What a walk records: a status against a document, or a route attached to
the virtual host of the root by a document. -/
inductive Event where
  | status (m : Meta) (st : Contour.Status)
  | route (m : Meta) (path : String)
deriving DecidableEq, Repr

/-- The description of a cycle: the path of the walk, closed by the revisited
document. -/
def cycleDescription (k : ProxyKind) (visited : List Meta) (target : Meta) : String :=
  k.edge ++ " creates a delegation cycle: "
    ++ " -> ".intercalate ((visited ++ [target]).map Meta.path)

/-- The events of a list of steps, given by `f` for each step; `none` when `f`
fails on one of them. -/
def collectEvents (f : Step → Option (List Event)) : List Step → Option (List Event)
  | [] => some []
  | s :: ss =>
    match f s, collectEvents f ss with
    | some a, some b => some (a ++ b)
    | _, _ => none

/-- The events of one step of the document `m`, read while `visited` is on the
walk: a cycle records the status invalid against the revisited document, a
route is attached, and a descent yields the events of the walk of the
delegate, which `recurse` computes. -/
def KubernetesCache.stepEvents (kc : KubernetesCache) (k : ProxyKind)
    (recurse : List Meta → String → Meta → ProxySpec → Option (List Event))
    (visited : List Meta) (m : Meta) : Step → Option (List Event)
  | .cycle t => some [Event.status t (Status.invalid (cycleDescription k visited t))]
  | .route path => some [Event.route m path]
  | .descend t path =>
    match (kc.proxies k).lookup t with
    | some tspec => recurse (visited ++ [t]) path t tspec
    | none => some []

/-- Modelled from the spec: the walk of the document `m`, reached under the
path `parent` while `visited` is on the walk (`m` is its last element): the
events of its steps in order, a descent being the walk of the delegate, then
the status `m` earns. The first argument bounds the depth of the walk: `none`
means that the bound was reached. -/
def KubernetesCache.walk (kc : KubernetesCache) (k : ProxyKind) :
    Nat → List Meta → String → Meta → ProxySpec → Option (List Event)
  | 0, _, _, _, _ => none
  | fuel + 1, visited, parent, m, spec =>
    (collectEvents (kc.stepEvents k (kc.walk k fuel) visited m)
      (kc.scan k m visited parent spec.items).1).map
      (fun evs => evs ++ [Event.status m (kc.scan k m visited parent spec.items).2])

/-- Modelled from the spec: the status of a root: that of the first check that
fails, else the status its own items earn. The walk into its delegates does
not change it. -/
def KubernetesCache.rootStatus (kc : KubernetesCache) (k : ProxyKind) (m : Meta)
    (spec : ProxySpec) (vh : VirtualHost) : Contour.Status :=
  match kc.precheck k m spec vh with
  | some st => st
  | none => (kc.scan k m [m] "" spec.items).2

/-- Modelled from the spec: the events of the walk from the root `m`: none
when a check fails, the root being then not walked. The depth of a walk is
bounded by the number of stored documents of the kind. -/
def KubernetesCache.rootEvents (kc : KubernetesCache) (k : ProxyKind) (m : Meta)
    (spec : ProxySpec) (vh : VirtualHost) : Option (List Event) :=
  match kc.precheck k m spec vh with
  | some _ => some []
  | none => kc.walk k (kc.proxies k).entries.length [m] "" m spec

/-- The stored roots of a kind in the order of their keys. -/
def KubernetesCache.roots (kc : KubernetesCache) (k : ProxyKind) :
    List (Sigma (fun _ : Meta => ProxySpec)) :=
  ((kc.proxies k).entries.filter (fun e => e.2.VirtualHost.isSome)).insertionSort
    (fun a b => Meta.le a.1 b.1 = true)

/-- The events of the walks of a list of roots, in order. -/
def KubernetesCache.eventsOf (kc : KubernetesCache) (k : ProxyKind) :
    List (Sigma (fun _ : Meta => ProxySpec)) → Option (List Event)
  | [] => some []
  | e :: rest =>
    match e.2.VirtualHost with
    | none => kc.eventsOf k rest
    | some vh =>
      match kc.rootEvents k e.1 e.2 vh, kc.eventsOf k rest with
      | some a, some b => some (a ++ b)
      | _, _ => none

/-- Modelled from the spec: the events of `Build` for a kind: the walks of the
roots, "sorted by namespace, then name". -/
def KubernetesCache.buildEvents (kc : KubernetesCache) (k : ProxyKind) : Option (List Event) :=
  kc.eventsOf k (kc.roots k)

/-- The statuses that a list of events records against the document `m`. -/
def statusesOf (m : Meta) (evs : List Event) : List Contour.Status :=
  evs.filterMap (fun e =>
    match e with
    | .status m' st => if m' = m then some st else none
    | .route _ _ => none)

/-- Modelled from the spec, phase F: the status `Build` gives the stored
document `m` of kind `k`. A root has the status of `rootStatus`. A document
that is not a root is invalid with the first error recorded against it, valid
if a walk reached it without error, and orphaned if no walk reached it. The
answer is `none` for a document that is not stored. -/
def KubernetesCache.buildStatus (kc : KubernetesCache) (k : ProxyKind) (m : Meta) :
    Option Contour.Status :=
  match (kc.proxies k).lookup m with
  | none => none
  | some spec =>
    match spec.VirtualHost with
    | some vh => some (kc.rootStatus k m spec vh)
    | none =>
      match kc.buildEvents k with
      | none => none
      | some evs =>
        match (statusesOf m evs).find? (fun st => st.Status == "invalid") with
        | some st => some st
        | none =>
          if (statusesOf m evs).isEmpty then some (Status.orphaned k)
          else some (Status.valid k)

/-- Modelled from the spec: the secret bound to the secure virtual host that
the root `m` obtains. The root obtains one when it passes the checks made
before the walk, phase D included, and the TLS section of its virtual host
names a secret; the secret is the one phase D resolved. `none` when the root
obtains no secure virtual host that binds a secret. The listener
`ingress_https` is produced "iff any SecureVirtualHost exists". -/
def KubernetesCache.secureVirtualHost (kc : KubernetesCache) (k : ProxyKind) (m : Meta)
    (spec : ProxySpec) (vh : VirtualHost) : Option Meta :=
  match kc.precheck k m spec vh with
  | some _ => none
  | none =>
    match vh.TLS with
    | some tls => if tls.SecretName != "" then some (splitSecret tls.SecretName m.ns) else none
    | none => none

/-! ### Hashes

The functions of `crypto/sha1`, `crypto/sha256` and `fmt` that the names of the
projected resources are built with, after FIPS 180-4. A byte is a number below
256, a word a number below 2^32. -/

/-- The UTF-8 encoding of a code point. -/
def utf8Encode (c : Nat) : List Nat :=
  if c < 128 then [c]
  else if c < 2048 then [192 + c / 64, 128 + c % 64]
  else if c < 65536 then [224 + c / 4096, 128 + c / 64 % 64, 128 + c % 64]
  else [240 + c / 262144, 128 + c / 4096 % 64, 128 + c / 64 % 64, 128 + c % 64]

/-- The conversion `[]byte(s)`: the bytes of the UTF-8 encoding of `s`. -/
def bytesOf (s : String) : List Nat := s.toList.flatMap (fun c => utf8Encode c.toNat)

/-- The `width` bytes of `n`, the most significant first. -/
def bigEndian (width : Nat) (n : Nat) : List Nat :=
  (List.range width).map (fun i => n / 256 ^ (width - 1 - i) % 256)

/-- The padding of a message to a multiple of 64 bytes: the byte 128, zeros,
and the length of the message in bits on 8 bytes. -/
def sha.pad (msg : List Nat) : List Nat :=
  msg ++ [128] ++ List.replicate ((119 - msg.length % 64) % 64) 0 ++ bigEndian 8 (8 * msg.length)

/-- The big-endian words of a list of bytes. -/
def sha.words : List Nat → List Nat
  | a :: b :: c :: d :: rest => (((a * 256 + b) * 256 + c) * 256 + d) :: sha.words rest
  | _ => []

/-- The blocks of `n` bytes of a list; the first argument bounds their number. -/
def sha.blocks (n : Nat) : Nat → List Nat → List (List Nat)
  | 0, _ => []
  | fuel + 1, l => if l.isEmpty then [] else l.take n :: sha.blocks n fuel (l.drop n)

/-- Rotation of a word to the left. -/
def rotl32 (x n : Nat) : Nat := ((x <<< n) ||| (x >>> (32 - n))) % 4294967296

/-- Rotation of a word to the right. -/
def rotr32 (x n : Nat) : Nat := ((x >>> n) ||| (x <<< (32 - n))) % 4294967296

/-- The complement of a word. -/
def not32 (x : Nat) : Nat := 4294967295 - x

/-- The message schedule of SHA-1 past the first 16 words: each word is the
rotation by one of the exclusive or of the words 3, 8, 14 and 16 places
before. The list holds the last 16 words. -/
def sha1.schedule : Nat → List Nat → List Nat
  | 0, _ => []
  | n + 1, w =>
    match w with
    | w0 :: w1 :: w2 :: w3 :: w4 :: w5 :: w6 :: w7 :: w8 :: w9 :: w10 :: w11 :: w12 :: w13
        :: w14 :: w15 :: _ =>
      (rotl32 (w13 ^^^ w8 ^^^ w2 ^^^ w0) 1)
        :: sha1.schedule n [w1, w2, w3, w4, w5, w6, w7, w8, w9, w10, w11, w12, w13, w14, w15,
            rotl32 (w13 ^^^ w8 ^^^ w2 ^^^ w0) 1]
    | _ => []

/-- The five working words of SHA-1. -/
structure sha1.State where
  a : Nat
  b : Nat
  c : Nat
  d : Nat
  e : Nat

/-- Round `t` of SHA-1 on the word `w` of the schedule. -/
def sha1.round (t : Nat) (s : sha1.State) (w : Nat) : sha1.State :=
  { a := (rotl32 s.a 5
          + (if t < 20 then (s.b &&& s.c) ||| (not32 s.b &&& s.d)
             else if t < 40 then s.b ^^^ s.c ^^^ s.d
             else if t < 60 then (s.b &&& s.c) ||| (s.b &&& s.d) ||| (s.c &&& s.d)
             else s.b ^^^ s.c ^^^ s.d)
          + s.e
          + (if t < 20 then 1518500249 else if t < 40 then 1859775393
             else if t < 60 then 2400959708 else 3395469782)
          + w) % 4294967296,
    b := s.a, c := rotl32 s.b 30, d := s.c, e := s.d }

/-- The rounds of SHA-1 over the schedule, from round `t` on. -/
def sha1.rounds : Nat → sha1.State → List Nat → sha1.State
  | _, s, [] => s
  | t, s, w :: ws => sha1.rounds (t + 1) (sha1.round t s w) ws

/-- The compression of one block into the hash value `h`. -/
def sha1.block (h : sha1.State) (block : List Nat) : sha1.State :=
  { a := (h.a + (sha1.rounds 0 h (sha.words block ++ sha1.schedule 64 (sha.words block))).a)
      % 4294967296,
    b := (h.b + (sha1.rounds 0 h (sha.words block ++ sha1.schedule 64 (sha.words block))).b)
      % 4294967296,
    c := (h.c + (sha1.rounds 0 h (sha.words block ++ sha1.schedule 64 (sha.words block))).c)
      % 4294967296,
    d := (h.d + (sha1.rounds 0 h (sha.words block ++ sha1.schedule 64 (sha.words block))).d)
      % 4294967296,
    e := (h.e + (sha1.rounds 0 h (sha.words block ++ sha1.schedule 64 (sha.words block))).e)
      % 4294967296 }

/-- The final hash value of SHA-1. -/
def sha1.digest (msg : List Nat) : sha1.State :=
  (sha.blocks 64 (sha.pad msg).length (sha.pad msg)).foldl sha1.block
    { a := 1732584193, b := 4023233417, c := 2562383102, d := 271733878, e := 3285377520 }

/-- Function `sha1.Sum`: the 20 bytes of the SHA-1 checksum. -/
def sha1.Sum (msg : List Nat) : List Nat :=
  [(sha1.digest msg).a, (sha1.digest msg).b, (sha1.digest msg).c, (sha1.digest msg).d,
    (sha1.digest msg).e].flatMap (bigEndian 4)

/-- The round constants of SHA-256. -/
def sha256.K : List Nat :=
  [1116352408, 1899447441, 3049323471, 3921009573, 961987163, 1508970993, 2453635748, 2870763221,
   3624381080, 310598401, 607225278, 1426881987, 1925078388, 2162078206, 2614888103, 3248222580,
   3835390401, 4022224774, 264347078, 604807628, 770255983, 1249150122, 1555081692, 1996064986,
   2554220882, 2821834349, 2952996808, 3210313671, 3336571891, 3584528711, 113926993, 338241895,
   666307205, 773529912, 1294757372, 1396182291, 1695183700, 1986661051, 2177026350, 2456956037,
   2730485921, 2820302411, 3259730800, 3345764771, 3516065817, 3600352804, 4094571909, 275423344,
   430227734, 506948616, 659060556, 883997877, 958139571, 1322822218, 1537002063, 1747873779,
   1955562222, 2024104815, 2227730452, 2361852424, 2428436474, 2756734187, 3204031479, 3329325298]

/-- The message schedule of SHA-256 past the first 16 words. The list holds
the last 16 words. -/
def sha256.schedule : Nat → List Nat → List Nat
  | 0, _ => []
  | n + 1, w =>
    match w with
    | w0 :: w1 :: w2 :: w3 :: w4 :: w5 :: w6 :: w7 :: w8 :: w9 :: w10 :: w11 :: w12 :: w13
        :: w14 :: w15 :: _ =>
      ((w0 + (rotr32 w1 7 ^^^ rotr32 w1 18 ^^^ (w1 >>> 3)) + w9
          + (rotr32 w14 17 ^^^ rotr32 w14 19 ^^^ (w14 >>> 10))) % 4294967296)
        :: sha256.schedule n [w1, w2, w3, w4, w5, w6, w7, w8, w9, w10, w11, w12, w13, w14, w15,
            (w0 + (rotr32 w1 7 ^^^ rotr32 w1 18 ^^^ (w1 >>> 3)) + w9
              + (rotr32 w14 17 ^^^ rotr32 w14 19 ^^^ (w14 >>> 10))) % 4294967296]
    | _ => []

/-- The eight working words of SHA-256. -/
structure sha256.State where
  a : Nat
  b : Nat
  c : Nat
  d : Nat
  e : Nat
  f : Nat
  g : Nat
  h : Nat

/-- The first of the two temporary words of a round of SHA-256. -/
def sha256.t1 (s : sha256.State) (kw : Nat × Nat) : Nat :=
  s.h + (rotr32 s.e 6 ^^^ rotr32 s.e 11 ^^^ rotr32 s.e 25)
    + ((s.e &&& s.f) ^^^ (not32 s.e &&& s.g)) + kw.1 + kw.2

/-- A round of SHA-256 on a constant and a word of the schedule. -/
def sha256.round (s : sha256.State) (kw : Nat × Nat) : sha256.State :=
  { a := (sha256.t1 s kw + (rotr32 s.a 2 ^^^ rotr32 s.a 13 ^^^ rotr32 s.a 22)
          + ((s.a &&& s.b) ^^^ (s.a &&& s.c) ^^^ (s.b &&& s.c))) % 4294967296,
    b := s.a, c := s.b, d := s.c, e := (s.d + sha256.t1 s kw) % 4294967296,
    f := s.e, g := s.f, h := s.g }

/-- The working words after the 64 rounds on a block. -/
def sha256.rounds (h : sha256.State) (block : List Nat) : sha256.State :=
  (sha256.K.zip (sha.words block ++ sha256.schedule 48 (sha.words block))).foldl sha256.round h

/-- The compression of one block into the hash value `h`. -/
def sha256.block (h : sha256.State) (block : List Nat) : sha256.State :=
  { a := (h.a + (sha256.rounds h block).a) % 4294967296,
    b := (h.b + (sha256.rounds h block).b) % 4294967296,
    c := (h.c + (sha256.rounds h block).c) % 4294967296,
    d := (h.d + (sha256.rounds h block).d) % 4294967296,
    e := (h.e + (sha256.rounds h block).e) % 4294967296,
    f := (h.f + (sha256.rounds h block).f) % 4294967296,
    g := (h.g + (sha256.rounds h block).g) % 4294967296,
    h := (h.h + (sha256.rounds h block).h) % 4294967296 }

/-- The final hash value of SHA-256. -/
def sha256.digest (msg : List Nat) : sha256.State :=
  (sha.blocks 64 (sha.pad msg).length (sha.pad msg)).foldl sha256.block
    { a := 1779033703, b := 3144134277, c := 1013904242, d := 2773480762, e := 1359893119,
      f := 2600822924, g := 528734635, h := 1541459225 }

/-- Function `sha256.Sum256`: the 32 bytes of the SHA-256 checksum. -/
def sha256.Sum256 (msg : List Nat) : List Nat :=
  [(sha256.digest msg).a, (sha256.digest msg).b, (sha256.digest msg).c, (sha256.digest msg).d,
    (sha256.digest msg).e, (sha256.digest msg).f, (sha256.digest msg).g,
    (sha256.digest msg).h].flatMap (bigEndian 4)

/-- A hexadecimal digit, in lower case. -/
def hexDigit (n : Nat) : Char := if n < 10 then Char.ofNat (48 + n) else Char.ofNat (87 + n)

/-- The text `fmt.Sprintf("%x", bytes)`: two hexadecimal digits a byte. -/
def hex (bytes : List Nat) : String :=
  String.mk (bytes.flatMap (fun b => [hexDigit (b / 16), hexDigit (b % 16)]))

/-- The slice `s[:n]` of a string of at least `n` characters; the whole string
when it is shorter. Lengths are counted in characters: on the ASCII names
that Kubernetes admits this is Go's count of bytes. -/
def strTake (s : String) (n : Nat) : String := String.mk (s.toList.take n)

/-! ### The names of the projected resources

Modelled from the spec, sections 4.2 (phase E) and 4.3: `envoy.Clustername`,
`envoy.Secretname` and their helpers are not among the sources. The tests of
package e2e and `secret_test.go` fix what the spec leaves open. -/

/-- Modelled from the spec: `truncate`, which cuts `s` to `l` characters: `s`
when it fits, else the start of `s` followed by "-" and `suffix`, `l`
characters in all; the start of `suffix` when `l` leaves no room for more.
`TestClusterLongServiceName` cuts a service name to its first 8 characters,
"-" and 6 hexadecimal digits. -/
def truncate (l : Nat) (s suffix : String) : String :=
  if s.length ≤ l then s
  else if l ≤ suffix.length then strTake suffix l
  else strTake s (l - suffix.length - 1) ++ "-" ++ suffix

/-- Modelled from the spec: the loop of `hashname`: the elements of `s` are
cut, the last first, to the `l / len(s)` characters that are the share of each,
the suffix being the first 6 digits of `hash`, until the joined name has at
most `l` characters; when all are cut and it still has more, the name is the
start of `hash`. The first argument counts the elements still to cut. -/
def hashname.loop (l : Nat) (hash : String) : Nat → List String → String
  | 0, _ => strTake hash l
  | n + 1, s =>
    if ("/".intercalate (s.set n (truncate (l / s.length) (s.getD n "") (strTake hash 6)))).length
        ≤ l then
      "/".intercalate (s.set n (truncate (l / s.length) (s.getD n "") (strTake hash 6)))
    else
      hashname.loop l hash n (s.set n (truncate (l / s.length) (s.getD n "") (strTake hash 6)))

/-- Modelled from the spec: `hashname`, which joins the elements of `s` with
"/" into a name of at most `l` characters ("names are ≤ 60 characters", cut
"when the natural name exceeds 60 characters"): the joined name when it does
not exceed `l`, else the name with elements cut, the hash being the SHA-256 of
the joined name in hexadecimal. -/
def hashname (l : Nat) (s : List String) : String :=
  if ("/".intercalate s).length ≤ l then "/".intercalate s
  else hashname.loop l (hex (sha256.Sum256 (bytesOf ("/".intercalate s)))) s.length s

/-- Modelled from the spec: a health check of a cluster. Only its path is
modelled. -/
structure HealthCheckPolicy where
  Path : String
deriving DecidableEq, Repr

/-- Modelled from the spec: the upstream validation of a cluster: the name of
the secret that holds the CA certificate, and the subject name. -/
structure UpstreamValidation where
  CACertificate : String
  SubjectName : String
deriving DecidableEq, Repr

/-- Modelled from the spec: a Cluster vertex of the DAG, "a reference to
(Service, port, load-balancing strategy, health-check, upstream-validation CA +
subject, ...)", with the weight the route gives it. -/
structure DagCluster where
  Namespace : String
  ServiceName : String
  Port : Int
  Weight : Nat := 0
  LoadBalancerStrategy : String := ""
  HealthCheckPolicy : Option HealthCheckPolicy := none
  UpstreamValidation : Option UpstreamValidation := none
deriving DecidableEq, Repr

/-- Modelled from the spec: the text of the policy tuple that is hashed into
the name of a cluster: the load-balancing strategy, the path of the health
check, the CA secret and the subject name of the upstream validation, in that
order. The names of the e2e tests fix it: no policy gives the hash of the empty
text, the strategy "Random" that of "Random", the health check of path
"/healthz" that of "/healthz", the validation by the secret "foo" of the
subject "subjname" that of "foosubjname". The weight is not part of it. -/
def DagCluster.policy (c : DagCluster) : String :=
  c.LoadBalancerStrategy
    ++ (match c.HealthCheckPolicy with
        | some hc => hc.Path
        | none => "")
    ++ (match c.UpstreamValidation with
        | some uv => uv.CACertificate ++ uv.SubjectName
        | none => "")

/-- Modelled from the spec: the hash component of the name of a cluster: the
first 5 bytes of the checksum of the policy tuple, in hexadecimal. The spec
names SHA-256; the names of the tests (`da39a3ee5e` for the empty tuple) are
those of SHA-1. -/
def DagCluster.hash (c : DagCluster) : String := hex ((sha1.Sum (bytesOf c.policy)).take 5)

/-- The natural name of a cluster, `<ns>/<svc>/<port>/<hash>`. -/
def DagCluster.naturalName (c : DagCluster) : String :=
  "/".intercalate [c.Namespace, c.ServiceName, toString c.Port, c.hash]

/-- Modelled from the spec: `envoy.Clustername`, the name of the cluster
projected from a Cluster vertex: `<ns>/<svc>/<port>/<hash>` made to fit 60
characters. -/
def envoy.Clustername (c : DagCluster) : String :=
  hashname 60 [c.Namespace, c.ServiceName, toString c.Port, c.hash]

/-- Modelled from the spec: `envoy.Cluster`, the cluster projected from a
Cluster vertex, as far as `Cluster` models the message: it is named by
`envoy.Clustername`; scenario S1 of the spec gives the cluster of
`default/kuard` on port 80 the alt-stat name `default_kuard_80` and the EDS
service name `default/kuard`. -/
def envoy.Cluster (c : DagCluster) : Contour.Cluster :=
  { Name := envoy.Clustername c,
    AltStatName := c.Namespace ++ "_" ++ c.ServiceName ++ "_" ++ toString c.Port,
    ServiceName := c.Namespace ++ "/" ++ c.ServiceName }

/-- The two functions of package envoy that the cluster visitor calls. -/
def envoy.functions : Envoy DagCluster :=
  { Clustername := envoy.Clustername, Cluster := envoy.Cluster }

/-- Modelled from the spec: a Secret vertex of the DAG: a stored secret with
its certificate and its private key. -/
structure DagSecret where
  Namespace : String
  Name : String
  Cert : String
  Key : String
deriving DecidableEq, Repr

/-- Modelled from the spec: `envoy.Secretname`, the name of the secret
projected from a Secret vertex: `<ns>/<name>/<hash>` made to fit 60
characters. The spec hashes certificate and key with SHA-256; the names of
`secret_test.go` (`cd1b506996` for the certificate "cert", `ff2a9f58ca` for
"cert-a", `0a068be4ba` for "cert-b") are the first 5 bytes of the SHA-1 of the
certificate. -/
def envoy.Secretname (s : DagSecret) : String :=
  hashname 60 [s.Namespace, s.Name, hex ((sha1.Sum (bytesOf s.Cert)).take 5)]

/-! ### The secret projection

Modelled from the spec, sections 4.2 (phase D) and 4.3: the Secret vertices of
the DAG and the secret projector are not among the sources. The tests of
`secret_test.go` and `sds_test.go` fix what the spec leaves open: a secret is
projected when its secure virtual host has a route. -/

/-- Modelled from the spec: the message `envoy_api_v2_auth.Secret`: its name,
and the certificate chain and the private key of its TLS certificate. -/
structure EnvoySecret where
  Name : String
  CertificateChain : String
  PrivateKey : String
deriving DecidableEq, Repr

/-- Modelled from the spec: `envoy.Secret`, the message built from a Secret
vertex, named by `envoy.Secretname`. -/
def envoy.Secret (s : DagSecret) : EnvoySecret :=
  { Name := envoy.Secretname s, CertificateChain := s.Cert, PrivateKey := s.Key }

/-- Modelled from the spec: the Secret vertex of the stored secret `m`: there
is one when the secret is stored and is a TLS secret with certificate and
key. -/
def KubernetesCache.dagSecret (kc : KubernetesCache) (m : Meta) : Option DagSecret :=
  match kc.secrets.lookup m with
  | some body =>
    if body.validTLS then
      some { Namespace := m.ns, Name := m.name, Cert := body.Data.index "tls.crt",
             Key := body.Data.index "tls.key" }
    else none
  | none => none

/-- Modelled from the spec: the Ingress of namespace `ns` has a route: the
Service of its default backend or of a path of a rule is stored in `ns`. The
hosts and the ports of an Ingress are not modelled. -/
def KubernetesCache.ingressRouted (kc : KubernetesCache) (ns : String) (spec : IngressSpec) :
    Bool :=
  (match spec.Backend with
    | some name => (kc.services.lookup { name := name, ns := ns }).isSome
    | none => false)
    || spec.Rules.any (fun rule =>
        rule.any (fun name => (kc.services.lookup { name := name, ns := ns }).isSome))

/-- Modelled from the spec: the Secret vertices bound to the secure virtual
hosts of an Ingress of namespace `ns`: for each secret name of its TLS
section, the secret that phase D resolves, which must be a TLS secret of `ns`
or be delegated to `ns`; none when the Ingress has no route. -/
def KubernetesCache.ingressSecrets (kc : KubernetesCache) (ns : String) (spec : IngressSpec) :
    List DagSecret :=
  if kc.ingressRouted ns spec then
    spec.TLS.filterMap (fun name =>
      if (splitSecret name ns).ns == ns || kc.delegated (splitSecret name ns) ns then
        kc.dagSecret (splitSecret name ns)
      else none)
  else []

/-- The event attaches a route to a virtual host. -/
def Event.isRoute : Event → Bool
  | .route _ _ => true
  | .status _ _ => false

/-- Modelled from the spec: the Secret vertex bound to the secure virtual host
of the stored document `m` of kind `k`: the document is a root that obtains a
secure virtual host, and the walk from it attaches a route to the virtual
host, or the root has a TCPProxy. -/
def KubernetesCache.proxySecrets (kc : KubernetesCache) (k : ProxyKind) (m : Meta)
    (spec : ProxySpec) : List DagSecret :=
  match spec.VirtualHost with
  | none => []
  | some vh =>
    match kc.secureVirtualHost k m spec vh with
    | none => []
    | some sm =>
      if spec.TCPProxy.isSome
          || (match kc.rootEvents k m spec vh with
              | some evs => evs.any Event.isRoute
              | none => false) then
        (kc.dagSecret sm).toList
      else []

/-- The stored Ingresses in the order of their keys. -/
def KubernetesCache.sortedIngresses (kc : KubernetesCache) :
    List (Sigma (fun _ : Meta => IngressSpec)) :=
  kc.ingresses.entries.insertionSort (fun a b => Meta.le a.1 b.1 = true)

/-- Modelled from the spec: the Secret vertices bound to the valid secure
virtual hosts of the DAG that `Build` produces, one for each binding: those of
the Ingresses, then those of the IngressRoutes, then those of the HTTPProxies,
the documents of each kind being read "in a deterministic order (sorted by
namespace, then name)". -/
def KubernetesCache.dagSecrets (kc : KubernetesCache) : List DagSecret :=
  kc.sortedIngresses.flatMap (fun e => kc.ingressSecrets e.1.ns e.2)
    ++ (kc.roots ProxyKind.IngressRoute).flatMap
        (fun e => kc.proxySecrets ProxyKind.IngressRoute e.1 e.2)
    ++ (kc.roots ProxyKind.HTTPProxy).flatMap
        (fun e => kc.proxySecrets ProxyKind.HTTPProxy e.1 e.2)

/-- Modelled from the spec: the secret projector, which "emits one Secret per
DAG Secret vertex": each vertex met is added to the map under its projected
name, unless the name is there already. -/
def visitSecrets (secrets : List DagSecret) : GoMap EnvoySecret :=
  secrets.foldl
    (fun m s =>
      match m.lookup (envoy.Secretname s) with
      | some _ => m
      | none => m.insert (envoy.Secret s).Name (envoy.Secret s))
    ∅

/-- Modelled from the spec: the secret projection of the DAG built from the
cache. -/
def KubernetesCache.secretProjection (kc : KubernetesCache) : GoMap EnvoySecret :=
  visitSecrets kc.dagSecrets

/-- The entries that `parseUpstreamProtocols` reads for one protocol: the
comma-separated pieces of the value stored under `<annotation>.<protocol>`,
each trimmed of white space, without the empty ones. -/
def upstreamPorts (annotations : GoMap String) ( annotation : String) (protocol : String) :
    List String :=
  ((strings.Split (annotations.index ( annotation ++ "." ++ protocol)) ',').map
    strings.TrimSpace).filter (fun port => decide (port ≠ ""))

/-- A routing object of namespace `docNs` carrying the secret names `names`
names the secret `m` of the cache `kc`: by its bare name from the secret's own
namespace, or as `<ns>/<name>` when a stored TLSCertificateDelegation of the
secret's namespace names the secret and lists `docNs` or "*" as a target. -/
def KubernetesCache.Names (kc : KubernetesCache) (m : Meta) (docNs : String)
    (names : List String) : Prop :=
  (docNs = m.ns ∧ m.name ∈ names)
    ∨ ((m.ns ++ "/" ++ m.name) ∈ names
        ∧ ∃ dm grants, kc.delegations.lookup dm = some grants ∧ dm.ns = m.ns
            ∧ ∃ cd ∈ grants, cd.SecretName = m.name
                ∧ (docNs ∈ cd.TargetNamespaces ∨ "*" ∈ cd.TargetNamespaces))

/-- Some stored Ingress, IngressRoute or HTTPProxy names the secret `m`. -/
def KubernetesCache.SecretNamed (kc : KubernetesCache) (m : Meta) : Prop :=
  (∃ dm spec, kc.ingresses.lookup dm = some spec ∧ kc.Names m dm.ns spec.TLS)
    ∨ (∃ dm spec, kc.ingressroutes.lookup dm = some spec ∧ kc.Names m dm.ns spec.secretNames)
    ∨ (∃ dm spec, kc.httpproxies.lookup dm = some spec ∧ kc.Names m dm.ns spec.secretNames)

/-- An Ingress spec names the service `name`: as its default backend, or as
the backend of a path of a rule. -/
def IngressSpec.NamesService (spec : IngressSpec) (name : String) : Prop :=
  spec.Backend = some name ∨ ∃ rule ∈ spec.Rules, name ∈ rule

/-- An IngressRoute or HTTPProxy spec names the service `name`: as a service of
a route, or as a service of its TCPProxy. -/
def ProxySpec.NamesService (spec : ProxySpec) (name : String) : Prop :=
  (∃ r ∈ spec.Routes, ∃ svc ∈ r.Services, svc.Name = name)
    ∨ ∃ svcs, spec.TCPProxy = some svcs ∧ ∃ svc ∈ svcs, svc.Name = name

/-- Some stored Ingress, IngressRoute or HTTPProxy of the namespace of `m`
names the service `m`. -/
def KubernetesCache.ServiceNamed (kc : KubernetesCache) (m : Meta) : Prop :=
  (∃ dm spec, kc.ingresses.lookup dm = some spec ∧ dm.ns = m.ns ∧ spec.NamesService m.name)
    ∨ (∃ dm spec, kc.ingressroutes.lookup dm = some spec ∧ dm.ns = m.ns
        ∧ spec.NamesService m.name)
    ∨ (∃ dm spec, kc.httpproxies.lookup dm = some spec ∧ dm.ns = m.ns
        ∧ spec.NamesService m.name)

/-- The object `obj` is an Ingress, an IngressRoute or an HTTPProxy. -/
def Object.isRouting : Object → Bool
  | .Ingress _ => true
  | .IngressRoute _ => true
  | .HTTPProxy _ => true
  | _ => false

/-- Whether `Insert` stores `obj`: a routing object when it carries no or the
configured ingress class, a Service, a Secret and a TLSCertificateDelegation
always, a value of unknown type never. -/
def KubernetesCache.stores (kc : KubernetesCache) : Object → Bool
  | .Ingress i => kc.InsertRouting i.routingObject
  | .IngressRoute p => kc.InsertRouting (p.routingObject RoutingKind.IngressRoute)
  | .HTTPProxy p => kc.InsertRouting (p.routingObject RoutingKind.HTTPProxy)
  | .Service _ => true
  | .Secret _ => true
  | .TLSCertificateDelegation _ => true
  | .Unknown => false

/-- The document that an item of the document `m` delegates to: the target of
an include, or of the delegation of a route without services. -/
def Item.delegatesTo (m : Meta) : Item → Option Meta
  | .incl i => some (delegateTarget m i.Name i.Namespace)
  | .route r =>
    if r.Services = [] then r.Delegate.map (fun d => delegateTarget m d.Name d.Namespace)
    else none

/-- The document an event is recorded against, or whose route it attaches. -/
def Event.source : Event → Meta
  | .status m _ => m
  | .route m _ => m

/-- The walk from a root that passes the checks reaches the document `m`,
under the path `parent`, with `visited` on the walk (`m` is its last
element). -/
inductive KubernetesCache.Walked (kc : KubernetesCache) (k : ProxyKind) :
    List Meta → String → Meta → ProxySpec → Prop where
  | root (m : Meta) (spec : ProxySpec) (vh : VirtualHost) :
      (kc.proxies k).lookup m = some spec → spec.VirtualHost = some vh →
      kc.precheck k m spec vh = none → KubernetesCache.Walked kc k [m] "" m spec
  | descend (visited : List Meta) (parent : String) (m : Meta) (spec : ProxySpec)
      (t : Meta) (path : String) (tspec : ProxySpec) :
      KubernetesCache.Walked kc k visited parent m spec →
      Step.descend t path ∈ (kc.scan k m visited parent spec.items).1 →
      (kc.proxies k).lookup t = some tspec →
      KubernetesCache.Walked kc k (visited ++ [t]) path t tspec

/-- The cache after the insertion of the objects `objs`, in order. -/
def KubernetesCache.InsertAll (kc : KubernetesCache) (objs : List Object) : KubernetesCache :=
  objs.foldl (fun kc obj => (kc.Insert obj).2) kc

/-- The Secret vertex `s` is bound to a valid secure virtual host: it is the
vertex of a stored TLS secret with certificate and key, and either a stored
Ingress that has a route names the secret in its TLS section, or a stored root
IngressRoute or HTTPProxy obtains a secure virtual host with that secret and
has a TCPProxy or a route attached by its walk. -/
def KubernetesCache.Binds (kc : KubernetesCache) (s : DagSecret) : Prop :=
  (∃ body, kc.secrets.lookup { name := s.Name, ns := s.Namespace } = some body
      ∧ body.validTLS = true ∧ s.Cert = body.Data.index "tls.crt"
      ∧ s.Key = body.Data.index "tls.key")
    ∧ ((∃ im ispec name, kc.ingresses.lookup im = some ispec ∧ name ∈ ispec.TLS
          ∧ splitSecret name im.ns = { name := s.Name, ns := s.Namespace }
          ∧ kc.ingressRouted im.ns ispec = true)
      ∨ (∃ k m spec vh, (kc.proxies k).lookup m = some spec ∧ spec.VirtualHost = some vh
          ∧ kc.secureVirtualHost k m spec vh = some { name := s.Name, ns := s.Namespace }
          ∧ (spec.TCPProxy.isSome = true
              ∨ ∃ evs, kc.rootEvents k m spec vh = some evs ∧ ∃ e ∈ evs, e.isRoute = true)))

/-- The visitor after the first statement of `visit` on `vertex`: a Cluster
vertex whose name is not yet a key is entered under the Name of its cluster;
every other vertex leaves the map as it is. -/
def clusterVisitor.record {K : Type} (e : Envoy K) (g : Dag K) (v : clusterVisitor)
    (vertex : Nat) : clusterVisitor :=
  match g.asCluster vertex with
  | some cluster =>
    match v.clusters.lookup (e.Clustername cluster) with
    | some _ => v
    | none => { clusters := v.clusters.insert (e.Cluster cluster).Name (e.Cluster cluster) }
  | none => v

/-- The vertices in the order in which a walk from `vertex` calls `visit` on
them: the vertex itself, then the walks from its children, in the order in
which `Visit` hands them over. A vertex that several paths lead to is listed
once for each path. The first argument bounds the depth, as it does for
`visit`. -/
def Dag.visitOrder {K : Type} (g : Dag K) : Nat → Nat → Option (List Nat)
  | 0, _ => none
  | fuel + 1, vertex =>
    (g.children vertex).foldlM
      (fun acc child => (Dag.visitOrder g fuel child).map (fun l => acc ++ l)) [vertex]

/-- The first Cluster vertex of `order` that `envoy.Clustername` names `k`. -/
def Dag.firstNamed {K : Type} (e : Envoy K) (g : Dag K) (order : List Nat) (k : String) :
    Option K :=
  (order.filterMap g.asCluster).find? (fun c => decide (e.Clustername c = k))

/-- The entries that `websocketRoutes` reads: the comma-separated pieces of the
value stored under `contour.heptio.com/websocket-routes`, each trimmed of white
space, without the empty ones. -/
def websocketEntries (i : Ingress) : List String :=
  ((strings.Split (i.Annotations.index annotationWebsocketRoutes) ',').map
    strings.TrimSpace).filter (fun route => decide (route ≠ ""))

/-- The cut of a portion of the natural name of the cluster `c`: the portion
when it has at most 15 characters, else its start, "-" and the first 6
hexadecimal digits of the SHA-256 of the natural name, 15 characters in
all. -/
def DagCluster.cut (c : DagCluster) (x : String) : String :=
  truncate 15 x (strTake (hex (sha256.Sum256 (bytesOf c.naturalName))) 6)

/-- The cache in which the key `m` of the documents of kind `k` holds `spec`,
whatever it held before. -/
def KubernetesCache.withProxy (kc : KubernetesCache) (k : ProxyKind) (m : Meta)
    (spec : ProxySpec) : KubernetesCache :=
  match k with
  | .IngressRoute => { kc with ingressroutes := kc.ingressroutes.insert m spec }
  | .HTTPProxy => { kc with httpproxies := kc.httpproxies.insert m spec }

/-- An ASCII decimal digit, '0' to '9'. -/
def isDecimalDigit (c : Char) : Bool := decide (48 ≤ c.toNat ∧ c.toNat ≤ 57)

/-- The number that the digits `cs` denote when they follow digits that denote
`n`. -/
def decimalFrom (n : Nat) (cs : List Char) : Nat :=
  cs.foldl (fun n c => 10 * n + (c.toNat - 48)) n

/-- The number that a string of decimal digits denotes. -/
def decimalValue (s : String) : Nat := decimalFrom 0 s.toList

/-- A non-empty string of ASCII decimal digits that denotes a number within
the range of a uint32. -/
def isUInt32Decimal (s : String) : Prop :=
  s ≠ "" ∧ (∀ c ∈ s.toList, isDecimalDigit c = true) ∧ decimalValue s ≤ 4294967295

instance isUInt32Decimal.decidable (s : String) : Decidable (isUInt32Decimal s) := by
  unfold isUInt32Decimal
  infer_instance

/-! ## Example data -/

/-- A Service annotated with `upstream-protocol.tls: "securebackend,443"`. -/
def exTLSAnnotations : GoMap String :=
  GoMap.ofList [("contour.heptio.com/upstream-protocol.tls", "securebackend,443")]

/-- A Service whose h2 and tls annotations hold blanks and commas, and one
entry each. -/
def exMixedAnnotations : GoMap String :=
  GoMap.ofList
    [("contour.heptio.com/upstream-protocol.h2", " , 8080 ,"),
     ("contour.heptio.com/upstream-protocol.tls", "https,, ")]


/-- The cluster of service `default/kuard`, port 80. -/
def exKuard80 : Cluster :=
  { Name := "default/kuard/80/da39a3ee5e", AltStatName := "default_kuard_80",
    ServiceName := "default/kuard/http" }

/-- The cluster of service `default/kuard`, port 443. -/
def exKuard443 : Cluster :=
  { Name := "default/kuard/443/da39a3ee5e", AltStatName := "default_kuard_443",
    ServiceName := "default/kuard/https" }

/-- A map holding both clusters of `default/kuard`, each under its name. -/
def exKuardMap : GoMap Cluster :=
  GoMap.ofList [(exKuard80.Name, exKuard80), (exKuard443.Name, exKuard443)]

/-- A map holding the cluster of port 80 only. -/
def exKuard80Map : GoMap Cluster := GoMap.ofList [(exKuard80.Name, exKuard80)]

/-- A cache at version 3 holding the cluster of port 80. -/
def exCache : ClusterCache := { values := exKuard80Map, cond := { last := 3 } }

/-- A `dag.Cluster` of the example: the name of its cluster and the weight the
route gives it. -/
structure ExDagCluster where
  name : String
  weight : Nat
deriving DecidableEq, Repr

/-- The package envoy of the example: the cluster takes the name of the vertex. -/
def exEnvoy : Envoy ExDagCluster :=
  { Clustername := fun c => c.name,
    Cluster := fun c => { Name := c.name, AltStatName := "", ServiceName := "" } }

/-- The children of the example DAG: a virtual host (0) with two routes (1 and
2); the first route has two clusters (3 and 4), the second shares cluster 4 and
has cluster 5. -/
def exChildren : Nat → List Nat
  | 0 => [1, 2]
  | 1 => [3, 4]
  | 2 => [4, 5]
  | _ => []

/-- The cluster vertices of the example DAG: 3 and 4 name the same cluster with
different weights, 5 names another. -/
def exAsCluster : Nat → Option ExDagCluster
  | 3 => some { name := "default/kuard/80/da39a3ee5e", weight := 90 }
  | 4 => some { name := "default/kuard/80/da39a3ee5e", weight := 10 }
  | 5 => some { name := "default/kuard/443/da39a3ee5e", weight := 100 }
  | _ => none

/-- The example DAG. -/
def exDag : Dag ExDagCluster := { asCluster := exAsCluster, children := exChildren }

/-- The height of a vertex of the example DAG. -/
def exRank : Nat → Nat
  | 0 => 2
  | 1 => 1
  | 2 => 1
  | _ => 0

/-- An object cache configured with the class "contour". -/
def exKubernetesCache : KubernetesCache := { ingressClass := "contour" }

/-- An Ingress that carries both class annotations: the Contour one names the
configured class, the Kubernetes one names "nginx". -/
def exIngressBothClasses : RoutingObject :=
  { kind := RoutingKind.Ingress, Namespace := "default", Name := "kuard",
    Annotations := GoMap.ofList
      [("contour.heptio.com/ingress.class", "contour"),
       ("kubernetes.io/ingress.class", "nginx")] }

/-- An Ingress whose only class annotation names "nginx". -/
def exIngressNginx : RoutingObject :=
  { kind := RoutingKind.Ingress, Namespace := "default", Name := "incorrect",
    Annotations := GoMap.ofList [("kubernetes.io/ingress.class", "nginx")] }

/-- The TLS secret `default/secret` of the cache tests. -/
def exTLSSecret : Secret :=
  { Name := "secret", Namespace := "default", SecretType := "kubernetes.io/tls" }

/-- A TLS secret that also carries a CA bundle under `ca.crt`. -/
def exTLSSecretWithCA : Secret :=
  { Name := "secret", Namespace := "default", SecretType := "kubernetes.io/tls",
    Data := GoMap.ofList [("tls.crt", "certificate"), ("tls.key", "key"), ("ca.crt", "ca")] }

/-- A secret of another type, without a CA bundle. -/
def exBananaSecret : Secret :=
  { Name := "secret", Namespace := "default", SecretType := "banana" }

/-- The Service `default/service` of the cache tests. -/
def exService : Service := { Name := "service", Namespace := "default" }

/-- An Ingress of namespace `default` whose default backend is `service` and
whose TLS section names `secret`. -/
def exIngressWww : Ingress :=
  { Name := "www", Namespace := "default",
    Spec := { Backend := some "service", TLS := ["secret"] } }

/-- An Ingress of namespace `kube-system` whose default backend is `service`. -/
def exIngressKubeSystem : Ingress :=
  { Name := "www", Namespace := "kube-system", Spec := { Backend := some "service" } }

/-- An Ingress of namespace `extra` that names the secret as `default/secret`. -/
def exIngressExtra : Ingress :=
  { Name := "www", Namespace := "extra", Spec := { TLS := ["default/secret"] } }

/-- A delegation of `default/secret` to the namespace `extra`. -/
def exDelegation : TLSCertificateDelegation :=
  { Name := "delegation", Namespace := "default",
    Delegations := [{ SecretName := "secret", TargetNamespaces := ["extra"] }] }

/-- The Ingress `default/incorrect` of the cache tests, of class "nginx". -/
def exIngressIncorrect : Ingress :=
  { Name := "incorrect", Namespace := "default", Annotations := exIngressNginx.Annotations }

/-- The example cache after the insertion of the Ingress `default/www`. -/
def exCacheWww : KubernetesCache := (exKubernetesCache.Insert (Object.Ingress exIngressWww)).2

/-- The example cache after the insertion of the Ingress `kube-system/www`. -/
def exCacheKubeSystem : KubernetesCache :=
  (exKubernetesCache.Insert (Object.Ingress exIngressKubeSystem)).2

/-- The example cache after the insertion of the Ingress `extra/www` and of the
delegation to `extra`. -/
def exCacheDelegated : KubernetesCache :=
  (((exKubernetesCache.Insert (Object.Ingress exIngressExtra)).2).Insert
    (Object.TLSCertificateDelegation exDelegation)).2

/-- The example cache after the insertion of the unreferenced TLS secret. -/
def exCacheSecret : KubernetesCache := (exKubernetesCache.Insert (Object.Secret exTLSSecret)).2

/-- An event handler over the cache that holds the Ingress `kube-system/www`,
with every resource cache at version 3. -/
def exEventHandler : EventHandler :=
  { Source := exCacheKubeSystem, ClusterCache := exCache,
    ListenerCond := { last := 3 }, RouteCond := { last := 3 },
    SecretCond := { last := 3 }, EndpointCond := { last := 3 } }

/-- The object cache of the status tests: the root namespaces are `roots` and
`marketing`. -/
def exRootsCache : KubernetesCache :=
  { ingressClass := "contour", RootNamespaces := ["roots", "marketing"] }

/-- The cache of the status tests after the insertion of `objs`, in order. -/
def exRootsCache.holding (objs : List Object) : KubernetesCache :=
  objs.foldl (fun kc obj => (kc.Insert obj).2) exRootsCache

/-- The root `finance/example` of the status tests (`ir3`), outside the root
namespaces. -/
def exFinanceRoot : Proxy :=
  { Name := "example", Namespace := "finance",
    Spec := { VirtualHost := some { Fqdn := "example.com" },
              Routes := [{ Match := "/foobar", Services := [{ Name := "home", Port := 8080 }] }] } }

/-- The root `roots/example-com` of the status tests (`ir17`). -/
def exExampleCom : Proxy :=
  { Name := "example-com", Namespace := "roots",
    Spec := { VirtualHost := some { Fqdn := "example.com" },
              Routes := [{ Match := "/", Services := [{ Name := "kuard", Port := 8080 }] }] } }

/-- The root `roots/other-example` of the status tests (`ir18`), of the same
FQDN as `roots/example-com`. -/
def exOtherExample : Proxy :=
  { Name := "other-example", Namespace := "roots",
    Spec := { VirtualHost := some { Fqdn := "example.com" },
              Routes := [{ Match := "/", Services := [{ Name := "kuard", Port := 8080 }] }] } }

/-- The root `roots/root-blog` of the status tests (`ir20`), which delegates to
`marketing/blog` and has its FQDN. -/
def exRootBlogSameHost : Proxy :=
  { Name := "root-blog", Namespace := "roots",
    Spec := { VirtualHost := some { Fqdn := "blog.containersteve.com",
                                    TLS := some { SecretName := "blog-containersteve-com" } },
              Routes := [{ Match := "/",
                           Delegate := some { Name := "blog", Namespace := "marketing" } }] } }

/-- The root `marketing/blog` of the status tests (`ir21`). -/
def exBlogSameHost : Proxy :=
  { Name := "blog", Namespace := "marketing",
    Spec := { VirtualHost := some { Fqdn := "blog.containersteve.com",
                                    TLS := some { SecretName := "blog-containersteve-com" } },
              Routes := [{ Match := "/", Services := [{ Name := "green", Port := 80 }] }] } }

/-- The root `roots/root-blog` of the status tests (`ir22`), which delegates to
the root `marketing/blog` of another FQDN. -/
def exRootBlog : Proxy :=
  { Name := "root-blog", Namespace := "roots",
    Spec := { VirtualHost := some { Fqdn := "blog.containersteve.com" },
              Routes := [{ Match := "/",
                           Delegate := some { Name := "blog", Namespace := "marketing" } }] } }

/-- The root `marketing/blog` of the status tests (`ir23`). -/
def exBlog : Proxy :=
  { Name := "blog", Namespace := "marketing",
    Spec := { VirtualHost := some { Fqdn := "www.containersteve.com" },
              Routes := [{ Match := "/", Services := [{ Name := "green", Port := 80 }] }] } }

/-- The Service `marketing/green` of the status tests (`s8`). -/
def exGreen : Service :=
  { Name := "green", Namespace := "marketing", Ports := [{ Name := "http", Port := 80 }] }

/-- The status tests "insert conflicting ingressroutes due to fqdn reuse". -/
def exCacheConflict : KubernetesCache :=
  exRootsCache.holding [Object.IngressRoute exExampleCom, Object.IngressRoute exOtherExample]

/-- The objects of `exCacheConflict`, inserted in the other order. -/
def exCacheConflictSwapped : KubernetesCache :=
  exRootsCache.holding [Object.IngressRoute exOtherExample, Object.IngressRoute exExampleCom]

/-- The status tests "root ingress delegating to another root". -/
def exCacheBlogSameHost : KubernetesCache :=
  exRootsCache.holding [Object.IngressRoute exRootBlogSameHost,
    Object.IngressRoute exBlogSameHost]

/-- The status tests "root ingress delegating to another root w/ different
hostname". -/
def exCacheBlog : KubernetesCache :=
  exRootsCache.holding [Object.IngressRoute exRootBlog, Object.IngressRoute exBlog,
    Object.Service exGreen]

/-- The status tests "invalid root ingressroute outside of roots namespace". -/
def exCacheFinance : KubernetesCache := exRootsCache.holding [Object.IngressRoute exFinanceRoot]

/-- The TLS secret `default/secret` of the listener tests, with its
certificate and key. -/
def exSecretWithKey : Secret :=
  { Name := "secret", Namespace := "default", SecretType := "kubernetes.io/tls",
    Data := GoMap.ofList [("tls.crt", "certificate"), ("tls.key", "key")] }

/-- The root `default/simple` of `TestIngressRouteHTTPS`. -/
def exSimple : Proxy :=
  { Name := "simple", Namespace := "default",
    Spec := { VirtualHost := some { Fqdn := "example.com", TLS := some { SecretName := "secret" } },
              Routes := [{ Match := "/", Services := [{ Name := "kuard", Port := 8080 }] }] } }

/-- The Service `default/kuard` of `TestIngressRouteHTTPS`. -/
def exKuardService : Service :=
  { Name := "kuard", Namespace := "default", Ports := [{ Name := "http", Port := 8080 }] }

/-- The cache of `TestIngressRouteHTTPS`: no root namespace is configured. -/
def exCacheSimple : KubernetesCache :=
  (((exKubernetesCache.Insert (Object.Secret exSecretWithKey)).2.Insert
    (Object.Service exKuardService)).2.Insert (Object.IngressRoute exSimple)).2

/-- The root `roots/example` of the status tests (`ir2`), whose service has the
port -80. -/
def exBadPortRoot : Proxy :=
  { Name := "example", Namespace := "roots",
    Spec := { VirtualHost := some { Fqdn := "example.com" },
              Routes := [{ Match := "/foo", Services := [{ Name := "home", Port := -80 }] }] } }

/-- The root `roots/parent` of the status tests (`ir10`), which delegates to
`validChild` and to `invalidChild`. -/
def exTwoChildren : Proxy :=
  { Name := "parent", Namespace := "roots",
    Spec := { VirtualHost := some { Fqdn := "example.com" },
              Routes := [{ Match := "/foo", Delegate := some { Name := "validChild" } },
                         { Match := "/bar", Delegate := some { Name := "invalidChild" } }] } }

/-- The document `roots/validChild` of the status tests (`ir11`). -/
def exValidChild : Proxy :=
  { Name := "validChild", Namespace := "roots",
    Spec := { Routes := [{ Match := "/foo", Services := [{ Name := "foo2", Port := 8080 }] }] } }

/-- The document `roots/invalidChild` of the status tests (`ir12`), whose
service has the port 12345678. -/
def exInvalidChild : Proxy :=
  { Name := "invalidChild", Namespace := "roots",
    Spec := { Routes := [{ Match := "/bar",
                           Services := [{ Name := "foo3", Port := 12345678 }] }] } }

/-- The Service `roots/foo2` of the status tests (`s6`). -/
def exFoo2 : Service :=
  { Name := "foo2", Namespace := "roots", Ports := [{ Name := "http", Port := 8080 }] }

/-- The Service `roots/foo3` of the status tests (`s7`). -/
def exFoo3 : Service :=
  { Name := "foo3", Namespace := "roots", Ports := [{ Name := "http", Port := 12345678 }] }

/-- The status tests "invalid port in service". -/
def exCacheBadPort : KubernetesCache := exRootsCache.holding [Object.IngressRoute exBadPortRoot]

/-- The status tests "ingressroute delegates to multiple ingressroutes, one is
invalid". -/
def exCacheTwoChildren : KubernetesCache :=
  exRootsCache.holding [Object.IngressRoute exTwoChildren, Object.IngressRoute exValidChild,
    Object.IngressRoute exInvalidChild, Object.Service exFoo2, Object.Service exFoo3]

/-- The document `roots/invalidChild` and its service, without a parent. -/
def exCacheLoneChild : KubernetesCache :=
  exRootsCache.holding [Object.IngressRoute exInvalidChild, Object.Service exFoo3]

/-- The TLS secret `heptio-contour/default-ssl-cert` of the status tests
(`sec2`). -/
def exDefaultSSLCert : Secret :=
  { Name := "default-ssl-cert", Namespace := "heptio-contour", SecretType := "kubernetes.io/tls",
    Data := GoMap.ofList [("tls.crt", "certificate"), ("tls.key", "key")] }

/-- The root `roots/app-with-tls-delegation` of the status tests (`ir26`),
which names the secret of another namespace. -/
def exAppTLS : Proxy :=
  { Name := "app-with-tls-delegation", Namespace := "roots",
    Spec := { VirtualHost := some { Fqdn := "app-with-tls-delegation.127.0.0.1.nip.io",
                                    TLS := some { SecretName := "heptio-contour/default-ssl-cert" } },
              Routes := [{ Match := "", Services := [{ Name := "sample-app", Port := 80 }] }] } }

/-- A second root that declares the FQDN of `roots/app-with-tls-delegation` and
names the same secret. -/
def exAppTLSTwin : Proxy := { exAppTLS with Name := "app-twin" }

/-- The status tests "check status set when routes combined with tls
delegation failure". -/
def exCacheAppTLS : KubernetesCache :=
  exRootsCache.holding [Object.Secret exDefaultSSLCert, Object.IngressRoute exAppTLS]

/-- The cache of `exCacheAppTLS` with the second root of the same FQDN. -/
def exCacheAppTLSTwin : KubernetesCache :=
  exRootsCache.holding [Object.Secret exDefaultSSLCert, Object.IngressRoute exAppTLS,
    Object.IngressRoute exAppTLSTwin]

/-- The TLS secret `secret/wildcard` of `TestIngressRouteTLSCertificateDelegation`. -/
def exWildcardSecret : Secret :=
  { Name := "wildcard", Namespace := "secret", SecretType := "kubernetes.io/tls",
    Data := GoMap.ofList [("tls.crt", "certificate"), ("tls.key", "key")] }

/-- The root `default/simple` of `TestIngressRouteTLSCertificateDelegation`,
which names `secret/wildcard`. -/
def exSimpleWildcard : Proxy :=
  { Name := "simple", Namespace := "default",
    Spec := { VirtualHost := some { Fqdn := "example.com",
                                    TLS := some { SecretName := "secret/wildcard" } },
              Routes := [{ Match := "/", Services := [{ Name := "kuard", Port := 8080 }] }] } }

/-- The delegation of `secret/wildcard` to the namespace `default`. -/
def exWildcardDelegation : TLSCertificateDelegation :=
  { Name := "delegation", Namespace := "secret",
    Delegations := [{ SecretName := "wildcard", TargetNamespaces := ["default"] }] }

/-- The cache of `TestIngressRouteTLSCertificateDelegation` before the
delegation is added. -/
def exCacheWildcard : KubernetesCache :=
  exKubernetesCache.InsertAll [Object.Secret exWildcardSecret, Object.Service exKuardService,
    Object.IngressRoute exSimpleWildcard]

/-- The cache of `TestIngressRouteTLSCertificateDelegation` after the
delegation is added. -/
def exCacheWildcardDelegated : KubernetesCache :=
  (exCacheWildcard.Insert (Object.TLSCertificateDelegation exWildcardDelegation)).2

/-- The Cluster vertex of the service `default/kuard` on port 80, without
policy. -/
def exKuardCluster : DagCluster := { Namespace := "default", ServiceName := "kuard", Port := 80 }

/-- The Cluster vertex of the long service name of `TestClusterLongServiceName`. -/
def exLongServiceCluster : DagCluster :=
  { Namespace := "default",
    ServiceName := "kbujbkuhdod66gjdmwmijz8xzgsx1nkfbrloezdjiulquzk4x3p0nnvpzi8r", Port := 8080 }

/-- A Cluster vertex of a namespace of 63 characters, the longest that
Kubernetes admits. -/
def exLongNamespaceCluster : DagCluster :=
  { Namespace := "a-namespace-whose-name-is-as-long-as-kubernetes-allows-it-to-be",
    ServiceName := "kuard", Port := 80 }

/-- The Secret vertex of `secret_test.go`: `default/secret` with the
certificate "cert" and the key "key". -/
def exDagSecret : DagSecret :=
  { Namespace := "default", Name := "secret", Cert := "cert", Key := "key" }

/-- The TLS secret `default/secret` of `secret_test.go`, with the certificate
"cert" and the key "key". -/
def exCertSecret : Secret :=
  { Name := "secret", Namespace := "default", SecretType := "kubernetes.io/tls",
    Data := GoMap.ofList [("tls.crt", "cert"), ("tls.key", "key")] }

/-- The Service `default/backend` of `secret_test.go`. -/
def exBackend : Service :=
  { Name := "backend", Namespace := "default", Ports := [{ Name := "http", Port := 80 }] }

/-- The root `default/simple-a` of `secret_test.go`, which names the secret
`secret`. -/
def exSimpleA : Proxy :=
  { Name := "simple-a", Namespace := "default",
    Spec := { VirtualHost := some { Fqdn := "www.example.com",
                                    TLS := some { SecretName := "secret" } },
              Routes := [{ Match := "", Services := [{ Name := "backend", Port := 80 }] }] } }

/-- The root `default/simple-b` of `secret_test.go`, which names the secret
`secret` as well. -/
def exSimpleB : Proxy :=
  { Name := "simple-b", Namespace := "default",
    Spec := { VirtualHost := some { Fqdn := "www.other.com",
                                    TLS := some { SecretName := "secret" } },
              Routes := [{ Match := "", Services := [{ Name := "backend", Port := 80 }] }] } }

/-- The case "multiple ingressroutes with shared secret" of `TestSecretVisit`. -/
def exCacheSharedSecret : KubernetesCache :=
  exKubernetesCache.InsertAll [Object.Service exBackend, Object.IngressRoute exSimpleA,
    Object.IngressRoute exSimpleB, Object.Secret exCertSecret]

/-- The case "unassociated secrets" of `TestSecretVisit`, with one secret. -/
def exCacheUnassociated : KubernetesCache :=
  exKubernetesCache.InsertAll [Object.Secret exCertSecret]

/-- The secret `default/invalid` of `TestSDSshouldNotPublishInvalidSecret`,
which is not a TLS secret. -/
def exDockerSecret : Secret :=
  { Name := "invalid", Namespace := "default", SecretType := "kubernetes.io/dockerconfigjson",
    Data := GoMap.ofList [(".dockerconfigjson", "ewogICAgImF1dGhzIjogewogICAgfQp9Cg==")] }

/-- The Ingress `default/simple` of `TestSDSshouldNotPublishInvalidSecret`,
whose TLS section names the secret `invalid` and whose rule names the service
`backend`. -/
def exIngressInvalidSecret : Ingress :=
  { Name := "simple", Namespace := "default",
    Spec := { TLS := ["invalid"], Rules := [["backend"]] } }

/-- The cache of `TestSDSshouldNotPublishInvalidSecret`, with the service of
the Ingress stored as well. -/
def exCacheInvalidSecret : KubernetesCache :=
  exKubernetesCache.InsertAll [Object.Secret exDockerSecret, Object.Service exBackend,
    Object.Ingress exIngressInvalidSecret]

/-- The Ingress `default/simple` of `TestSDSVisibility`, whose TLS section
names the secret `secret` and whose rule names the service `backend`. -/
def exIngressSecret : Ingress :=
  { Name := "simple", Namespace := "default",
    Spec := { TLS := ["secret"], Rules := [["backend"]] } }

/-- The cache of `TestSDSVisibility`: the service `backend` is not stored. -/
def exCacheNoService : KubernetesCache :=
  exKubernetesCache.InsertAll [Object.Secret exCertSecret, Object.Ingress exIngressSecret]

/-- The cache of `TestSDSVisibility` with the service `backend` stored. -/
def exCacheIngressSecret : KubernetesCache :=
  exKubernetesCache.InsertAll [Object.Secret exCertSecret, Object.Service exBackend,
    Object.Ingress exIngressSecret]

/-- A root that names the secret `secret`, sends `/` to `backend` on the port
80 and then `/bar` to `backend` on the port -80. -/
def exLateErrorTLSRoot : Proxy :=
  { Name := "simple-late", Namespace := "default",
    Spec := { VirtualHost := some { Fqdn := "www.example.com",
                                    TLS := some { SecretName := "secret" } },
              Routes := [{ Match := "/", Services := [{ Name := "backend", Port := 80 }] },
                         { Match := "/bar", Services := [{ Name := "backend", Port := -80 }] }] } }

/-- The root `exLateErrorTLSRoot`, its service and its secret. -/
def exCacheLateErrorTLS : KubernetesCache :=
  exKubernetesCache.InsertAll [Object.Service exBackend, Object.IngressRoute exLateErrorTLSRoot,
    Object.Secret exCertSecret]

/-- A cache that holds two clusters of the same Name under different keys. -/
def exTwinCache : ClusterCache :=
  { values := GoMap.ofList
      [("a", { Name := "default/kuard/80/da39a3ee5e", AltStatName := "first", ServiceName := "" }),
       ("b", { Name := "default/kuard/80/da39a3ee5e", AltStatName := "second", ServiceName := "" })],
    cond := { last := 0 } }

/-- A cache that holds both clusters of `default/kuard`, each under its name. -/
def exKuardCache : ClusterCache := { values := exKuardMap, cond := { last := 0 } }

/-- A package envoy for the example in which the cluster shows the vertex it
was built from: the weight of the vertex is its alt-stat name. -/
def exEnvoyWeighted : Envoy ExDagCluster :=
  { Clustername := fun c => c.name,
    Cluster := fun c => { Name := c.name, AltStatName := toString c.weight, ServiceName := "" } }

/-- A Service that lists the port 443 under h2 and under tls, and the port 8080
under h2. -/
def exBothProtocols : GoMap String :=
  GoMap.ofList
    [("contour.heptio.com/upstream-protocol.h2", "443,8080"),
     ("contour.heptio.com/upstream-protocol.tls", "443")]

/-- An Ingress whose Contour class annotation is empty and whose Kubernetes
class annotation names "nginx". -/
def exEmptyContourClass : GoMap String :=
  GoMap.ofList
    [("contour.heptio.com/ingress.class", ""), ("kubernetes.io/ingress.class", "nginx")]

/-- An Ingress with two websocket routes among blanks and commas. -/
def exWebsocketIngress : Ingress :=
  { Name := "ws", Namespace := "default",
    Annotations := GoMap.ofList [("contour.heptio.com/websocket-routes", " /ws1 ,, /ws2 , ")] }

/-- An Ingress whose websocket annotation holds white space only. -/
def exBlankWebsocketIngress : Ingress :=
  { Name := "ws", Namespace := "default",
    Annotations := GoMap.ofList [("contour.heptio.com/websocket-routes", "  ")] }

/-- A graph with a cycle: its only vertex is its own child. -/
def exLoop : Dag ExDagCluster := { asCluster := fun _ => none, children := fun _ => [0] }

/-! ## Lemmas on the order of names and on the sort -/

theorem strLess_iff (a b : String) : strLess a b = true ↔ a < b := by
  unfold strLess
  rw [decide_eq_true_iff, String.lt_iff_toList_lt]

theorem less_eq_false_iff (a b : Cluster) :
    clusterByName.Less b a = false ↔ a.Name ≤ b.Name := by
  unfold clusterByName.Less
  rw [← not_lt, ← strLess_iff, Bool.not_eq_true]

theorem lessTotal : IsTotal Cluster (fun a b => clusterByName.Less b a = false) :=
  ⟨fun a b => by
    simp only [less_eq_false_iff]
    exact le_total _ _⟩

theorem lessTrans : IsTrans Cluster (fun a b => clusterByName.Less b a = false) :=
  ⟨fun a b c => by
    simp only [less_eq_false_iff]
    exact le_trans⟩

theorem sortStable_perm (l : List Cluster) : (clusterByName.sortStable l).Perm l :=
  List.perm_insertionSort _ l

theorem sortStable_pairwise (l : List Cluster) :
    List.Pairwise (fun a b => a.Name ≤ b.Name) (clusterByName.sortStable l) := by
  haveI := lessTotal
  haveI := lessTrans
  have h := List.sorted_insertionSort (fun a b => clusterByName.Less b a = false) l
  exact List.Pairwise.imp (fun {a b} hab => (less_eq_false_iff a b).1 hab) h

theorem mem_sortStable {l : List Cluster} {x : Cluster} :
    x ∈ clusterByName.sortStable l ↔ x ∈ l :=
  (sortStable_perm l).mem_iff

/-! ## Lemmas on the loops of the cache -/

theorem foldl_append_values (entries : List (Sigma (fun _ : String => Cluster)))
    (acc : List Cluster) :
    entries.foldl (fun values e => values ++ [e.2]) acc = acc ++ entries.map (fun e => e.2) := by
  induction entries generalizing acc with
  | nil => simp
  | cons e es ih => simp [ih]

theorem foldl_append_lookup (m : GoMap Cluster) (names : List String) (acc : List Cluster) :
    names.foldl
      (fun values n =>
        match m.lookup n with
        | some v => values ++ [v]
        | none => values) acc
      = acc ++ names.filterMap (fun n => m.lookup n) := by
  induction names generalizing acc with
  | nil => simp
  | cons n ns ih =>
    rw [List.foldl_cons, ih]
    cases h : m.lookup n with
    | none => simp [List.filterMap_cons, h]
    | some v => simp [List.filterMap_cons, h]

theorem Contents_eq (c : ClusterCache) :
    c.Contents = clusterByName.sortStable c.values.values := by
  unfold ClusterCache.Contents GoMap.values
  simp only [foldl_append_values, List.nil_append]

theorem Query_eq (c : ClusterCache) (names : List String) :
    c.Query names = clusterByName.sortStable (names.filterMap (fun n => c.values.lookup n)) := by
  unfold ClusterCache.Query
  simp only [foldl_append_lookup, List.nil_append]

theorem mem_values_iff {V : Type} (m : GoMap V) (v : V) :
    v ∈ m.values ↔ ∃ k, m.lookup k = some v := by
  unfold GoMap.values
  constructor
  · intro h
    obtain ⟨e, he, rfl⟩ := List.mem_map.1 h
    exact ⟨e.1, AList.mem_lookup_iff.2 he⟩
  · rintro ⟨k, hk⟩
    exact List.mem_map.2 ⟨⟨k, v⟩, AList.mem_lookup_iff.1 hk, rfl⟩

theorem values_perm_of_lookup (m : GoMap Cluster) (n : String) (v : Cluster)
    (h : m.lookup n = some v) : m.values.Perm (v :: GoMap.values (m.erase n)) := by
  have hmem : n ∈ m.entries.keys := by
    have : n ∈ m := AList.lookup_isSome.1 (by rw [h]; rfl)
    exact AList.mem_keys.1 this
  obtain ⟨b, l₁, l₂, -, hl, hk⟩ := List.exists_of_kerase hmem
  have hb : b = v := by
    have h1 : (⟨n, b⟩ : Sigma (fun _ : String => Cluster)) ∈ m.entries := by
      rw [hl]
      simp
    have h2 := AList.mem_lookup_iff.2 h1
    rw [h] at h2
    exact (Option.some.inj h2).symm
  subst hb
  have he : (m.erase n).entries = l₁ ++ l₂ := hk
  show (m.entries.map (fun e => e.2)).Perm (b :: (m.erase n).entries.map (fun e => e.2))
  rw [he, hl]
  simp only [List.map_append, List.map_cons]
  exact List.perm_middle

theorem filterMap_lookup_subperm (names : List String) (hnd : names.Nodup) :
    ∀ m : GoMap Cluster, (names.filterMap (fun n => m.lookup n)).Subperm m.values := by
  induction names with
  | nil =>
    intro m
    exact List.nil_subperm
  | cons n ns ih =>
    intro m
    have hn : n ∉ ns := (List.nodup_cons.1 hnd).1
    have hns : ns.Nodup := (List.nodup_cons.1 hnd).2
    cases h : m.lookup n with
    | none =>
      simp only [List.filterMap_cons, h]
      exact ih hns m
    | some v =>
      simp only [List.filterMap_cons, h]
      have hcongr : ns.filterMap (fun k => m.lookup k)
          = ns.filterMap (fun k => (m.erase n).lookup k) := by
        apply List.filterMap_congr
        intro k hk
        have hne : k ≠ n := fun hkn => hn (hkn ▸ hk)
        exact (AList.lookup_erase_ne hne).symm
      rw [hcongr]
      have h1 : (v :: ns.filterMap (fun k => (m.erase n).lookup k)).Subperm
          (v :: GoMap.values (m.erase n)) := (List.subperm_cons v).2 (ih hns (m.erase n))
      exact h1.trans (values_perm_of_lookup m n v h).symm.subperm

theorem Query_subperm_Contents (c : ClusterCache) (names : List String) (hnd : names.Nodup) :
    (c.Query names).Subperm c.Contents := by
  rw [Query_eq, Contents_eq]
  exact ((sortStable_perm _).subperm.trans (filterMap_lookup_subperm names hnd c.values)).trans
    (sortStable_perm _).symm.subperm

theorem values_names_nodup (m : GoMap Cluster)
    (hinj : ∀ k₁ k₂ v₁ v₂, m.lookup k₁ = some v₁ → m.lookup k₂ = some v₂ →
      v₁.Name = v₂.Name → k₁ = k₂) :
    (m.values.map (fun v => v.Name)).Nodup := by
  unfold GoMap.values
  rw [List.map_map]
  have hk : List.Pairwise (fun s s' : Sigma (fun _ : String => Cluster) => s.fst ≠ s'.fst)
      m.entries := List.nodupKeys_iff_pairwise.1 m.nodupKeys
  have hmem : ∀ e ∈ m.entries, m.lookup e.1 = some e.2 := fun e he =>
    AList.mem_lookup_iff.2 he
  unfold List.Nodup
  rw [List.pairwise_map]
  have hk2 : List.Pairwise
      (fun s s' : Sigma (fun _ : String => Cluster) =>
        s ∈ m.entries ∧ s' ∈ m.entries ∧ s.fst ≠ s'.fst) m.entries := by
    have := List.Pairwise.and_mem.1 hk
    exact this.imp (fun {a b} h => ⟨h.1, h.2.1, h.2.2⟩)
  exact hk2.imp (fun {a b} h hab => h.2.2 (hinj a.1 b.1 a.2 b.2 (hmem a h.1) (hmem b h.2.1) hab))

theorem strict_of_pairwise_le_of_nodup (l : List Cluster)
    (hs : List.Pairwise (fun a b => a.Name ≤ b.Name) l)
    (hnd : (l.map (fun v => v.Name)).Nodup) :
    List.Sorted (fun a b : Cluster => a.Name < b.Name) l := by
  unfold List.Nodup at hnd
  rw [List.pairwise_map] at hnd
  exact (hs.and hnd).imp (fun {a b} h => lt_of_le_of_ne h.1 h.2)

theorem nameLtAntisymm : IsAntisymm Cluster (fun a b => a.Name < b.Name) :=
  ⟨fun _ _ h1 h2 => absurd h2 (not_lt_of_gt h1)⟩

/-! ## The resource cache -/

/-- C1: after `Update(m)`, `Contents()` is in ascending order of `Name`: every
adjacent pair, and indeed every pair, has the earlier `Name` at most the later
one; the cluster of port 443 of `default/kuard` comes before that of port 80. -/
theorem C1_Contents_ascending (c : ClusterCache) (m : GoMap Cluster) :
    List.Chain' (fun a b => a.Name ≤ b.Name) (c.Update m).Contents
    ∧ List.Pairwise (fun a b => a.Name ≤ b.Name) (c.Update m).Contents
    ∧ (c.Update exKuardMap).Contents = [exKuard443, exKuard80] := by
  have hp : List.Pairwise (fun a b => a.Name ≤ b.Name) (c.Update m).Contents := by
    rw [Contents_eq]
    exact sortStable_pairwise _
  refine ⟨List.Pairwise.chain' hp, hp, ?_⟩
  rw [Contents_eq]
  show clusterByName.sortStable exKuardMap.values = [exKuard443, exKuard80]
  decide

/-- C2: every element of `Query(names)` is the value stored under some name
of `names`, and every registered name of `names` has its value in the result;
names that are not keys contribute nothing (dropping them from `names` leaves
the result unchanged), so when no name of `names` is a key the result is
empty. -/
theorem C2_Query_registered_only (c : ClusterCache) (names : List String) :
    (∀ v ∈ c.Query names, ∃ n ∈ names, c.values.lookup n = some v)
    ∧ (∀ n ∈ names, ∀ v, c.values.lookup n = some v → v ∈ c.Query names)
    ∧ c.Query names = c.Query (names.filter (fun n => (c.values.lookup n).isSome))
    ∧ ((∀ n ∈ names, c.values.lookup n = none) → c.Query names = []) := by
  refine ⟨?_, ?_, ?_, ?_⟩
  · intro v hv
    rw [Query_eq, mem_sortStable, List.mem_filterMap] at hv
    exact hv
  · intro n hn v hv
    rw [Query_eq, mem_sortStable, List.mem_filterMap]
    exact ⟨n, hn, hv⟩
  · rw [Query_eq, Query_eq]
    congr 1
    induction names with
    | nil => rfl
    | cons n ns ih =>
      cases h : c.values.lookup n with
      | none => simp [List.filterMap_cons, List.filter_cons, h, ih]
      | some v => simp [List.filterMap_cons, List.filter_cons, h, ih]
  · intro h
    rw [Query_eq]
    have : names.filterMap (fun n => c.values.lookup n) = [] := by
      rw [List.filterMap_eq_nil_iff]
      exact h
    rw [this]
    rfl

/-- C2 at an input: the cache holds the cluster of port 80 only; a query for
the names of port 443 and of an unknown cluster is empty. -/
theorem C2_Query_registered_only_witness :
    exCache.Query ["default/kuard/443/da39a3ee5e", "default/other/80/da39a3ee5e"] = [] :=
  (C2_Query_registered_only exCache
    ["default/kuard/443/da39a3ee5e", "default/other/80/da39a3ee5e"]).2.2.2 (by decide)

/-- C3, as the code has it: `Update` notifies on every call, whether or not
the new map differs from the contents held before. The version after the call
is the version before plus one, and the cache holds the new map. -/
theorem C3_Update_always_bumps (c : ClusterCache) (m : GoMap Cluster) :
    (c.Update m).version = c.version + 1
    ∧ c.version < (c.Update m).version
    ∧ (c.Update m).values = m := by
  refine ⟨rfl, ?_, rfl⟩
  show c.cond.last < c.cond.last + 1
  exact Nat.lt_succ_self _

/-- C3 fails as stated: updating the example cache with the map it already
holds leaves `Contents()` as it was, and yet the version rises from 3 to 4. -/
theorem C3_counterexample :
    (exCache.Update exKuard80Map).Contents = exCache.Contents
    ∧ exCache.version = 3
    ∧ (exCache.Update exKuard80Map).version = 4
    ∧ ¬ (exCache.version < (exCache.Update exKuard80Map).version
          ↔ (exCache.Update exKuard80Map).Contents ≠ exCache.Contents) := by
  refine ⟨rfl, rfl, rfl, ?_⟩
  intro h
  exact h.1 (by decide) rfl

/-- C4: after `Update(m)`, `Contents()` is a permutation of the values of `m`
and has as many elements as `m` has entries, whatever the cache held before:
two caches updated with the same map have the same contents, every element is
stored in `m`, and for the empty map the contents are empty. -/
theorem C4_Contents_after_Update (c : ClusterCache) (m : GoMap Cluster) :
    (c.Update m).Contents.Perm m.values
    ∧ (c.Update m).Contents.length = m.entries.length
    ∧ (∀ c0 : ClusterCache, (c0.Update m).Contents = (c.Update m).Contents)
    ∧ (∀ v ∈ (c.Update m).Contents, ∃ k, m.lookup k = some v)
    ∧ (c.Update ∅).Contents = [] := by
  have hp : (c.Update m).Contents.Perm m.values := by
    rw [Contents_eq]
    exact sortStable_perm _
  refine ⟨hp, ?_, ?_, ?_, ?_⟩
  · rw [hp.length_eq]
    simp [GoMap.values]
  · intro c0
    rfl
  · intro v hv
    exact (mem_values_iff m v).1 (hp.mem_iff.1 hv)
  · rfl

/-- C5, amended. When `names` has no repeated name, `Query(names)` holds no
element more often than `Contents()` does; when moreover clusters stored under
different keys have different Names (as when each is stored under its own
Name), `Query(names)` is a subsequence of `Contents()`. -/
theorem C5_Query_subsequence_of_Contents (c : ClusterCache) (names : List String)
    (hnd : names.Nodup) :
    (c.Query names).Subperm c.Contents
    ∧ ((∀ k₁ k₂ v₁ v₂, c.values.lookup k₁ = some v₁ → c.values.lookup k₂ = some v₂ →
          v₁.Name = v₂.Name → k₁ = k₂) →
        (c.Query names).Sublist c.Contents) := by
  have hsub := Query_subperm_Contents c names hnd
  refine ⟨hsub, fun hinj => ?_⟩
  have hC : (c.Contents.map (fun v => v.Name)).Nodup := by
    have hp : (c.Contents.map (fun v => v.Name)).Perm (c.values.values.map (fun v => v.Name)) := by
      rw [Contents_eq]
      exact (sortStable_perm _).map _
    exact hp.nodup_iff.2 (values_names_nodup c.values hinj)
  have hQ : ((c.Query names).map (fun v => v.Name)).Nodup := by
    obtain ⟨l, hl, hls⟩ := hsub
    exact (hl.map (fun v : Cluster => v.Name)).nodup_iff.1
      (hC.sublist (hls.map (fun v : Cluster => v.Name)))
  have sC : List.Sorted (fun a b : Cluster => a.Name < b.Name) c.Contents := by
    apply strict_of_pairwise_le_of_nodup _ _ hC
    rw [Contents_eq]
    exact sortStable_pairwise _
  have sQ : List.Sorted (fun a b : Cluster => a.Name < b.Name) (c.Query names) := by
    apply strict_of_pairwise_le_of_nodup _ _ hQ
    rw [Query_eq]
    exact sortStable_pairwise _
  haveI := nameLtAntisymm
  exact List.sublist_of_subperm_of_sorted hsub sQ sC

/-- C5 at an input: a query for the two names of `default/kuard`, port 80
first, against the cache that holds the cluster of port 80 only. -/
theorem C5_Query_subsequence_of_Contents_witness :
    (exCache.Query ["default/kuard/80/da39a3ee5e", "default/kuard/443/da39a3ee5e"]).Subperm
      exCache.Contents :=
  (C5_Query_subsequence_of_Contents exCache
    ["default/kuard/80/da39a3ee5e", "default/kuard/443/da39a3ee5e"] (by decide)).1

/-- C5 fails as stated: a name listed twice yields its cluster twice, and the
result is then no subsequence of `Contents()`, which holds the cluster once. -/
theorem C5_counterexample :
    exCache.Query ["default/kuard/80/da39a3ee5e", "default/kuard/80/da39a3ee5e"]
      = [exKuard80, exKuard80]
    ∧ exCache.Contents = [exKuard80]
    ∧ ¬ (exCache.Query ["default/kuard/80/da39a3ee5e", "default/kuard/80/da39a3ee5e"]).Sublist
          exCache.Contents := by
  refine ⟨by decide, by decide, ?_⟩
  intro h
  have hlen := h.length_le
  revert hlen
  decide

/-! ## The cluster visitor -/

theorem reachable_iff {K : Type} (g : Dag K) (x v : Nat) :
    g.Reachable x v ↔ v = x ∨ ∃ w ∈ g.children x, g.Reachable w v := by
  constructor
  · intro h
    rcases Relation.ReflTransGen.cases_head h with h1 | ⟨w, hw, hwv⟩
    · exact Or.inl h1.symm
    · exact Or.inr ⟨w, hw, hwv⟩
  · rintro (rfl | ⟨w, hw, hwv⟩)
    · exact Relation.ReflTransGen.refl
    · exact Relation.ReflTransGen.head hw hwv

theorem visit_succ {K : Type} (e : Envoy K) (g : Dag K) (fuel : Nat) (cv : clusterVisitor)
    (x : Nat) :
    clusterVisitor.visit e g (fuel + 1) cv x
      = (g.children x).foldlM (fun acc child => clusterVisitor.visit e g fuel acc child)
          (match g.asCluster x with
            | some cluster =>
              match cv.clusters.lookup (e.Clustername cluster) with
              | some _ => cv
              | none => { clusters := cv.clusters.insert (e.Cluster cluster).Name (e.Cluster cluster) }
            | none => cv) := rfl

theorem record_keys {K : Type} (e : Envoy K) (g : Dag K)
    (hname : ∀ c, (e.Cluster c).Name = e.Clustername c) (cv : clusterVisitor) (x : Nat)
    (k : String) :
    k ∈ (match g.asCluster x with
          | some cluster =>
            match cv.clusters.lookup (e.Clustername cluster) with
            | some _ => cv
            | none => { clusters := cv.clusters.insert (e.Cluster cluster).Name (e.Cluster cluster) }
          | none => cv : clusterVisitor).clusters
      ↔ k ∈ cv.clusters ∨ ∃ c, g.asCluster x = some c ∧ e.Clustername c = k := by
  cases hx : g.asCluster x with
  | none => simp
  | some c =>
    cases hl : cv.clusters.lookup (e.Clustername c) with
    | none =>
      simp only [hl, AList.mem_insert, hname]
      constructor
      · rintro (h | h)
        · exact Or.inr ⟨c, rfl, h.symm⟩
        · exact Or.inl h
      · rintro (h | ⟨c', hc', h⟩)
        · exact Or.inr h
        · cases hc'
          exact Or.inl h.symm
    | some v =>
      have hmem : e.Clustername c ∈ cv.clusters := AList.lookup_isSome.1 (by rw [hl]; rfl)
      simp only [hl]
      constructor
      · exact Or.inl
      · rintro (h | ⟨c', hc', h⟩)
        · exact h
        · cases hc'
          exact h ▸ hmem

theorem foldlM_visit_keys {K : Type} (e : Envoy K) (g : Dag K) (fuel : Nat)
    (ws : List Nat)
    (ih : ∀ w ∈ ws, ∀ cv : clusterVisitor, ∃ cv', clusterVisitor.visit e g fuel cv w = some cv' ∧
      ∀ k, k ∈ cv'.clusters ↔
        k ∈ cv.clusters ∨ ∃ v c, g.Reachable w v ∧ g.asCluster v = some c ∧ e.Clustername c = k) :
    ∀ cv : clusterVisitor, ∃ cv',
      ws.foldlM (fun acc child => clusterVisitor.visit e g fuel acc child) cv = some cv' ∧
      ∀ k, k ∈ cv'.clusters ↔
        k ∈ cv.clusters ∨
          ∃ w ∈ ws, ∃ v c, g.Reachable w v ∧ g.asCluster v = some c ∧ e.Clustername c = k := by
  induction ws with
  | nil =>
    intro cv
    exact ⟨cv, rfl, fun k => by simp⟩
  | cons w ws ihws =>
    intro cv
    obtain ⟨cv1, h1, hk1⟩ := ih w (List.mem_cons_self _ _) cv
    obtain ⟨cv2, h2, hk2⟩ := ihws (fun w' hw' => ih w' (List.mem_cons_of_mem _ hw')) cv1
    refine ⟨cv2, ?_, fun k => ?_⟩
    · rw [List.foldlM_cons, h1]
      exact h2
    · rw [hk2, hk1]
      simp only [List.mem_cons, exists_eq_or_imp, or_assoc]

theorem visit_keys {K : Type} (e : Envoy K) (g : Dag K)
    (hname : ∀ c, (e.Cluster c).Name = e.Clustername c) (rank : Nat → Nat) :
    ∀ (fuel x : Nat), rank x < fuel →
      (∀ v, g.Reachable x v → ∀ w ∈ g.children v, rank w < rank v) →
      ∀ cv : clusterVisitor, ∃ cv', clusterVisitor.visit e g fuel cv x = some cv' ∧
        ∀ k, k ∈ cv'.clusters ↔
          k ∈ cv.clusters ∨
            ∃ v c, g.Reachable x v ∧ g.asCluster v = some c ∧ e.Clustername c = k := by
  intro fuel
  induction fuel with
  | zero =>
    intro x hx
    exact absurd hx (Nat.not_lt_zero _)
  | succ fuel ih =>
    intro x hx hrank cv
    have hch : ∀ w ∈ g.children x, ∀ cv : clusterVisitor,
        ∃ cv', clusterVisitor.visit e g fuel cv w = some cv' ∧
          ∀ k, k ∈ cv'.clusters ↔
            k ∈ cv.clusters ∨
              ∃ v c, g.Reachable w v ∧ g.asCluster v = some c ∧ e.Clustername c = k := by
      intro w hw
      have hlt : rank w < rank x := hrank x Relation.ReflTransGen.refl w hw
      apply ih w (by omega)
      intro v hv
      exact hrank v (Relation.ReflTransGen.head hw hv)
    obtain ⟨cv', hcv', hk⟩ := foldlM_visit_keys e g fuel (g.children x) hch
      (match g.asCluster x with
        | some cluster =>
          match cv.clusters.lookup (e.Clustername cluster) with
          | some _ => cv
          | none => { clusters := cv.clusters.insert (e.Cluster cluster).Name (e.Cluster cluster) }
        | none => cv)
    refine ⟨cv', ?_, fun k => ?_⟩
    · rw [visit_succ]
      exact hcv'
    · rw [hk, record_keys e g hname cv x k]
      constructor
      · rintro ((h | ⟨c, hc, h⟩) | ⟨w, hw, v, c, hwv, hc, h⟩)
        · exact Or.inl h
        · exact Or.inr ⟨x, c, Relation.ReflTransGen.refl, hc, h⟩
        · exact Or.inr ⟨v, c, Relation.ReflTransGen.head hw hwv, hc, h⟩
      · rintro (h | ⟨v, c, hxv, hc, h⟩)
        · exact Or.inl (Or.inl h)
        · rcases (reachable_iff g x v).1 hxv with rfl | ⟨w, hw, hwv⟩
          · exact Or.inl (Or.inr ⟨c, hc, h⟩)
          · exact Or.inr ⟨w, hw, v, c, hwv, hc, h⟩

/-- C6: on a DAG (the child relation has a height function `rank` on the
vertices reachable from `root`), with `envoy.Cluster` naming a cluster by
`envoy.Clustername`, `visitClusters(root)` returns a map whose keys are
pairwise distinct and are exactly the names `envoy.Clustername(c)` of the
cluster vertices `c` reachable from `root`: every such vertex is represented
and vertices with the same name share one entry. -/
theorem C6_visitClusters_keys {K : Type} (e : Envoy K) (g : Dag K) (rank : Nat → Nat)
    (root fuel : Nat)
    (hname : ∀ c, (e.Cluster c).Name = e.Clustername c)
    (hrank : ∀ v, g.Reachable root v → ∀ w ∈ g.children v, rank w < rank v)
    (hfuel : rank root < fuel) :
    ∃ m, visitClusters e g fuel root = some m
      ∧ m.keys.Nodup
      ∧ ∀ k, k ∈ m.keys ↔
          ∃ v c, g.Reachable root v ∧ g.asCluster v = some c ∧ e.Clustername c = k := by
  obtain ⟨cv, hcv, hk⟩ := visit_keys e g hname rank fuel root hfuel hrank { clusters := ∅ }
  refine ⟨cv.clusters, ?_, cv.clusters.keys_nodup, fun k => ?_⟩
  · unfold visitClusters
    rw [hcv]
    rfl
  · rw [← AList.mem_keys, hk]
    simp

theorem exRank_decreases (v w : Nat) (hw : w ∈ exChildren v) : exRank w < exRank v := by
  match v, hw with
  | 0, hw =>
    simp only [exChildren, List.mem_cons, List.mem_singleton, List.not_mem_nil, or_false] at hw
    rcases hw with rfl | rfl <;> decide
  | 1, hw =>
    simp only [exChildren, List.mem_cons, List.mem_singleton, List.not_mem_nil, or_false] at hw
    rcases hw with rfl | rfl <;> decide
  | 2, hw =>
    simp only [exChildren, List.mem_cons, List.mem_singleton, List.not_mem_nil, or_false] at hw
    rcases hw with rfl | rfl <;> decide
  | n + 3, hw =>
    simp [exChildren] at hw

/-- C6 at an input: the example DAG, walked from its virtual host. The walk
returns a map, and its keys are the two names carried by the three cluster
vertices. -/
theorem C6_visitClusters_keys_witness :
    (∃ m, visitClusters exEnvoy exDag 3 0 = some m
      ∧ m.keys.Nodup
      ∧ ∀ k, k ∈ m.keys ↔
          ∃ v c, exDag.Reachable 0 v ∧ exDag.asCluster v = some c ∧ exEnvoy.Clustername c = k)
    ∧ (visitClusters exEnvoy exDag 3 0).map (fun m => m.keys)
        = some ["default/kuard/443/da39a3ee5e", "default/kuard/80/da39a3ee5e"] :=
  ⟨C6_visitClusters_keys exEnvoy exDag exRank 0 3 (fun _ => rfl)
      (fun v _ w hw => exRank_decreases v w hw) (by decide),
    by decide⟩

/-! ## The ingress class -/

theorem InsertRouting_iff (kc : KubernetesCache) (obj : RoutingObject) :
    kc.InsertRouting obj = true ↔
      getIngressClassAnnotation obj.Annotations = "" ∨
        getIngressClassAnnotation obj.Annotations = kc.ingressClass := by
  unfold KubernetesCache.InsertRouting
  simp only [Bool.or_eq_true, beq_iff_eq]

/-- C7, amended. `Insert` of an Ingress, IngressRoute or HTTPProxy answers from
the class annotation that `getIngressClassAnnotation` selects
(`contour.heptio.com/ingress.class` when present, else
`kubernetes.io/ingress.class`): it returns true when neither annotation is
present, and otherwise exactly when the selected value is empty or is the
configured class. A selected value that names another class gives false,
whatever the other annotation holds. -/
theorem C7_Insert_ingress_class (kc : KubernetesCache) (obj : RoutingObject) :
    (obj.Annotations.lookup "contour.heptio.com/ingress.class" = none →
      obj.Annotations.lookup "kubernetes.io/ingress.class" = none →
      kc.InsertRouting obj = true)
    ∧ (∀ v, obj.Annotations.lookup "contour.heptio.com/ingress.class" = some v →
        (kc.InsertRouting obj = true ↔ v = "" ∨ v = kc.ingressClass))
    ∧ (obj.Annotations.lookup "contour.heptio.com/ingress.class" = none →
        ∀ v, obj.Annotations.lookup "kubernetes.io/ingress.class" = some v →
          (kc.InsertRouting obj = true ↔ v = "" ∨ v = kc.ingressClass)) := by
  refine ⟨fun h1 h2 => ?_, fun v h1 => ?_, fun h1 v h2 => ?_⟩
  · rw [InsertRouting_iff]
    left
    unfold getIngressClassAnnotation
    rw [h1, h2]
  · rw [InsertRouting_iff]
    unfold getIngressClassAnnotation
    rw [h1]
  · rw [InsertRouting_iff]
    unfold getIngressClassAnnotation
    rw [h1, h2]

/-- C7 at an input: the Ingress whose only class annotation names "nginx" is
refused by the cache configured with "contour". -/
theorem C7_Insert_ingress_class_witness :
    exKubernetesCache.InsertRouting exIngressNginx = false := by
  have h := (C7_Insert_ingress_class exKubernetesCache exIngressNginx).2.2 (by decide)
    "nginx" (by decide)
  cases hI : exKubernetesCache.InsertRouting exIngressNginx with
  | false => rfl
  | true =>
    exact absurd (h.1 hI) (by decide)

/-- C7 fails as stated: the Kubernetes annotation of this Ingress names another
class, "nginx", and yet `Insert` returns true, because the Contour annotation,
which comes first, names the configured class. -/
theorem C7_counterexample :
    exIngressBothClasses.Annotations.lookup "kubernetes.io/ingress.class" = some "nginx"
    ∧ "nginx" ≠ exKubernetesCache.ingressClass
    ∧ exKubernetesCache.InsertRouting exIngressBothClasses = true := by
  decide

/-- C8: `getIngressClassAnnotation` returns the value under
`contour.heptio.com/ingress.class` when that key is present, otherwise the
value under `kubernetes.io/ingress.class` when that key is present, otherwise
the empty string. -/
theorem C8_ingress_class_order (annotations : GoMap String) :
    (∀ v, annotations.lookup "contour.heptio.com/ingress.class" = some v →
      getIngressClassAnnotation annotations = v)
    ∧ (annotations.lookup "contour.heptio.com/ingress.class" = none →
        ∀ v, annotations.lookup "kubernetes.io/ingress.class" = some v →
          getIngressClassAnnotation annotations = v)
    ∧ (annotations.lookup "contour.heptio.com/ingress.class" = none →
        annotations.lookup "kubernetes.io/ingress.class" = none →
          getIngressClassAnnotation annotations = "") := by
  refine ⟨fun v h1 => ?_, fun h1 v h2 => ?_, fun h1 h2 => ?_⟩
  · unfold getIngressClassAnnotation
    rw [h1]
  · unfold getIngressClassAnnotation
    rw [h1, h2]
  · unfold getIngressClassAnnotation
    rw [h1, h2]

/-- C8 at an input: with both annotations present the Contour one is
returned. -/
theorem C8_ingress_class_order_witness :
    getIngressClassAnnotation exIngressBothClasses.Annotations = "contour" :=
  (C8_ingress_class_order exIngressBothClasses.Annotations).1 "contour" (by decide)

/-! ## `parseUInt32` -/

theorem le_decimalFrom (cs : List Char) : ∀ n, n ≤ decimalFrom n cs := by
  induction cs with
  | nil => intro n; exact Nat.le_refl _
  | cons c cs ih =>
    intro n
    have h := ih (10 * n + (c.toNat - 48))
    show n ≤ decimalFrom (10 * n + (c.toNat - 48)) cs
    omega

theorem parseUintLoop_ok (cs : List Char) :
    ∀ n, n ≤ 4294967295 → (∀ c ∈ cs, isDecimalDigit c = true) →
      decimalFrom n cs ≤ 4294967295 →
      strconv.parseUintLoop cs n = .ok (decimalFrom n cs) := by
  induction cs with
  | nil => intro n _ _ _; rfl
  | cons c cs ih =>
    intro n hn hd hv
    have hc : 48 ≤ c.toNat ∧ c.toNat ≤ 57 := by
      have := hd c (List.mem_cons_self _ _)
      unfold isDecimalDigit at this
      exact of_decide_eq_true this
    have hstep : decimalFrom n (c :: cs) = decimalFrom (10 * n + (c.toNat - 48)) cs := rfl
    have hle := le_decimalFrom cs (10 * n + (c.toNat - 48))
    rw [hstep] at hv
    have h0 : '0'.toNat = 48 := rfl
    have h9 : '9'.toNat = 57 := rfl
    unfold strconv.parseUintLoop
    simp only [h0, h9, hc, and_self, if_true]
    have hd10 : ¬ (c.toNat - 48 ≥ 10) := by omega
    have hcut : ¬ (n ≥ (2 ^ 64 - 1) / 10 + 1) := by
      norm_num
      omega
    have hm1 : n * 10 % 2 ^ 64 = n * 10 := Nat.mod_eq_of_lt (by norm_num; omega)
    have hm2 : (n * 10 + (c.toNat - 48)) % 2 ^ 64 = n * 10 + (c.toNat - 48) :=
      Nat.mod_eq_of_lt (by norm_num; omega)
    have hrange : ¬ (n * 10 + (c.toNat - 48) < n * 10 ∨ n * 10 + (c.toNat - 48) > 2 ^ 32 - 1) := by
      norm_num
      omega
    simp only [hd10, hcut, hm1, hm2, hrange, if_false]
    rw [hstep]
    have heq : n * 10 + (c.toNat - 48) = 10 * n + (c.toNat - 48) := by omega
    rw [heq]
    exact ih _ (by omega) (fun c' hc' => hd c' (List.mem_cons_of_mem _ hc')) hv
theorem parseUintLoop_error (cs : List Char) :
    ∀ n, n ≤ 4294967295 →
      ¬ ((∀ c ∈ cs, isDecimalDigit c = true) ∧ decimalFrom n cs ≤ 4294967295) →
      ∃ err, strconv.parseUintLoop cs n = .error err := by
  induction cs with
  | nil =>
    intro n hn h
    exact absurd ⟨fun c hc => absurd hc (List.not_mem_nil c), hn⟩ h
  | cons c cs ih =>
    intro n hn h
    have h0 : '0'.toNat = 48 := rfl
    have h9 : '9'.toNat = 57 := rfl
    have ha : 'a'.toNat = 97 := rfl
    have hz : 'z'.toNat = 122 := rfl
    unfold strconv.parseUintLoop
    by_cases hc : 48 ≤ c.toNat ∧ c.toNat ≤ 57
    · simp only [h0, h9, hc, and_self, if_true]
      have hd10 : ¬ (c.toNat - 48 ≥ 10) := by omega
      have hcut : ¬ (n ≥ (2 ^ 64 - 1) / 10 + 1) := by
        norm_num
        omega
      have hm1 : n * 10 % 2 ^ 64 = n * 10 := Nat.mod_eq_of_lt (by norm_num; omega)
      have hm2 : (n * 10 + (c.toNat - 48)) % 2 ^ 64 = n * 10 + (c.toNat - 48) :=
        Nat.mod_eq_of_lt (by norm_num; omega)
      simp only [hd10, hcut, hm1, hm2, if_false]
      by_cases hrange : n * 10 + (c.toNat - 48) < n * 10 ∨ n * 10 + (c.toNat - 48) > 2 ^ 32 - 1
      · simp only [hrange, if_true]
        exact ⟨_, rfl⟩
      · simp only [hrange, if_false]
        have hn1 : n * 10 + (c.toNat - 48) ≤ 4294967295 := by
          norm_num at hrange
          omega
        apply ih _ hn1
        rintro ⟨hd, hv⟩
        apply h
        refine ⟨fun c' hc' => ?_, ?_⟩
        · rcases List.mem_cons.1 hc' with rfl | hc'
          · unfold isDecimalDigit
            exact decide_eq_true hc
          · exact hd c' hc'
        · have heq : n * 10 + (c.toNat - 48) = 10 * n + (c.toNat - 48) := by omega
          rw [heq] at hv
          exact hv
    · simp only [h0, h9, ha, hz, hc, if_false]
      by_cases hl : 97 ≤ strconv.lower c.toNat ∧ strconv.lower c.toNat ≤ 122
      · simp only [hl, and_self, if_true]
        have hd10 : strconv.lower c.toNat - 97 + 10 ≥ 10 := by omega
        simp only [hd10, if_true]
        exact ⟨_, rfl⟩
      · simp only [hl, if_false]
        exact ⟨_, rfl⟩

/-- C9: `parseUInt32(s)` is the number `s` denotes when `s` is a non-empty
string of ASCII decimal digits that denotes at most 4294967295, and zero for
every other `s`: the empty string, a signed number, "1e6", a number above the
range. It is a total function. -/
theorem C9_parseUInt32 (s : String) :
    (isUInt32Decimal s → parseUInt32 s = decimalValue s)
    ∧ (¬ isUInt32Decimal s → parseUInt32 s = 0)
    ∧ parseUInt32 "4294967295" = 4294967295
    ∧ parseUInt32 "007" = 7
    ∧ parseUInt32 "" = 0
    ∧ parseUInt32 "-1" = 0
    ∧ parseUInt32 "+1" = 0
    ∧ parseUInt32 "1e6" = 0
    ∧ parseUInt32 "4294967296" = 0
    ∧ parseUInt32 "99999999999999999999999" = 0 := by
  refine ⟨?_, ?_, by decide, by decide, by decide, by decide, by decide, by decide, by decide,
    by decide⟩
  · rintro ⟨hne, hd, hv⟩
    unfold parseUInt32 strconv.ParseUint
    rw [if_neg hne]
    unfold decimalValue at hv ⊢
    rw [parseUintLoop_ok s.toList 0 (by omega) hd hv]
    exact Nat.mod_eq_of_lt (by omega)
  · intro h
    unfold parseUInt32 strconv.ParseUint
    by_cases hne : s = ""
    · rw [if_pos hne]
    · rw [if_neg hne]
      obtain ⟨err, herr⟩ := parseUintLoop_error s.toList 0 (by omega)
        (fun hh => h ⟨hne, hh.1, hh.2⟩)
      rw [herr]

/-- C9 at an input: "65535" is a decimal within range and parses to 65535. -/
theorem C9_parseUInt32_witness : parseUInt32 "65535" = 65535 :=
  ((C9_parseUInt32 "65535").1 (by decide)).trans (by decide)
/-! ## `parseUpstreamProtocols` -/

/-- The inner loop of `parseUpstreamProtocols`, over the pieces of one
annotation. -/
theorem lookup_inner_fold (protocol : String) (vs : List String) :
    ∀ (up : GoMap String) (port : String),
      (vs.foldl
        (fun up v => if strings.TrimSpace v ≠ "" then up.insert (strings.TrimSpace v) protocol
          else up) up).lookup port
        = if port ∈ (vs.map strings.TrimSpace).filter (fun port => decide (port ≠ ""))
          then some protocol else up.lookup port := by
  induction vs with
  | nil => intro up port; simp
  | cons v vs ih =>
    intro up port
    rw [List.foldl_cons, ih]
    by_cases hv : strings.TrimSpace v = ""
    · simp [hv]
    · by_cases hp : port = strings.TrimSpace v
      · subst hp
        simp [hv]
      · simp [hv, hp, List.filter_cons, AList.lookup_insert_ne hp]
theorem lookup_outer_fold (annotations : GoMap String) ( annotation : String)
    (protocols : List String) (port : String) :
    ∀ up : GoMap String,
      (protocols.foldl
        (fun up protocol =>
          let ports := annotations.index ( annotation ++ "." ++ protocol)
          (strings.Split ports ',').foldl
            (fun up v =>
              let port := strings.TrimSpace v
              if port ≠ "" then up.insert port protocol else up)
            up)
        up).lookup port
      = protocols.foldl
          (fun acc protocol =>
            if port ∈ upstreamPorts annotations annotation protocol then some protocol else acc)
          (up.lookup port) := by
  induction protocols with
  | nil => intro up; rfl
  | cons p ps ih =>
    intro up
    rw [List.foldl_cons, List.foldl_cons, ih]
    congr 1
    exact lookup_inner_fold p _ up port

theorem last_listed_some (annotations : GoMap String) ( annotation : String) (port : String)
    (protocols : List String) :
    ∀ (acc : Option String) (q : String),
      protocols.foldl
          (fun acc protocol =>
            if port ∈ upstreamPorts annotations annotation protocol then some protocol else acc)
          acc = some q →
        (q ∈ protocols ∧ port ∈ upstreamPorts annotations annotation q) ∨ acc = some q := by
  induction protocols with
  | nil => intro acc q h; exact Or.inr h
  | cons p ps ih =>
    intro acc q h
    rw [List.foldl_cons] at h
    rcases ih _ q h with ⟨hq, hp⟩ | hacc
    · exact Or.inl ⟨List.mem_cons_of_mem _ hq, hp⟩
    · by_cases hport : port ∈ upstreamPorts annotations annotation p
      · rw [if_pos hport] at hacc
        cases hacc
        exact Or.inl ⟨List.mem_cons_self _ _, hport⟩
      · rw [if_neg hport] at hacc
        exact Or.inr hacc

theorem last_listed_isSome (annotations : GoMap String) ( annotation : String) (port : String)
    (protocols : List String) :
    ∀ acc : Option String,
      (protocols.foldl
          (fun acc protocol =>
            if port ∈ upstreamPorts annotations annotation protocol then some protocol else acc)
          acc).isSome = true ↔
        acc.isSome = true ∨ ∃ p ∈ protocols, port ∈ upstreamPorts annotations annotation p := by
  induction protocols with
  | nil => intro acc; simp
  | cons p ps ih =>
    intro acc
    rw [List.foldl_cons, ih]
    by_cases hport : port ∈ upstreamPorts annotations annotation p
    · simp [hport]
    · simp [hport]

theorem splitChars_mem (sep : Char) (l : List Char) :
    ∀ w ∈ strings.splitChars sep l, ∀ c ∈ w, c ∈ l ∧ c ≠ sep := by
  induction l with
  | nil =>
    intro w hw c hc
    simp only [strings.splitChars, List.mem_singleton] at hw
    subst hw
    exact absurd hc (List.not_mem_nil c)
  | cons a l ih =>
    intro w hw c hc
    unfold strings.splitChars at hw
    by_cases ha : a = sep
    · rw [if_pos ha] at hw
      rcases List.mem_cons.1 hw with rfl | hw
      · exact absurd hc (List.not_mem_nil c)
      · exact ⟨List.mem_cons_of_mem _ (ih w hw c hc).1, (ih w hw c hc).2⟩
    · rw [if_neg ha] at hw
      cases hs : strings.splitChars sep l with
      | nil =>
        rw [hs] at hw
        simp only [List.mem_singleton] at hw
        subst hw
        simp only [List.mem_singleton] at hc
        subst hc
        exact ⟨List.mem_cons_self _ _, ha⟩
      | cons w0 ws =>
        rw [hs] at hw ih
        rcases List.mem_cons.1 hw with rfl | hw
        · rcases List.mem_cons.1 hc with rfl | hc
          · exact ⟨List.mem_cons_self _ _, ha⟩
          · have := ih w0 (List.mem_cons_self _ _) c hc
            exact ⟨List.mem_cons_of_mem _ this.1, this.2⟩
        · have := ih w (List.mem_cons_of_mem _ hw) c hc
          exact ⟨List.mem_cons_of_mem _ this.1, this.2⟩

theorem TrimSpace_blank (w : List Char) (h : ∀ c ∈ w, unicode.IsSpace c = true) :
    strings.TrimSpace (String.mk w) = "" := by
  unfold strings.TrimSpace
  have h1 : (String.mk w).toList.dropWhile unicode.IsSpace = [] := by
    rw [List.dropWhile_eq_nil_iff]
    exact h
  rw [h1]
  rfl

theorem upstreamPorts_blank (annotations : GoMap String) ( annotation : String)
    (protocol : String)
    (h : ∀ c ∈ (annotations.index ( annotation ++ "." ++ protocol)).toList,
      c = ',' ∨ unicode.IsSpace c = true) :
    upstreamPorts annotations annotation protocol = [] := by
  unfold upstreamPorts
  rw [List.filter_eq_nil_iff]
  intro port hport
  obtain ⟨v, hv, rfl⟩ := List.mem_map.1 hport
  unfold strings.Split at hv
  obtain ⟨w, hw, rfl⟩ := List.mem_map.1 hv
  have : strings.TrimSpace (String.mk w) = "" := by
    apply TrimSpace_blank
    intro c hc
    have hc2 := splitChars_mem ',' _ w hw c hc
    rcases h c hc2.1 with hcomma | hsp
    · exact absurd hcomma hc2.2
    · exact hsp
  simp [this]

theorem GoMap_eq_empty {V : Type} (m : GoMap V) (h : ∀ k, k ∉ m) : m = ∅ := by
  apply AList.ext
  show m.entries = []
  rw [List.eq_nil_iff_forall_not_mem]
  intro e he
  exact h e.1 (AList.mem_keys.2 (List.mem_map.2 ⟨e, he, rfl⟩))

/-- C10: the keys of the result of `parseUpstreamProtocols` are exactly the
non-empty, trimmed, comma-separated entries of the values stored under
`<annotation>.<protocol>` for the listed protocols, and each key is mapped to a
listed protocol under which it is an entry. When for every listed protocol the
annotation is absent, or holds only white space and commas, the result is the
empty map. "securebackend,443" under tls gives securebackend->tls and
443->tls. -/
theorem C10_parseUpstreamProtocols (annotations : GoMap String) ( annotation : String)
    (protocols : List String) :
    (∀ port, port ∈ (parseUpstreamProtocols annotations annotation protocols).keys ↔
      ∃ protocol ∈ protocols, port ∈ upstreamPorts annotations annotation protocol)
    ∧ (∀ port protocol,
        (parseUpstreamProtocols annotations annotation protocols).lookup port = some protocol →
          protocol ∈ protocols ∧ port ∈ upstreamPorts annotations annotation protocol)
    ∧ ((∀ protocol ∈ protocols,
          annotations.lookup ( annotation ++ "." ++ protocol) = none ∨
          ∃ v, annotations.lookup ( annotation ++ "." ++ protocol) = some v ∧
            ∀ c ∈ v.toList, c = ',' ∨ unicode.IsSpace c = true) →
        parseUpstreamProtocols annotations annotation protocols = ∅)
    ∧ (parseUpstreamProtocols exTLSAnnotations "contour.heptio.com/upstream-protocol"
          ["h2", "h2c", "tls"]).entries = [⟨"443", "tls"⟩, ⟨"securebackend", "tls"⟩]
    ∧ (parseUpstreamProtocols exMixedAnnotations "contour.heptio.com/upstream-protocol"
          ["h2", "h2c", "tls"]).entries = [⟨"https", "tls"⟩, ⟨"8080", "h2"⟩] := by
  have hkeys : ∀ port, port ∈ parseUpstreamProtocols annotations annotation protocols ↔
      ∃ protocol ∈ protocols, port ∈ upstreamPorts annotations annotation protocol := by
    intro port
    rw [← AList.lookup_isSome]
    unfold parseUpstreamProtocols
    rw [lookup_outer_fold, last_listed_isSome]
    simp
  refine ⟨fun port => ?_, fun port protocol h => ?_, fun h => ?_, by decide, by decide⟩
  · rw [← AList.mem_keys]
    exact hkeys port
  · unfold parseUpstreamProtocols at h
    rw [lookup_outer_fold] at h
    rcases last_listed_some annotations annotation port protocols _ protocol h with h1 | h1
    · exact h1
    · simp at h1
  · apply GoMap_eq_empty
    intro port hport
    obtain ⟨p, hp, hmem⟩ := (hkeys port).1 hport
    have hblank : upstreamPorts annotations annotation p = [] := by
      apply upstreamPorts_blank
      intro c hc
      rcases h p hp with hnone | ⟨v, hv, hall⟩
      · unfold GoMap.index at hc
        rw [hnone] at hc
        exact absurd hc (List.not_mem_nil c)
      · unfold GoMap.index at hc
        rw [hv] at hc
        exact hall c hc
    rw [hblank] at hmem
    exact absurd hmem (List.not_mem_nil port)

/-- C10 at an input: no upstream-protocol annotation is present among the
annotations of the Ingress example, and the result is the empty map. -/
theorem C10_parseUpstreamProtocols_witness :
    parseUpstreamProtocols exIngressNginx.Annotations "contour.heptio.com/upstream-protocol"
      ["h2", "h2c", "tls"] = ∅ :=
  (C10_parseUpstreamProtocols exIngressNginx.Annotations "contour.heptio.com/upstream-protocol"
    ["h2", "h2c", "tls"]).2.2.1 (by decide)
/-! ## `httpAllowed` and `tlsRequired` -/

theorem index_eq_iff (m : GoMap String) (key v : String) (hv : v ≠ "") :
    m.index key = v ↔ m.lookup key = some v := by
  unfold GoMap.index
  cases h : m.lookup key with
  | none =>
    simp only [Option.getD_none]
    constructor
    · intro h'
      exact absurd h'.symm hv
    · intro h'
      cases h'
  | some w =>
    simp only [Option.getD_some, Option.some.injEq]

/-- C11: `httpAllowed(i)` is false if and only if the Ingress carries the
annotation `kubernetes.io/ingress.allow-http` with exactly the value "false";
without the annotation, and for every other value, "False" and " false"
included, it is true. -/
theorem C11_httpAllowed (i : Ingress) :
    (httpAllowed i = false ↔
      i.Annotations.lookup "kubernetes.io/ingress.allow-http" = some "false")
    ∧ (i.Annotations.lookup "kubernetes.io/ingress.allow-http" = none → httpAllowed i = true)
    ∧ (∀ v, i.Annotations.lookup "kubernetes.io/ingress.allow-http" = some v → v ≠ "false" →
        httpAllowed i = true)
    ∧ ("False" ≠ "false" ∧ " false" ≠ "false") := by
  have hiff : httpAllowed i = false ↔
      i.Annotations.lookup "kubernetes.io/ingress.allow-http" = some "false" := by
    unfold httpAllowed
    rw [Bool.not_eq_false', beq_iff_eq]
    exact index_eq_iff _ _ _ (by decide)
  refine ⟨hiff, fun h => ?_, fun v h hv => ?_, by decide, by decide⟩
  · cases hb : httpAllowed i with
    | true => rfl
    | false =>
      rw [hiff.1 hb] at h
      cases h
  · cases hb : httpAllowed i with
    | true => rfl
    | false =>
      rw [hiff.1 hb] at h
      exact absurd (Option.some.inj h).symm hv

/-- C12: `tlsRequired(i)` is true if and only if the Ingress carries the
annotation `ingress.kubernetes.io/force-ssl-redirect` with exactly the value
"true"; without the annotation, and for every other value, it is false. -/
theorem C12_tlsRequired (i : Ingress) :
    (tlsRequired i = true ↔
      i.Annotations.lookup "ingress.kubernetes.io/force-ssl-redirect" = some "true")
    ∧ (i.Annotations.lookup "ingress.kubernetes.io/force-ssl-redirect" = none →
        tlsRequired i = false)
    ∧ (∀ v, i.Annotations.lookup "ingress.kubernetes.io/force-ssl-redirect" = some v →
        v ≠ "true" → tlsRequired i = false) := by
  have hiff : tlsRequired i = true ↔
      i.Annotations.lookup "ingress.kubernetes.io/force-ssl-redirect" = some "true" := by
    unfold tlsRequired
    rw [beq_iff_eq]
    exact index_eq_iff _ _ _ (by decide)
  refine ⟨hiff, fun h => ?_, fun v h hv => ?_⟩
  · cases hb : tlsRequired i with
    | false => rfl
    | true =>
      rw [hiff.1 hb] at h
      cases h
  · cases hb : tlsRequired i with
    | false => rfl
    | true =>
      rw [hiff.1 hb] at h
      exact absurd (Option.some.inj h).symm hv
/-! ## The object cache -/

theorem any_entries_iff {V : Type} (store : MetaMap V) (p : Meta → V → Bool) :
    store.entries.any (fun e => p e.1 e.2) = true ↔
      ∃ dm v, store.lookup dm = some v ∧ p dm v = true := by
  rw [List.any_eq_true]
  constructor
  · rintro ⟨e, he, hp⟩
    exact ⟨e.1, e.2, AList.mem_lookup_iff.2 he, hp⟩
  · rintro ⟨dm, v, hl, hp⟩
    exact ⟨⟨dm, v⟩, AList.mem_lookup_iff.1 hl, hp⟩

theorem contains_iff_mem (l : List String) (a : String) : l.contains a = true ↔ a ∈ l := by
  simp

theorem ingressSpec_namesService_iff (spec : IngressSpec) (name : String) :
    spec.namesService name = true ↔ spec.NamesService name := by
  unfold IngressSpec.namesService IngressSpec.NamesService
  simp only [Bool.or_eq_true, beq_iff_eq, List.any_eq_true, contains_iff_mem]

theorem proxySpec_namesService_iff (spec : ProxySpec) (name : String) :
    spec.namesService name = true ↔ spec.NamesService name := by
  unfold ProxySpec.namesService ProxySpec.NamesService
  cases h : spec.TCPProxy with
  | none => simp [List.any_eq_true]
  | some svcs => simp [List.any_eq_true]

theorem serviceRelevant_iff (kc : KubernetesCache) (m : Meta) :
    kc.serviceRelevant m = true ↔ kc.ServiceNamed m := by
  unfold KubernetesCache.serviceRelevant KubernetesCache.ServiceNamed
  simp only [Bool.or_eq_true, or_assoc]
  rw [any_entries_iff kc.ingresses (fun dm spec => dm.ns == m.ns && spec.namesService m.name),
    any_entries_iff kc.ingressroutes (fun dm spec => dm.ns == m.ns && spec.namesService m.name),
    any_entries_iff kc.httpproxies (fun dm spec => dm.ns == m.ns && spec.namesService m.name)]
  simp only [Bool.and_eq_true, beq_iff_eq, ingressSpec_namesService_iff,
    proxySpec_namesService_iff]

theorem delegated_iff (kc : KubernetesCache) (m : Meta) (target : String) :
    kc.delegated m target = true ↔
      ∃ dm grants, kc.delegations.lookup dm = some grants ∧ dm.ns = m.ns
        ∧ ∃ cd ∈ grants, cd.SecretName = m.name
            ∧ (target ∈ cd.TargetNamespaces ∨ "*" ∈ cd.TargetNamespaces) := by
  unfold KubernetesCache.delegated
  rw [any_entries_iff kc.delegations (fun dm grants =>
    dm.ns == m.ns
      && grants.any (fun cd =>
        cd.SecretName == m.name
          && (cd.TargetNamespaces.contains target || cd.TargetNamespaces.contains "*")))]
  simp only [Bool.and_eq_true, beq_iff_eq, List.any_eq_true, Bool.or_eq_true,
    contains_iff_mem]

theorem namedFrom_iff (kc : KubernetesCache) (m : Meta) (docNs : String) (names : List String) :
    kc.namedFrom m docNs names = true ↔ kc.Names m docNs names := by
  unfold KubernetesCache.namedFrom KubernetesCache.Names
  simp only [Bool.or_eq_true, Bool.and_eq_true, beq_iff_eq, contains_iff_mem, delegated_iff]

theorem secretReferenced_iff (kc : KubernetesCache) (m : Meta) :
    kc.secretReferenced m = true ↔ kc.SecretNamed m := by
  unfold KubernetesCache.secretReferenced KubernetesCache.SecretNamed
  simp only [Bool.or_eq_true, or_assoc]
  rw [any_entries_iff kc.ingresses (fun dm spec => kc.namedFrom m dm.ns spec.TLS),
    any_entries_iff kc.ingressroutes (fun dm spec => kc.namedFrom m dm.ns spec.secretNames),
    any_entries_iff kc.httpproxies (fun dm spec => kc.namedFrom m dm.ns spec.secretNames)]
  simp only [namedFrom_iff]

theorem OnAdd_not_relevant (project : KubernetesCache → GoMap Cluster) (eh : EventHandler)
    (obj : Object) (h : (eh.Source.Insert obj).1 = false) :
    eh.OnAdd project obj = { eh with Source := (eh.Source.Insert obj).2 } := by
  unfold EventHandler.OnAdd
  cases hI : eh.Source.Insert obj with
  | mk verdict src =>
    rw [hI] at h
    simp only at h
    subst h
    rfl
theorem Remove_eq_holds (kc : KubernetesCache) (obj : Object) :
    (kc.Remove obj).1 = kc.holds obj := by
  cases obj <;> rfl

theorem holds_Insert (kc : KubernetesCache) (obj : Object) :
    (kc.Insert obj).2.holds obj = (kc.stores obj || kc.holds obj) := by
  cases obj with
  | Ingress i =>
    unfold KubernetesCache.Insert KubernetesCache.stores
    cases h : kc.InsertRouting i.routingObject with
    | true => simp [h, KubernetesCache.holds, AList.lookup_insert]
    | false => simp [h]
  | IngressRoute p =>
    unfold KubernetesCache.Insert KubernetesCache.stores
    cases h : kc.InsertRouting (p.routingObject RoutingKind.IngressRoute) with
    | true => simp [h, KubernetesCache.holds, AList.lookup_insert]
    | false => simp [h]
  | HTTPProxy p =>
    unfold KubernetesCache.Insert KubernetesCache.stores
    cases h : kc.InsertRouting (p.routingObject RoutingKind.HTTPProxy) with
    | true => simp [h, KubernetesCache.holds, AList.lookup_insert]
    | false => simp [h]
  | Service s => simp [KubernetesCache.Insert, KubernetesCache.stores, KubernetesCache.holds]
  | Secret s => simp [KubernetesCache.Insert, KubernetesCache.stores, KubernetesCache.holds]
  | TLSCertificateDelegation d =>
    simp [KubernetesCache.Insert, KubernetesCache.stores, KubernetesCache.holds]
  | Unknown => simp [KubernetesCache.Insert, KubernetesCache.stores, KubernetesCache.holds]

theorem Insert_routing_verdict (kc : KubernetesCache) (obj : Object)
    (h : obj.isRouting = true) : (kc.Insert obj).1 = kc.stores obj := by
  cases obj with
  | Ingress i =>
    cases hc : kc.InsertRouting i.routingObject <;>
      simp [KubernetesCache.Insert, KubernetesCache.stores, hc]
  | IngressRoute p =>
    cases hc : kc.InsertRouting (p.routingObject RoutingKind.IngressRoute) <;>
      simp [KubernetesCache.Insert, KubernetesCache.stores, hc]
  | HTTPProxy p =>
    cases hc : kc.InsertRouting (p.routingObject RoutingKind.HTTPProxy) <;>
      simp [KubernetesCache.Insert, KubernetesCache.stores, hc]
  | Service s => cases h
  | Secret s => cases h
  | TLSCertificateDelegation d => cases h
  | Unknown => cases h

/-- C13: `Insert` of a Service returns true if and only if some stored Ingress,
IngressRoute or HTTPProxy of the namespace of the Service names it, as default
backend, rule backend, route service or TCPProxy service; a reference from
another namespace does not count. When the answer is false the event handler
leaves every resource cache, and so every version, as it was. -/
theorem C13_Insert_service (kc : KubernetesCache) (s : Service) :
    ((kc.Insert (Object.Service s)).1 = true ↔ kc.ServiceNamed s.toMeta)
    ∧ (∀ (project : KubernetesCache → GoMap Cluster) (eh : EventHandler),
        eh.Source = kc → (kc.Insert (Object.Service s)).1 = false →
          (eh.OnAdd project (Object.Service s)).ClusterCache = eh.ClusterCache
          ∧ (eh.OnAdd project (Object.Service s)).ClusterCache.version = eh.ClusterCache.version
          ∧ (eh.OnAdd project (Object.Service s)).ListenerCond = eh.ListenerCond
          ∧ (eh.OnAdd project (Object.Service s)).RouteCond = eh.RouteCond
          ∧ (eh.OnAdd project (Object.Service s)).SecretCond = eh.SecretCond
          ∧ (eh.OnAdd project (Object.Service s)).EndpointCond = eh.EndpointCond) := by
  refine ⟨?_, fun project eh hsrc hfalse => ?_⟩
  · show kc.serviceRelevant s.toMeta = true ↔ _
    exact serviceRelevant_iff kc s.toMeta
  · subst hsrc
    rw [OnAdd_not_relevant project eh _ hfalse]
    exact ⟨rfl, rfl, rfl, rfl, rfl, rfl⟩

/-- C13 at an input: the only stored Ingress that names `service` lives in
`kube-system`; the Service `default/service` is not relevant, and its arrival
leaves the cluster cache at version 3. With the Ingress in `default` the
Service is relevant. -/
theorem C13_Insert_service_witness :
    (exCacheKubeSystem.Insert (Object.Service exService)).1 = false
    ∧ (exEventHandler.OnAdd (fun _ => ∅) (Object.Service exService)).ClusterCache.version = 3
    ∧ (exCacheWww.Insert (Object.Service exService)).1 = true :=
  ⟨by decide,
    ((C13_Insert_service exCacheKubeSystem exService).2 (fun _ => ∅) exEventHandler rfl
      (by decide)).2.1,
    by decide⟩

/-- C14, amended. `Insert` of a kubernetes.io/tls Secret that carries no
`ca.crt` returns true if and only if some stored routing object names it: by
its bare name from the secret's namespace, or as `<ns>/<name>` from a
namespace to which a stored TLSCertificateDelegation of the secret's namespace
grants it (by name or by "*"). A Secret that carries `ca.crt` returns true
whatever its type and whoever names it. A Secret that is neither TLS-typed nor
CA-bearing returns false even when a stored routing object names it. -/
theorem C14_Insert_secret (kc : KubernetesCache) (s : Secret) :
    (s.Data.lookup "ca.crt" = none → s.SecretType = "kubernetes.io/tls" →
      ((kc.Insert (Object.Secret s)).1 = true ↔ kc.SecretNamed s.toMeta))
    ∧ (s.Data.lookup "ca.crt" = none → s.SecretType ≠ "kubernetes.io/tls" →
        (kc.Insert (Object.Secret s)).1 = false)
    ∧ (∀ v, s.Data.lookup "ca.crt" = some v → (kc.Insert (Object.Secret s)).1 = true) := by
  have hI : (kc.Insert (Object.Secret s)).1 = kc.secretRelevant s.toMeta s.body := rfl
  refine ⟨fun hca htls => ?_, fun hca htls => ?_, fun v hca => ?_⟩
  · rw [hI, ← secretReferenced_iff]
    unfold KubernetesCache.secretRelevant Secret.body
    simp [hca, htls]
  · rw [hI]
    unfold KubernetesCache.secretRelevant Secret.body
    simp [hca, htls]
  · rw [hI]
    unfold KubernetesCache.secretRelevant Secret.body
    simp [hca]

/-- C14 at inputs: the TLS secret `default/secret` is relevant when the Ingress
`default/www` names it and when `extra/www` names it under the delegation; a
secret of type "banana" is not relevant although the Ingress names it. -/
theorem C14_Insert_secret_witness :
    (exCacheWww.Insert (Object.Secret exTLSSecret)).1 = true
    ∧ (exCacheDelegated.Insert (Object.Secret exTLSSecret)).1 = true
    ∧ (exCacheWww.Insert (Object.Secret exBananaSecret)).1 = false :=
  ⟨by decide, by decide,
    (C14_Insert_secret exCacheWww exBananaSecret).2.1 (by decide) (by decide)⟩

/-- C14 fails as stated: this kubernetes.io/tls Secret is named by no routing
object, the cache being empty, and yet `Insert` returns true, because it
carries `ca.crt`. -/
theorem C14_counterexample :
    exTLSSecretWithCA.SecretType = "kubernetes.io/tls"
    ∧ exKubernetesCache.ingresses.entries = []
    ∧ exKubernetesCache.ingressroutes.entries = []
    ∧ exKubernetesCache.httpproxies.entries = []
    ∧ (exKubernetesCache.Insert (Object.Secret exTLSSecretWithCA)).1 = true := by
  decide

/-- C15, amended. `Remove(obj)` answers whether the cache holds an object of
the kind, namespace and name of `obj`, not by the relevance rule of `Insert`;
a value of unknown type gives false. For a routing object that the cache did
not hold, `Remove` right after `Insert` repeats the answer of `Insert`: true
if and only if the object carries no or the configured ingress class. -/
theorem C15_Remove_answers_stored (kc : KubernetesCache) (obj : Object) :
    ((kc.Remove obj).1 = true ↔ kc.holds obj = true)
    ∧ (kc.Remove Object.Unknown).1 = false
    ∧ (obj.isRouting = true → kc.holds obj = false →
        ((kc.Insert obj).2.Remove obj).1 = (kc.Insert obj).1) := by
  refine ⟨by rw [Remove_eq_holds], rfl, fun hr hh => ?_⟩
  rw [Remove_eq_holds, holds_Insert, hh, Bool.or_false, Insert_routing_verdict kc obj hr]

/-- C15 at an input: the Ingress with the foreign class "nginx" is refused by
`Insert` and then not found by `Remove`. -/
theorem C15_Remove_answers_stored_witness :
    ((exKubernetesCache.Insert (Object.Ingress exIngressIncorrect)).2.Remove
      (Object.Ingress exIngressIncorrect)).1 = false :=
  ((C15_Remove_answers_stored exKubernetesCache (Object.Ingress exIngressIncorrect)).2.2 rfl
    (by decide)).trans (by decide)

/-- C15 fails as stated: on the cache that holds the unreferenced TLS secret,
the rule of `Insert` for that secret does not hold (`Insert` answers false),
and yet `Remove` returns true. -/
theorem C15_counterexample :
    exCacheSecret.relevant (Object.Secret exTLSSecret) = false
    ∧ (exCacheSecret.Remove (Object.Secret exTLSSecret)).1 = true := by
  decide

/-- C16: `Remove` returns true for an object that the preceding `Insert`
stored: every Service, Secret and TLSCertificateDelegation, referenced or not,
and every routing object of no or the configured class. It returns false when
nothing was stored: after the `Insert` of a routing object of a foreign class
or of a value of unknown type into a cache that did not hold it, and in general
whenever the cache does not hold the object. -/
theorem C16_Remove_after_Insert (kc : KubernetesCache) (obj : Object) :
    (kc.stores obj = true → ((kc.Insert obj).2.Remove obj).1 = true)
    ∧ (∀ s : Service, ((kc.Insert (Object.Service s)).2.Remove (Object.Service s)).1 = true)
    ∧ (∀ s : Secret, ((kc.Insert (Object.Secret s)).2.Remove (Object.Secret s)).1 = true)
    ∧ (kc.stores obj = false → kc.holds obj = false → ((kc.Insert obj).2.Remove obj).1 = false)
    ∧ ((kc.Insert Object.Unknown).2.Remove Object.Unknown).1 = false
    ∧ (kc.holds obj = false → (kc.Remove obj).1 = false) := by
  refine ⟨fun h => ?_, fun s => ?_, fun s => ?_, fun h1 h2 => ?_, rfl, fun h => ?_⟩
  · rw [Remove_eq_holds, holds_Insert, h, Bool.true_or]
  · rw [Remove_eq_holds, holds_Insert]
    rfl
  · rw [Remove_eq_holds, holds_Insert]
    rfl
  · rw [Remove_eq_holds, holds_Insert, h1, h2]
    rfl
  · rw [Remove_eq_holds, h]

/-- C16 at inputs: the unreferenced TLS secret is answered false by `Insert`
and true by the `Remove` that follows; an Ingress that was never inserted is
not found. -/
theorem C16_Remove_after_Insert_witness :
    (exKubernetesCache.Insert (Object.Secret exTLSSecret)).1 = false
    ∧ ((exKubernetesCache.Insert (Object.Secret exTLSSecret)).2.Remove
        (Object.Secret exTLSSecret)).1 = true
    ∧ (exKubernetesCache.Remove (Object.Ingress exIngressWww)).1 = false :=
  ⟨by decide,
    (C16_Remove_after_Insert exKubernetesCache (Object.Secret exTLSSecret)).1 rfl,
    (C16_Remove_after_Insert exKubernetesCache (Object.Ingress exIngressWww)).2.2.2.2.2
      (by decide)⟩
/-! ## The builder -/

theorem delegateStep_ok (kc : KubernetesCache) (k : ProxyKind) (m : Meta) (visited : List Meta)
    (name ns path : String) (steps : List Step)
    (h : kc.delegateStep k m visited name ns path = .ok steps) :
    ∀ s ∈ steps,
      (∃ tspec, (kc.proxies k).lookup (delegateTarget m name ns) = some tspec
          ∧ tspec.VirtualHost = none)
        ∧ ((s = Step.descend (delegateTarget m name ns) path
              ∧ delegateTarget m name ns ∉ visited)
            ∨ (s = Step.cycle (delegateTarget m name ns)
              ∧ delegateTarget m name ns ∈ visited)) := by
  unfold KubernetesCache.delegateStep at h
  cases hl : (kc.proxies k).lookup (delegateTarget m name ns) with
  | none =>
    rw [hl] at h
    cases h
    intro s hs
    exact absurd hs (List.not_mem_nil s)
  | some tspec =>
    rw [hl] at h
    simp only at h
    cases hroot : tspec.VirtualHost with
    | some vh =>
      rw [hroot] at h
      simp at h
    | none =>
      rw [hroot] at h
      simp only [Option.isSome_none, Bool.false_eq_true, if_false] at h
      by_cases hv : visited.contains (delegateTarget m name ns) = true
      · rw [if_pos hv] at h
        cases h
        intro s hs
        rw [List.mem_singleton] at hs
        refine ⟨⟨tspec, rfl, hroot⟩, Or.inr ⟨hs, ?_⟩⟩
        simpa using hv
      · rw [if_neg hv] at h
        cases h
        intro s hs
        rw [List.mem_singleton] at hs
        refine ⟨⟨tspec, rfl, hroot⟩, Or.inl ⟨hs, ?_⟩⟩
        simpa using hv

/-- A step of an item read without error is a route, or a descent into or a
cycle at a stored document that is not a root; a descent leaves the walk, a
cycle stays on it. -/
theorem itemStep_ok (kc : KubernetesCache) (k : ProxyKind) (m : Meta) (visited : List Meta)
    (parent : String) (item : Item) (steps : List Step)
    (h : kc.itemStep k m visited parent item = .ok steps) :
    ∀ s ∈ steps,
      (∃ path, s = Step.route path)
        ∨ (∃ t path tspec, s = Step.descend t path ∧ t ∉ visited
            ∧ (kc.proxies k).lookup t = some tspec ∧ tspec.VirtualHost = none)
        ∨ (∃ t tspec, s = Step.cycle t ∧ t ∈ visited
            ∧ (kc.proxies k).lookup t = some tspec ∧ tspec.VirtualHost = none) := by
  have hdel : ∀ name ns path, kc.delegateStep k m visited name ns path = .ok steps →
      ∀ s ∈ steps,
        (∃ path, s = Step.route path)
          ∨ (∃ t path tspec, s = Step.descend t path ∧ t ∉ visited
              ∧ (kc.proxies k).lookup t = some tspec ∧ tspec.VirtualHost = none)
          ∨ (∃ t tspec, s = Step.cycle t ∧ t ∈ visited
              ∧ (kc.proxies k).lookup t = some tspec ∧ tspec.VirtualHost = none) := by
    intro name ns path hd s hs
    obtain ⟨⟨tspec, hl, hroot⟩, hcase⟩ := delegateStep_ok kc k m visited name ns path steps hd s hs
    rcases hcase with ⟨rfl, hnot⟩ | ⟨rfl, hin⟩
    · exact Or.inr (Or.inl ⟨_, _, tspec, rfl, hnot, hl, hroot⟩)
    · exact Or.inr (Or.inr ⟨_, tspec, rfl, hin, hl, hroot⟩)
  cases item with
  | incl i => exact hdel _ _ _ h
  | route r =>
    simp only [KubernetesCache.itemStep] at h
    by_cases h1 : r.Services ≠ [] ∧ r.Delegate.isSome = true
    · rw [if_pos h1] at h
      cases h
    · rw [if_neg h1] at h
      by_cases h2 : r.Services ≠ []
      · rw [if_pos h2] at h
        by_cases h3 : k = ProxyKind.IngressRoute ∧ ¬ parent.toList.isPrefixOf r.Match.toList = true
        · rw [if_pos h3] at h
          cases h
        · rw [if_neg h3] at h
          cases hf : r.Services.findSome? (kc.serviceError m.ns r.Match) with
          | some st =>
            rw [hf] at h
            cases h
          | none =>
            rw [hf] at h
            cases h
            intro s hs
            rw [List.mem_singleton] at hs
            exact Or.inl ⟨_, hs⟩
      · rw [if_neg h2] at h
        cases hd : r.Delegate with
        | none =>
          rw [hd] at h
          cases h
          intro s hs
          exact absurd hs (List.not_mem_nil s)
        | some d =>
          rw [hd] at h
          exact hdel _ _ _ h

theorem scan_steps (kc : KubernetesCache) (k : ProxyKind) (m : Meta) (visited : List Meta)
    (parent : String) (items : List Item) :
    ∀ s ∈ (kc.scan k m visited parent items).1,
      (∃ path, s = Step.route path)
        ∨ (∃ t path tspec, s = Step.descend t path ∧ t ∉ visited
            ∧ (kc.proxies k).lookup t = some tspec ∧ tspec.VirtualHost = none)
        ∨ (∃ t tspec, s = Step.cycle t ∧ t ∈ visited
            ∧ (kc.proxies k).lookup t = some tspec ∧ tspec.VirtualHost = none) := by
  induction items with
  | nil =>
    intro s hs
    exact absurd hs (List.not_mem_nil s)
  | cons item rest ih =>
    intro s hs
    unfold KubernetesCache.scan at hs
    cases hi : kc.itemStep k m visited parent item with
    | error st =>
      rw [hi] at hs
      exact absurd hs (List.not_mem_nil s)
    | ok steps =>
      rw [hi] at hs
      simp only [List.mem_append] at hs
      rcases hs with hs | hs
      · exact itemStep_ok kc k m visited parent item steps hi s hs
      · exact ih s hs

theorem scan_descend (kc : KubernetesCache) (k : ProxyKind) (m : Meta) (visited : List Meta)
    (parent : String) (items : List Item) (t : Meta) (path : String)
    (h : Step.descend t path ∈ (kc.scan k m visited parent items).1) :
    t ∉ visited ∧ ∃ tspec, (kc.proxies k).lookup t = some tspec ∧ tspec.VirtualHost = none := by
  rcases scan_steps kc k m visited parent items _ h with ⟨p, hp⟩ | ⟨t', p', tspec, he, hn, hl, hr⟩ |
    ⟨t', tspec, he, _, _, _⟩
  · cases hp
  · cases he
    exact ⟨hn, tspec, hl, hr⟩
  · cases he

theorem scan_cycle (kc : KubernetesCache) (k : ProxyKind) (m : Meta) (visited : List Meta)
    (parent : String) (items : List Item) (t : Meta)
    (h : Step.cycle t ∈ (kc.scan k m visited parent items).1) :
    t ∈ visited ∧ ∃ tspec, (kc.proxies k).lookup t = some tspec ∧ tspec.VirtualHost = none := by
  rcases scan_steps kc k m visited parent items _ h with ⟨p, hp⟩ | ⟨t', p', tspec, he, _, _, _⟩ |
    ⟨t', tspec, he, hin, hl, hr⟩
  · cases hp
  · cases he
  · cases he
    exact ⟨hin, tspec, hl, hr⟩

theorem collectEvents_some (f : Step → Option (List Event)) (steps : List Step)
    (h : ∀ s ∈ steps, ∃ a, f s = some a) : ∃ evs, collectEvents f steps = some evs := by
  induction steps with
  | nil => exact ⟨[], rfl⟩
  | cons s ss ih =>
    obtain ⟨a, ha⟩ := h s (List.mem_cons_self s ss)
    obtain ⟨b, hb⟩ := ih (fun s' hs' => h s' (List.mem_cons_of_mem s hs'))
    exact ⟨a ++ b, by simp [collectEvents, ha, hb]⟩

theorem collectEvents_cons (f : Step → Option (List Event)) (s : Step) (ss : List Step)
    (evs : List Event) (h : collectEvents f (s :: ss) = some evs) :
    ∃ a b, f s = some a ∧ collectEvents f ss = some b ∧ evs = a ++ b := by
  unfold collectEvents at h
  cases ha : f s with
  | none => simp [ha] at h
  | some a =>
    cases hb : collectEvents f ss with
    | none => simp [ha, hb] at h
    | some b =>
      simp only [ha, hb, Option.some.injEq] at h
      exact ⟨a, b, rfl, rfl, h.symm⟩

/-- The events of a list of steps are those of its steps. -/
theorem collectEvents_mem (f : Step → Option (List Event)) (steps : List Step)
    (evs : List Event) (h : collectEvents f steps = some evs) (e : Event) :
    e ∈ evs ↔ ∃ s ∈ steps, ∃ a, f s = some a ∧ e ∈ a := by
  induction steps generalizing evs with
  | nil =>
    cases h
    simp
  | cons s ss ih =>
    obtain ⟨a, b, ha, hb, rfl⟩ := collectEvents_cons f s ss evs h
    rw [List.mem_append, ih b hb]
    constructor
    · rintro (he | ⟨s', hs', a', ha', he⟩)
      · exact ⟨s, List.mem_cons_self s ss, a, ha, he⟩
      · exact ⟨s', List.mem_cons_of_mem s hs', a', ha', he⟩
    · rintro ⟨s', hs', a', ha', he⟩
      rcases List.mem_cons.1 hs' with rfl | hs'
      · rw [ha] at ha'
        cases ha'
        exact Or.inl he
      · exact Or.inr ⟨s', hs', a', ha', he⟩

/-- Every step of a list whose events are collected has events. -/
theorem collectEvents_step (f : Step → Option (List Event)) (steps : List Step)
    (evs : List Event) (h : collectEvents f steps = some evs) (s : Step) (hs : s ∈ steps) :
    ∃ a, f s = some a := by
  induction steps generalizing evs with
  | nil => exact absurd hs (List.not_mem_nil s)
  | cons s' ss ih =>
    obtain ⟨a, b, ha, hb, _⟩ := collectEvents_cons f s' ss evs h
    rcases List.mem_cons.1 hs with rfl | hs
    · exact ⟨a, ha⟩
    · exact ih b hb hs

theorem walk_succ (kc : KubernetesCache) (k : ProxyKind) (fuel : Nat) (visited : List Meta)
    (parent : String) (m : Meta) (spec : ProxySpec) :
    kc.walk k (fuel + 1) visited parent m spec
      = (collectEvents (kc.stepEvents k (kc.walk k fuel) visited m)
          (kc.scan k m visited parent spec.items).1).map
          (fun evs => evs ++ [Event.status m (kc.scan k m visited parent spec.items).2]) :=
  rfl

/-- A result of a walk: the events of the steps, then the status of the
document. -/
theorem walk_some (kc : KubernetesCache) (k : ProxyKind) (fuel : Nat) (visited : List Meta)
    (parent : String) (m : Meta) (spec : ProxySpec) (evs : List Event)
    (h : kc.walk k fuel visited parent m spec = some evs) :
    ∃ f cevs, fuel = f + 1
      ∧ collectEvents (kc.stepEvents k (kc.walk k f) visited m)
          (kc.scan k m visited parent spec.items).1 = some cevs
      ∧ evs = cevs ++ [Event.status m (kc.scan k m visited parent spec.items).2] := by
  cases fuel with
  | zero => cases h
  | succ f =>
    rw [walk_succ] at h
    cases hc : collectEvents (kc.stepEvents k (kc.walk k f) visited m)
        (kc.scan k m visited parent spec.items).1 with
    | none => simp [hc] at h
    | some cevs =>
      simp only [hc, Option.map_some', Option.some.injEq] at h
      exact ⟨f, cevs, rfl, hc, h.symm⟩

theorem lookup_mem_keys {V : Type} (store : MetaMap V) (m : Meta) (v : V)
    (h : store.lookup m = some v) : m ∈ store.keys :=
  AList.mem_keys.1 (AList.lookup_isSome.1 (by simp [h]))

/-- Documents on a walk that are stored and distinct are no more than the
stored documents. -/
theorem visited_length_le (kc : KubernetesCache) (k : ProxyKind) (visited : List Meta)
    (hnd : visited.Nodup) (hst : ∀ v ∈ visited, ∃ s, (kc.proxies k).lookup v = some s) :
    visited.length ≤ (kc.proxies k).entries.length := by
  have hsub : visited ⊆ (kc.proxies k).keys := by
    intro v hv
    obtain ⟨s, hs⟩ := hst v hv
    exact lookup_mem_keys _ v s hs
  have h := (List.subperm_of_subset hnd hsub).length_le
  simpa [AList.keys, List.keys] using h

/-- A walk ends: when the bound leaves room for every stored document not yet
on the walk, the walk has a result. -/
theorem walk_total (kc : KubernetesCache) (k : ProxyKind) :
    ∀ (fuel : Nat) (visited : List Meta) (parent : String) (m : Meta) (spec : ProxySpec),
      visited.Nodup → (∀ v ∈ visited, ∃ s, (kc.proxies k).lookup v = some s) →
      (kc.proxies k).entries.length < fuel + visited.length →
      ∃ evs, kc.walk k fuel visited parent m spec = some evs := by
  intro fuel
  induction fuel with
  | zero =>
    intro visited parent m spec hnd hst hlen
    have := visited_length_le kc k visited hnd hst
    omega
  | succ f ih =>
    intro visited parent m spec hnd hst hlen
    rw [walk_succ]
    obtain ⟨cevs, hc⟩ := collectEvents_some (kc.stepEvents k (kc.walk k f) visited m)
      (kc.scan k m visited parent spec.items).1 (by
        intro s hs
        cases s with
        | cycle t => exact ⟨_, rfl⟩
        | route path => exact ⟨_, rfl⟩
        | descend t path =>
          obtain ⟨hnot, tspec, hl, _⟩ := scan_descend kc k m visited parent spec.items t path hs
          simp only [KubernetesCache.stepEvents, hl]
          apply ih
          · exact List.nodup_append.2 ⟨hnd, List.nodup_singleton t, by
              intro a ha hb
              rw [List.mem_singleton] at hb
              exact hnot (hb ▸ ha)⟩
          · intro v hv
            rcases List.mem_append.1 hv with hv | hv
            · exact hst v hv
            · rw [List.mem_singleton] at hv
              exact ⟨tspec, hv ▸ hl⟩
          · simp only [List.length_append, List.length_singleton]
            omega)
    exact ⟨_, by rw [hc]; rfl⟩

theorem mem_roots (kc : KubernetesCache) (k : ProxyKind)
    (x : Sigma (fun _ : Meta => ProxySpec)) :
    x ∈ kc.roots k ↔ (kc.proxies k).lookup x.1 = some x.2 ∧ x.2.VirtualHost.isSome = true := by
  unfold KubernetesCache.roots
  rw [(List.perm_insertionSort _ _).mem_iff, List.mem_filter]
  have h : x ∈ (kc.proxies k).entries ↔ (kc.proxies k).lookup x.1 = some x.2 := by
    cases x with
    | mk a b => exact (AList.mem_lookup_iff).symm
  rw [h]

/-- The walk from a stored root has a result. -/
theorem rootEvents_total (kc : KubernetesCache) (k : ProxyKind) (m : Meta) (spec : ProxySpec)
    (vh : VirtualHost) (hl : (kc.proxies k).lookup m = some spec) :
    ∃ evs, kc.rootEvents k m spec vh = some evs := by
  unfold KubernetesCache.rootEvents
  cases kc.precheck k m spec vh with
  | some st => exact ⟨[], rfl⟩
  | none =>
    apply walk_total kc k
    · exact List.nodup_singleton m
    · intro v hv
      rw [List.mem_singleton] at hv
      exact ⟨spec, hv ▸ hl⟩
    · simp

theorem eventsOf_some (kc : KubernetesCache) (k : ProxyKind)
    (l : List (Sigma (fun _ : Meta => ProxySpec)))
    (h : ∀ x ∈ l, (kc.proxies k).lookup x.1 = some x.2) :
    ∃ evs, kc.eventsOf k l = some evs := by
  induction l with
  | nil => exact ⟨[], rfl⟩
  | cons x rest ih =>
    obtain ⟨b, hb⟩ := ih (fun y hy => h y (List.mem_cons_of_mem x hy))
    unfold KubernetesCache.eventsOf
    cases hv : x.2.VirtualHost with
    | none => exact ⟨b, hb⟩
    | some vh =>
      obtain ⟨a, ha⟩ := rootEvents_total kc k x.1 x.2 vh (h x (List.mem_cons_self x rest))
      exact ⟨a ++ b, by simp [ha, hb]⟩

/-- The builder ends: the events of `Build` exist for every store. -/
theorem buildEvents_total (kc : KubernetesCache) (k : ProxyKind) :
    ∃ evs, kc.buildEvents k = some evs :=
  eventsOf_some kc k (kc.roots k) (fun x hx => ((mem_roots kc k x).1 hx).1)

/-- The events of the walks of a list of roots are those of the walk of each
root; each of these walks has a result. -/
theorem eventsOf_mem (kc : KubernetesCache) (k : ProxyKind)
    (l : List (Sigma (fun _ : Meta => ProxySpec))) (evs : List Event)
    (h : kc.eventsOf k l = some evs) :
    (∀ x ∈ l, ∀ vh, x.2.VirtualHost = some vh → ∃ a, kc.rootEvents k x.1 x.2 vh = some a
        ∧ ∀ e ∈ a, e ∈ evs)
      ∧ ∀ e ∈ evs, ∃ x ∈ l, ∃ vh a, x.2.VirtualHost = some vh
          ∧ kc.rootEvents k x.1 x.2 vh = some a ∧ e ∈ a := by
  induction l generalizing evs with
  | nil =>
    cases h
    exact ⟨fun x hx => absurd hx (List.not_mem_nil x), fun e he => absurd he (List.not_mem_nil e)⟩
  | cons y rest ih =>
    unfold KubernetesCache.eventsOf at h
    cases hv : y.2.VirtualHost with
    | none =>
      simp only [hv] at h
      obtain ⟨ih1, ih2⟩ := ih evs h
      refine ⟨?_, ?_⟩
      · intro x hx vh hxv
        rcases List.mem_cons.1 hx with rfl | hx
        · rw [hv] at hxv
          cases hxv
        · exact ih1 x hx vh hxv
      · intro e he
        obtain ⟨x, hx, r⟩ := ih2 e he
        exact ⟨x, List.mem_cons_of_mem y hx, r⟩
    | some vh =>
      simp only [hv] at h
      cases ha : kc.rootEvents k y.1 y.2 vh with
      | none => simp [ha] at h
      | some a =>
        cases hb : kc.eventsOf k rest with
        | none => simp [ha, hb] at h
        | some b =>
          simp only [ha, hb, Option.some.injEq] at h
          subst h
          obtain ⟨ih1, ih2⟩ := ih b hb
          refine ⟨?_, ?_⟩
          · intro x hx vh' hxv
            rcases List.mem_cons.1 hx with rfl | hx
            · rw [hv] at hxv
              cases hxv
              exact ⟨a, ha, fun e he => List.mem_append_left b he⟩
            · obtain ⟨a', ha', hsub⟩ := ih1 x hx vh' hxv
              exact ⟨a', ha', fun e he => List.mem_append_right a (hsub e he)⟩
          · intro e he
            rcases List.mem_append.1 he with he | he
            · exact ⟨y, List.mem_cons_self y rest, vh, a, hv, ha, he⟩
            · obtain ⟨x, hx, r⟩ := ih2 e he
              exact ⟨x, List.mem_cons_of_mem y hx, r⟩

/-- An event of a walk is recorded against the walked document, or against a
stored document that is not a root. -/
theorem walk_sources (kc : KubernetesCache) (k : ProxyKind) :
    ∀ (fuel : Nat) (visited : List Meta) (parent : String) (m : Meta) (spec : ProxySpec)
      (evs : List Event), kc.walk k fuel visited parent m spec = some evs →
      ∀ e ∈ evs, e.source = m
        ∨ ∃ tspec, (kc.proxies k).lookup e.source = some tspec ∧ tspec.VirtualHost = none := by
  intro fuel
  induction fuel with
  | zero =>
    intro visited parent m spec evs h
    cases h
  | succ f ih =>
    intro visited parent m spec evs h e he
    obtain ⟨f', cevs, hf, hc, rfl⟩ := walk_some kc k (f + 1) visited parent m spec evs h
    cases hf
    rcases List.mem_append.1 he with he | he
    · obtain ⟨s, hs, a, ha, hea⟩ := (collectEvents_mem _ _ cevs hc e).1 he
      cases s with
      | cycle t =>
        cases ha
        rw [List.mem_singleton] at hea
        subst hea
        exact Or.inr (scan_cycle kc k m visited parent spec.items t hs).2
      | route path =>
        cases ha
        rw [List.mem_singleton] at hea
        subst hea
        exact Or.inl rfl
      | descend t path =>
        obtain ⟨_, tspec, hl, hroot⟩ := scan_descend kc k m visited parent spec.items t path hs
        simp only [KubernetesCache.stepEvents, hl] at ha
        rcases ih _ _ _ _ _ ha e hea with hsrc | hsrc
        · exact Or.inr ⟨tspec, hsrc ▸ hl, hroot⟩
        · exact Or.inr hsrc
    · rw [List.mem_singleton] at he
      subst he
      exact Or.inl rfl

/-- An event of `Build` is recorded against a root that passes the checks, or
against a stored document that is not a root. -/
theorem buildEvents_sources (kc : KubernetesCache) (k : ProxyKind) (evs : List Event)
    (h : kc.buildEvents k = some evs) (e : Event) (he : e ∈ evs) :
    (∃ spec vh, (kc.proxies k).lookup e.source = some spec ∧ spec.VirtualHost = some vh
        ∧ kc.precheck k e.source spec vh = none)
      ∨ ∃ tspec, (kc.proxies k).lookup e.source = some tspec ∧ tspec.VirtualHost = none := by
  obtain ⟨x, hx, vh, a, hv, ha, hea⟩ := (eventsOf_mem kc k _ evs h).2 e he
  have hl := ((mem_roots kc k x).1 hx).1
  unfold KubernetesCache.rootEvents at ha
  cases hp : kc.precheck k x.1 x.2 vh with
  | some st =>
    simp only [hp, Option.some.injEq] at ha
    subst ha
    exact absurd hea (List.not_mem_nil e)
  | none =>
    simp only [hp] at ha
    rcases walk_sources kc k _ _ _ _ _ _ ha e hea with hsrc | hsrc
    · exact Or.inl ⟨x.2, vh, hsrc ▸ hl, hv, hsrc ▸ hp⟩
    · exact Or.inr hsrc

theorem Walked_lookup (kc : KubernetesCache) (k : ProxyKind) (visited : List Meta)
    (parent : String) (m : Meta) (spec : ProxySpec) (h : kc.Walked k visited parent m spec) :
    (kc.proxies k).lookup m = some spec := by
  cases h with
  | root m spec vh hl _ _ => exact hl
  | descend visited parent m spec t path tspec _ _ hl => exact hl

/-- The events of the walk of a document that a walk from a root reaches are
events of `Build`. -/
theorem Walked_events (kc : KubernetesCache) (k : ProxyKind) (evs : List Event)
    (hb : kc.buildEvents k = some evs) (visited : List Meta) (parent : String) (m : Meta)
    (spec : ProxySpec) (h : kc.Walked k visited parent m spec) :
    ∃ fuel wevs, kc.walk k fuel visited parent m spec = some wevs ∧ ∀ e ∈ wevs, e ∈ evs := by
  induction h with
  | root m spec vh hl hv hp =>
    have hx : (⟨m, spec⟩ : Sigma (fun _ : Meta => ProxySpec)) ∈ kc.roots k :=
      (mem_roots kc k ⟨m, spec⟩).2 ⟨hl, by simp [hv]⟩
    obtain ⟨a, ha, hsub⟩ := (eventsOf_mem kc k _ evs hb).1 _ hx vh hv
    simp only [KubernetesCache.rootEvents, hp] at ha
    exact ⟨_, a, ha, hsub⟩
  | descend visited parent m spec t path tspec _ hs hl ih =>
    obtain ⟨fuel, wevs, hw, hsub⟩ := ih
    obtain ⟨f, cevs, rfl, hc, rfl⟩ := walk_some kc k fuel visited parent m spec wevs hw
    obtain ⟨a, ha⟩ := collectEvents_step _ _ cevs hc _ hs
    have hmem : ∀ e ∈ a, e ∈ cevs := fun e he =>
      (collectEvents_mem _ _ cevs hc e).2 ⟨_, hs, a, ha, he⟩
    simp only [KubernetesCache.stepEvents, hl] at ha
    exact ⟨f, a, ha, fun e he => hsub e (List.mem_append_left _ (hmem e he))⟩


theorem strLess_eq_false_iff (a b : String) : strLess b a = false ↔ a ≤ b := by
  rw [← not_lt, ← strLess_iff, Bool.not_eq_true]

theorem strLeTotal : IsTotal String (fun a b => strLess b a = false) :=
  ⟨fun a b => by
    simp only [strLess_eq_false_iff]
    exact le_total _ _⟩

theorem strLeTrans : IsTrans String (fun a b => strLess b a = false) :=
  ⟨fun a b c => by
    simp only [strLess_eq_false_iff]
    exact le_trans⟩

theorem strLeAntisymm : IsAntisymm String (fun a b => strLess b a = false) :=
  ⟨fun a b => by
    simp only [strLess_eq_false_iff]
    exact le_antisymm⟩

theorem sortStrings_perm (l : List String) : (sortStrings l).Perm l :=
  List.perm_insertionSort _ l

theorem sortStrings_sorted (l : List String) :
    List.Pairwise (fun a b => strLess b a = false) (sortStrings l) := by
  haveI := strLeTotal
  haveI := strLeTrans
  exact List.sorted_insertionSort (fun a b => strLess b a = false) l

/-- The sorted list does not depend on the order of the list that is sorted. -/
theorem sortStrings_eq_of_perm (l₁ l₂ : List String) (h : l₁.Perm l₂) :
    sortStrings l₁ = sortStrings l₂ := by
  haveI := strLeAntisymm
  exact List.eq_of_perm_of_sorted
    (((sortStrings_perm l₁).trans h).trans (sortStrings_perm l₂).symm)
    (sortStrings_sorted l₁) (sortStrings_sorted l₂)

theorem two_le_length {α : Type} (l : List α) (a b : α) (ha : a ∈ l) (hb : b ∈ l)
    (hne : a ≠ b) : 2 ≤ l.length := by
  match l, ha, hb with
  | [x], ha, hb =>
    rw [List.mem_singleton] at ha hb
    exact absurd (ha.trans hb.symm) hne
  | _ :: _ :: _, _, _ => simp

/-- The claimants of an FQDN are the stored roots that declare it. -/
theorem mem_claimants (kc : KubernetesCache) (k : ProxyKind) (fqdn : String) (m : Meta) :
    m ∈ kc.claimants k fqdn ↔ ∃ spec vh, (kc.proxies k).lookup m = some spec
      ∧ spec.VirtualHost = some vh ∧ vh.Fqdn = fqdn := by
  unfold KubernetesCache.claimants
  simp only [List.mem_map, List.mem_filter]
  constructor
  · rintro ⟨⟨a, spec⟩, ⟨hmem, hp⟩, rfl⟩
    cases hv : spec.VirtualHost with
    | none => simp [hv] at hp
    | some vh =>
      simp only [hv, beq_iff_eq] at hp
      exact ⟨spec, vh, AList.mem_lookup_iff.2 hmem, hv, hp⟩
  · rintro ⟨spec, vh, hl, hv, hf⟩
    exact ⟨⟨m, spec⟩, ⟨AList.mem_lookup_iff.1 hl, by simp [hv, hf]⟩, rfl⟩

/-- The description of a conflict does not depend on the order in which the
documents are stored. -/
theorem conflictDescription_perm (kc kc' : KubernetesCache) (k : ProxyKind) (fqdn : String)
    (h : (kc'.proxies k).entries.Perm (kc.proxies k).entries) :
    kc'.conflictDescription k fqdn = kc.conflictDescription k fqdn := by
  unfold KubernetesCache.conflictDescription KubernetesCache.claimants
  rw [sortStrings_eq_of_perm _ _ (((h.filter _).map _).map _)]

/-- A root whose FQDN is declared by two stored roots has the status of the
conflict. -/
theorem buildStatus_conflict (kc : KubernetesCache) (k : ProxyKind) (m : Meta)
    (spec : ProxySpec) (vh : VirtualHost) (hl : (kc.proxies k).lookup m = some spec)
    (hv : spec.VirtualHost = some vh) (h2 : 2 ≤ (kc.claimants k vh.Fqdn).length) :
    kc.buildStatus k m = some (Status.invalid (kc.conflictDescription k vh.Fqdn)) := by
  simp [KubernetesCache.buildStatus, hl, hv, KubernetesCache.rootStatus,
    KubernetesCache.precheck, h2]

theorem invalid_ne_valid (description : String) (k : ProxyKind) :
    Status.invalid description ≠ Status.valid k := by
  intro h
  have hs : "invalid" = "valid" := congrArg Status.Status h
  exact absurd hs (by decide)

/-- C17: when two stored roots of the same kind declare the same FQDN, `Build`
gives both the status invalid with the same description
`fqdn "<f>" is used in multiple <IngressRoutes|HTTPProxies>: <list>`. The list
holds the `ns/name` of exactly the roots that declare the FQDN, in
lexicographic order; the description does not depend on the order in which
the documents were stored; and every root that declares the FQDN has that
status, so that none is valid. -/
theorem C17_fqdn_conflict (kc : KubernetesCache) (k : ProxyKind) (m₁ m₂ : Meta)
    (spec₁ spec₂ : ProxySpec) (vh₁ vh₂ : VirtualHost)
    (h₁ : (kc.proxies k).lookup m₁ = some spec₁) (h₂ : (kc.proxies k).lookup m₂ = some spec₂)
    (hv₁ : spec₁.VirtualHost = some vh₁) (hv₂ : spec₂.VirtualHost = some vh₂)
    (hne : m₁ ≠ m₂) (hf : vh₁.Fqdn = vh₂.Fqdn) :
    kc.buildStatus k m₁ = some (Status.invalid (kc.conflictDescription k vh₁.Fqdn))
    ∧ kc.buildStatus k m₂ = some (Status.invalid (kc.conflictDescription k vh₁.Fqdn))
    ∧ (∃ list : List String,
        kc.conflictDescription k vh₁.Fqdn
          = "fqdn \"" ++ vh₁.Fqdn ++ "\" is used in multiple " ++ k.plural ++ ": "
              ++ ", ".intercalate list
        ∧ list.Pairwise (fun a b => a ≤ b)
        ∧ list.Perm ((kc.claimants k vh₁.Fqdn).map Meta.path)
        ∧ m₁.path ∈ list ∧ m₂.path ∈ list)
    ∧ (∀ m : Meta, m ∈ kc.claimants k vh₁.Fqdn ↔
        ∃ spec vh, (kc.proxies k).lookup m = some spec ∧ spec.VirtualHost = some vh
          ∧ vh.Fqdn = vh₁.Fqdn)
    ∧ (∀ kc' : KubernetesCache, (kc'.proxies k).entries.Perm (kc.proxies k).entries →
        kc'.conflictDescription k vh₁.Fqdn = kc.conflictDescription k vh₁.Fqdn)
    ∧ (∀ (m : Meta) (spec : ProxySpec) (vh : VirtualHost),
        (kc.proxies k).lookup m = some spec → spec.VirtualHost = some vh →
        vh.Fqdn = vh₁.Fqdn →
          kc.buildStatus k m = some (Status.invalid (kc.conflictDescription k vh₁.Fqdn))
          ∧ kc.buildStatus k m ≠ some (Status.valid k)) := by
  have hm₁ : m₁ ∈ kc.claimants k vh₁.Fqdn :=
    (mem_claimants kc k _ m₁).2 ⟨spec₁, vh₁, h₁, hv₁, rfl⟩
  have hm₂ : m₂ ∈ kc.claimants k vh₁.Fqdn :=
    (mem_claimants kc k _ m₂).2 ⟨spec₂, vh₂, h₂, hv₂, hf.symm⟩
  have h2 : 2 ≤ (kc.claimants k vh₁.Fqdn).length := two_le_length _ m₁ m₂ hm₁ hm₂ hne
  have hall : ∀ (m : Meta) (spec : ProxySpec) (vh : VirtualHost),
      (kc.proxies k).lookup m = some spec → spec.VirtualHost = some vh →
      vh.Fqdn = vh₁.Fqdn →
        kc.buildStatus k m = some (Status.invalid (kc.conflictDescription k vh₁.Fqdn)) := by
    intro m spec vh hl hv hfq
    have := buildStatus_conflict kc k m spec vh hl hv (hfq ▸ h2)
    rw [hfq] at this
    exact this
  refine ⟨hall m₁ spec₁ vh₁ h₁ hv₁ rfl, hall m₂ spec₂ vh₂ h₂ hv₂ hf.symm, ?_,
    fun m => mem_claimants kc k _ m, fun kc' hp => conflictDescription_perm kc kc' k _ hp,
    fun m spec vh hl hv hfq => ⟨hall m spec vh hl hv hfq, ?_⟩⟩
  · refine ⟨sortStrings ((kc.claimants k vh₁.Fqdn).map Meta.path), rfl, ?_,
      sortStrings_perm _, ?_, ?_⟩
    · exact List.Pairwise.imp (fun {a b} hab => (strLess_eq_false_iff a b).1 hab)
        (sortStrings_sorted _)
    · exact (sortStrings_perm _).mem_iff.2 (List.mem_map_of_mem _ hm₁)
    · exact (sortStrings_perm _).mem_iff.2 (List.mem_map_of_mem _ hm₂)
  · rw [hall m spec vh hl hv hfq]
    intro h
    exact invalid_ne_valid _ k (Option.some.inj h)

/-- C17 at an input, the status test "insert conflicting ingressroutes due to
fqdn reuse": `roots/example-com` and `roots/other-example` both declare
`example.com`; both get the description that lists them in that order, also
when `roots/other-example` was stored first. -/
theorem C17_fqdn_conflict_witness :
    exCacheConflict.buildStatus ProxyKind.IngressRoute { name := "example-com", ns := "roots" }
      = some (Status.invalid
          "fqdn \"example.com\" is used in multiple IngressRoutes: roots/example-com, roots/other-example")
    ∧ exCacheConflict.buildStatus ProxyKind.IngressRoute
        { name := "other-example", ns := "roots" }
      = some (Status.invalid
          "fqdn \"example.com\" is used in multiple IngressRoutes: roots/example-com, roots/other-example")
    ∧ exCacheConflictSwapped.conflictDescription ProxyKind.IngressRoute "example.com"
      = "fqdn \"example.com\" is used in multiple IngressRoutes: roots/example-com, roots/other-example" :=
  have h := C17_fqdn_conflict exCacheConflict ProxyKind.IngressRoute
    { name := "example-com", ns := "roots" } { name := "other-example", ns := "roots" }
    exExampleCom.Spec exOtherExample.Spec { Fqdn := "example.com" } { Fqdn := "example.com" }
    (by decide) (by decide) rfl rfl (by decide) rfl
  ⟨h.1.trans (by decide), h.2.1.trans (by decide),
    (h.2.2.2.2.1 exCacheConflictSwapped (by decide)).trans (by decide)⟩


theorem buildStatus_root (kc : KubernetesCache) (k : ProxyKind) (m : Meta) (spec : ProxySpec)
    (vh : VirtualHost) (hl : (kc.proxies k).lookup m = some spec)
    (hv : spec.VirtualHost = some vh) :
    kc.buildStatus k m = some (kc.rootStatus k m spec vh) := by
  simp [KubernetesCache.buildStatus, hl, hv]

/-- The status of the documents read up to the first error is that error. -/
theorem scan_first_error (kc : KubernetesCache) (k : ProxyKind) (m : Meta)
    (visited : List Meta) (parent : String) (pre : List Item) (item : Item) (post : List Item)
    (st : Contour.Status)
    (hpre : ∀ i ∈ pre, ∃ steps, kc.itemStep k m visited parent i = .ok steps)
    (hitem : kc.itemStep k m visited parent item = .error st) :
    (kc.scan k m visited parent (pre ++ item :: post)).2 = st := by
  induction pre with
  | nil => simp [KubernetesCache.scan, hitem]
  | cons i rest ih =>
    obtain ⟨steps, hs⟩ := hpre i (List.mem_cons_self i rest)
    simp only [List.cons_append, KubernetesCache.scan, hs]
    exact ih (fun j hj => hpre j (List.mem_cons_of_mem i hj))

/-- A delegation to a stored root is an error of the delegating document. -/
theorem itemStep_to_root (kc : KubernetesCache) (k : ProxyKind) (m : Meta)
    (visited : List Meta) (parent : String) (item : Item) (target : Meta) (tspec : ProxySpec)
    (hd : item.delegatesTo m = some target) (ht : (kc.proxies k).lookup target = some tspec)
    (hroot : tspec.VirtualHost.isSome = true) :
    kc.itemStep k m visited parent item
      = .error (Status.invalid ("root " ++ k.lower ++ " cannot delegate to another root "
          ++ k.lower)) := by
  cases item with
  | incl i =>
    simp only [Item.delegatesTo, Option.some.injEq] at hd
    subst hd
    simp [KubernetesCache.itemStep, KubernetesCache.delegateStep, ht, hroot]
  | route r =>
    simp only [Item.delegatesTo] at hd
    by_cases hs : r.Services = []
    · rw [if_pos hs] at hd
      cases hdel : r.Delegate with
      | none => simp [hdel] at hd
      | some d =>
        simp only [hdel, Option.map_some', Option.some.injEq] at hd
        subst hd
        simp [KubernetesCache.itemStep, KubernetesCache.delegateStep, hs, hdel, ht, hroot]
    · rw [if_neg hs] at hd
      cases hd

theorem tlsCheck_invalid (kc : KubernetesCache) (docNs : String) (spec : ProxySpec)
    (vh : VirtualHost) (st : Contour.Status) (h : kc.tlsCheck docNs spec vh = some st) :
    st.Status = "invalid" := by
  unfold KubernetesCache.tlsCheck at h
  split at h
  all_goals try split at h
  all_goals try split at h
  all_goals try split at h
  all_goals try split at h
  all_goals cases h
  all_goals rfl

/-- A check that fails gives the status invalid. -/
theorem precheck_invalid (kc : KubernetesCache) (k : ProxyKind) (m : Meta) (spec : ProxySpec)
    (vh : VirtualHost) (st : Contour.Status) (h : kc.precheck k m spec vh = some st) :
    st.Status = "invalid" := by
  unfold KubernetesCache.precheck at h
  split_ifs at h
  · cases h; rfl
  · cases h; rfl
  · cases h; rfl
  · cases h; rfl
  · exact tlsCheck_invalid kc m.ns spec vh st h

theorem rootStatus_valid (kc : KubernetesCache) (k : ProxyKind) (m : Meta) (spec : ProxySpec)
    (vh : VirtualHost) (h : kc.rootStatus k m spec vh = Status.valid k) :
    kc.precheck k m spec vh = none := by
  cases hp : kc.precheck k m spec vh with
  | none => rfl
  | some st =>
    have hi := precheck_invalid kc k m spec vh st hp
    simp only [KubernetesCache.rootStatus, hp] at h
    rw [h] at hi
    have hs : "valid" = "invalid" := hi
    exact absurd hs (by decide)


/-- C19, amended. A root that passes the checks made before the walk (so
that, in particular, no other root declares its FQDN), and whose first item in
error is a delegation to a stored root, itself included, gets the status
invalid with the description `root <kind> cannot delegate to another root
<kind>`, the kind in lower case. The target keeps the status it earns on its
own, that of its first failing check or else of its own items; when that
status is valid the target is walked, and the events of its walk, its status
valid among them, are events of `Build`. -/
theorem C19_root_delegates_to_root (kc : KubernetesCache) (k : ProxyKind) (m : Meta)
    (spec : ProxySpec) (vh : VirtualHost) (pre : List Item) (item : Item) (post : List Item)
    (target : Meta) (tspec : ProxySpec) (tvh : VirtualHost)
    (hl : (kc.proxies k).lookup m = some spec) (hv : spec.VirtualHost = some vh)
    (hp : kc.precheck k m spec vh = none)
    (hi : spec.items = pre ++ item :: post)
    (hpre : ∀ i ∈ pre, ∃ steps, kc.itemStep k m [m] "" i = .ok steps)
    (hd : item.delegatesTo m = some target)
    (ht : (kc.proxies k).lookup target = some tspec) (htv : tspec.VirtualHost = some tvh) :
    kc.buildStatus k m
      = some (Status.invalid ("root " ++ k.lower ++ " cannot delegate to another root "
          ++ k.lower))
    ∧ kc.buildStatus k target = some (kc.rootStatus k target tspec tvh)
    ∧ (kc.rootStatus k target tspec tvh = Status.valid k →
        ∃ evs wevs, kc.buildEvents k = some evs
          ∧ kc.rootEvents k target tspec tvh = some wevs
          ∧ (∀ e ∈ wevs, e ∈ evs)
          ∧ Event.status target (Status.valid k) ∈ wevs) := by
  refine ⟨?_, buildStatus_root kc k target tspec tvh ht htv, fun hvalid => ?_⟩
  · rw [buildStatus_root kc k m spec vh hl hv]
    simp only [KubernetesCache.rootStatus, hp, hi]
    exact congrArg some (scan_first_error kc k m [m] "" pre item post _ hpre
      (itemStep_to_root kc k m [m] "" item target tspec hd ht (by simp [htv])))
  · obtain ⟨evs, hevs⟩ := buildEvents_total kc k
    have hx : (⟨target, tspec⟩ : Sigma (fun _ : Meta => ProxySpec)) ∈ kc.roots k :=
      (mem_roots kc k ⟨target, tspec⟩).2 ⟨ht, by simp [htv]⟩
    obtain ⟨wevs, hw, hsub⟩ := (eventsOf_mem kc k _ evs hevs).1 _ hx tvh htv
    refine ⟨evs, wevs, hevs, hw, hsub, ?_⟩
    have hnone := rootStatus_valid kc k target tspec tvh hvalid
    simp only [KubernetesCache.rootStatus, hnone] at hvalid
    simp only [KubernetesCache.rootEvents, hnone] at hw
    obtain ⟨f, cevs, _, _, rfl⟩ := walk_some kc k _ _ _ _ _ _ hw
    rw [hvalid]
    exact List.mem_append_right _ (List.mem_singleton_self _)

/-- C19 at an input, the status test "root ingress delegating to another root
w/ different hostname": `roots/root-blog` delegates to the root
`marketing/blog` and is invalid; `marketing/blog` is valid. -/
theorem C19_root_delegates_to_root_witness :
    exCacheBlog.buildStatus ProxyKind.IngressRoute { name := "root-blog", ns := "roots" }
      = some (Status.invalid "root ingressroute cannot delegate to another root ingressroute")
    ∧ exCacheBlog.buildStatus ProxyKind.IngressRoute { name := "blog", ns := "marketing" }
      = some (Status.valid ProxyKind.IngressRoute) :=
  have h := C19_root_delegates_to_root exCacheBlog ProxyKind.IngressRoute
    { name := "root-blog", ns := "roots" } exRootBlog.Spec
    { Fqdn := "blog.containersteve.com" } []
    (Item.route { Match := "/", Delegate := some { Name := "blog", Namespace := "marketing" } })
    [] { name := "blog", ns := "marketing" } exBlog.Spec { Fqdn := "www.containersteve.com" }
    (by decide) rfl (by decide) rfl (fun i hi => absurd hi (List.not_mem_nil i)) rfl
    (by decide) rfl
  ⟨h.1.trans (by decide), h.2.1.trans (by decide)⟩

/-- C19 fails as stated, on the status test "root ingress delegating to
another root": `roots/root-blog` is a root whose only item delegates to the
stored root `marketing/blog`, and its status is not the one of the claim: both
declare `blog.containersteve.com`, and the description is that of the
conflict. -/
theorem C19_counterexample :
    (exCacheBlogSameHost.proxies ProxyKind.IngressRoute).lookup
        { name := "root-blog", ns := "roots" } = some exRootBlogSameHost.Spec
    ∧ exRootBlogSameHost.Spec.VirtualHost.isSome = true
    ∧ exRootBlogSameHost.Spec.items.map (Item.delegatesTo { name := "root-blog", ns := "roots" })
        = [some { name := "blog", ns := "marketing" }]
    ∧ (exCacheBlogSameHost.proxies ProxyKind.IngressRoute).lookup
        { name := "blog", ns := "marketing" } = some exBlogSameHost.Spec
    ∧ exBlogSameHost.Spec.VirtualHost.isSome = true
    ∧ exCacheBlogSameHost.buildStatus ProxyKind.IngressRoute
        { name := "root-blog", ns := "roots" }
      = some (Status.invalid
          "fqdn \"blog.containersteve.com\" is used in multiple IngressRoutes: marketing/blog, roots/root-blog")
    ∧ exCacheBlogSameHost.buildStatus ProxyKind.IngressRoute
        { name := "root-blog", ns := "roots" }
      ≠ some (Status.invalid "root ingressroute cannot delegate to another root ingressroute") := by
  decide


theorem claimants_nodup (kc : KubernetesCache) (k : ProxyKind) (fqdn : String) :
    (kc.claimants k fqdn).Nodup := by
  unfold KubernetesCache.claimants
  have hk : ((kc.proxies k).entries.map (fun e => e.1)).Nodup := (kc.proxies k).nodupKeys
  exact hk.sublist ((List.filter_sublist _).map _)

theorem length_le_one_of_nodup {α : Type} (l : List α) (a : α) (hnd : l.Nodup)
    (h : ∀ x ∈ l, x = a) : l.length < 2 := by
  match l, hnd, h with
  | [], _, _ => simp
  | [_], _, _ => simp
  | x :: y :: rest, hnd, h =>
    have hx := h x (List.mem_cons_self x _)
    have hy := h y (List.mem_cons_of_mem x (List.mem_cons_self y rest))
    rw [List.nodup_cons] at hnd
    exact absurd (hx.trans hy.symm ▸ List.mem_cons_self y rest) hnd.1

/-- C20, amended. When the configured set of root namespaces is not empty, a
root IngressRoute or HTTPProxy whose namespace is not in the set, and whose
FQDN no other root of its kind declares, gets the status invalid with the
description `root <kind> cannot be defined in this namespace`. It is not
walked: its walk has no event, and `Build` records no status against it and
attaches no route of it to a virtual host, so that it contributes to no
listener. -/
theorem C20_root_outside_root_namespaces (kc : KubernetesCache) (k : ProxyKind) (m : Meta)
    (spec : ProxySpec) (vh : VirtualHost)
    (hl : (kc.proxies k).lookup m = some spec) (hv : spec.VirtualHost = some vh)
    (hcfg : kc.RootNamespaces ≠ []) (hns : m.ns ∉ kc.RootNamespaces)
    (hown : ∀ (m' : Meta) (spec' : ProxySpec) (vh' : VirtualHost),
      (kc.proxies k).lookup m' = some spec' → spec'.VirtualHost = some vh' →
      vh'.Fqdn = vh.Fqdn → m' = m) :
    kc.buildStatus k m
      = some (Status.invalid ("root " ++ k.title ++ " cannot be defined in this namespace"))
    ∧ kc.rootEvents k m spec vh = some []
    ∧ ∃ evs, kc.buildEvents k = some evs ∧ ∀ e ∈ evs, e.source ≠ m := by
  have hlen : (kc.claimants k vh.Fqdn).length < 2 := by
    apply length_le_one_of_nodup _ m (claimants_nodup kc k vh.Fqdn)
    intro x hx
    obtain ⟨spec', vh', hl', hv', hf'⟩ := (mem_claimants kc k vh.Fqdn x).1 hx
    exact hown x spec' vh' hl' hv' hf'
  have hallowed : kc.rootAllowed m.ns = false := by
    unfold KubernetesCache.rootAllowed
    rw [Bool.or_eq_false_iff]
    refine ⟨?_, ?_⟩
    · cases hr : kc.RootNamespaces with
      | nil => exact absurd hr hcfg
      | cons a l => rfl
    · rw [← Bool.not_eq_true, contains_iff_mem]
      exact hns
  have hpre : kc.precheck k m spec vh
      = some (Status.invalid ("root " ++ k.title ++ " cannot be defined in this namespace")) := by
    unfold KubernetesCache.precheck
    rw [if_neg (by omega)]
    simp [hallowed]
  refine ⟨?_, ?_, ?_⟩
  · rw [buildStatus_root kc k m spec vh hl hv]
    simp only [KubernetesCache.rootStatus, hpre]
  · simp only [KubernetesCache.rootEvents, hpre]
  · obtain ⟨evs, hevs⟩ := buildEvents_total kc k
    refine ⟨evs, hevs, fun e he hsrc => ?_⟩
    rcases buildEvents_sources kc k evs hevs e he with ⟨spec', vh', hl', hv', hp'⟩ |
      ⟨tspec, hl', hv'⟩
    · rw [hsrc, hl] at hl'
      cases hl'
      rw [hv] at hv'
      cases hv'
      rw [hsrc, hpre] at hp'
      cases hp'
    · rw [hsrc, hl] at hl'
      cases hl'
      rw [hv] at hv'
      cases hv'

/-- C20 at an input, the status test "invalid root ingressroute outside of
roots namespace": the root namespaces are `roots` and `marketing`, and the
root `finance/example` is invalid and not walked. -/
theorem C20_root_outside_root_namespaces_witness :
    exCacheFinance.buildStatus ProxyKind.IngressRoute { name := "example", ns := "finance" }
      = some (Status.invalid "root IngressRoute cannot be defined in this namespace")
    ∧ exCacheFinance.buildEvents ProxyKind.IngressRoute = some [] :=
  have h := C20_root_outside_root_namespaces exCacheFinance ProxyKind.IngressRoute
    { name := "example", ns := "finance" } exFinanceRoot.Spec { Fqdn := "example.com" }
    (by decide) rfl (by decide) (by decide)
    (fun m' spec' vh' hl' _ _ => by
      have hmem := lookup_mem_keys _ m' spec' hl'
      have hkeys : (exCacheFinance.proxies ProxyKind.IngressRoute).keys
          = [{ name := "example", ns := "finance" }] := by decide
      rw [hkeys, List.mem_singleton] at hmem
      exact hmem)
  ⟨h.1.trans (by decide), by decide⟩

/-- C20 fails as stated, on `TestIngressRouteHTTPS`: no root namespace is
configured, so that the namespace `default` of the root `default/simple` is
not in the configured set; the root is valid, it is walked, and its route is
attached to its virtual host. -/
theorem C20_counterexample :
    exCacheSimple.RootNamespaces = []
    ∧ "default" ∉ exCacheSimple.RootNamespaces
    ∧ (exCacheSimple.proxies ProxyKind.IngressRoute).lookup { name := "simple", ns := "default" }
        = some exSimple.Spec
    ∧ exSimple.Spec.VirtualHost.isSome = true
    ∧ exCacheSimple.buildStatus ProxyKind.IngressRoute { name := "simple", ns := "default" }
        = some (Status.valid ProxyKind.IngressRoute)
    ∧ exCacheSimple.buildEvents ProxyKind.IngressRoute
        = some [Event.route { name := "simple", ns := "default" } "/",
            Event.status { name := "simple", ns := "default" }
              (Status.valid ProxyKind.IngressRoute)] := by
  decide


theorem mem_statusesOf (m : Meta) (evs : List Event) (st : Contour.Status) :
    st ∈ statusesOf m evs ↔ Event.status m st ∈ evs := by
  unfold statusesOf
  rw [List.mem_filterMap]
  constructor
  · rintro ⟨e, he, hst⟩
    cases e with
    | status m' st' =>
      by_cases hm : m' = m
      · simp only [hm, if_true, Option.some.injEq] at hst
        rw [← hst, ← hm]
        exact he
      · simp [hm] at hst
    | route _ _ => simp at hst
  · intro h
    exact ⟨_, h, by simp⟩

/-- The status of a stored document that is not a root, against which an
invalid status is recorded: the first invalid status recorded against it. -/
theorem buildStatus_invalid (kc : KubernetesCache) (k : ProxyKind) (t : Meta)
    (tspec : ProxySpec) (evs : List Event) (st₀ : Contour.Status)
    (hl : (kc.proxies k).lookup t = some tspec) (hv : tspec.VirtualHost = none)
    (hevs : kc.buildEvents k = some evs) (hmem : st₀ ∈ statusesOf t evs)
    (hinv : st₀.Status = "invalid") :
    ∃ st, kc.buildStatus k t = some st ∧ st.Status = "invalid" ∧ st ∈ statusesOf t evs
      ∧ (statusesOf t evs).find? (fun st => st.Status == "invalid") = some st := by
  cases hf : (statusesOf t evs).find? (fun st => st.Status == "invalid") with
  | none =>
    have := List.find?_eq_none.1 hf st₀ hmem
    simp [hinv] at this
  | some st =>
    refine ⟨st, ?_, ?_, List.mem_of_find?_eq_some hf, rfl⟩
    · simp [KubernetesCache.buildStatus, hl, hv, hevs, hf]
    · simpa using List.find?_some hf


/-! ## The order of `Query` -/

/-- C30: for every cache content and every list `names`, `Query(names)` is in
ascending order of `Name`: every adjacent pair, and indeed every pair, has the
earlier `Name` at most the later one. The order in which `names` lists the
names does not matter: any rearrangement of `names` gives the same sequence of
`Name`s; asked for the cluster of port 80 and then that of port 443 of
`default/kuard`, `Query` answers with that of port 443 first. -/
theorem C30_Query_ascending (c : ClusterCache) (names : List String) :
    List.Chain' (fun a b => a.Name ≤ b.Name) (c.Query names)
    ∧ List.Pairwise (fun a b => a.Name ≤ b.Name) (c.Query names)
    ∧ (∀ names' : List String, names'.Perm names →
        (c.Query names').map (fun v => v.Name) = (c.Query names).map (fun v => v.Name))
    ∧ (c.Update exKuardMap).Query [exKuard80.Name, exKuard443.Name] = [exKuard443, exKuard80] := by
  have hp : ∀ l : List String, List.Pairwise (fun a b => a.Name ≤ b.Name) (c.Query l) := by
    intro l
    rw [Query_eq]
    exact sortStable_pairwise _
  refine ⟨List.Pairwise.chain' (hp names), hp names, fun names' hperm => ?_, ?_⟩
  · have hsorted : ∀ l : List String,
        List.Sorted (fun a b : String => a ≤ b) ((c.Query l).map (fun v => v.Name)) := by
      intro l
      exact List.pairwise_map.2 (hp l)
    refine List.eq_of_perm_of_sorted ?_ (hsorted names') (hsorted names)
    rw [Query_eq, Query_eq]
    exact (((sortStable_perm _).trans (hperm.filterMap _)).trans (sortStable_perm _).symm).map _
  · rw [Query_eq]
    show clusterByName.sortStable
      ([exKuard80.Name, exKuard443.Name].filterMap (fun n => exKuardMap.lookup n))
        = [exKuard443, exKuard80]
    decide


/-! ## Ports and orphans -/

theorem serviceError_port (kc : KubernetesCache) (docNs routeMatch : String) (svc : ServiceRef)
    (h : svc.Port < 1 ∨ 65535 < svc.Port) :
    kc.serviceError docNs routeMatch svc
      = some (Status.invalid ("route \"" ++ routeMatch ++ "\": service \"" ++ svc.Name
          ++ "\": port must be in the range 1-65535")) := by
  unfold KubernetesCache.serviceError
  rw [if_pos h]

theorem service_ne_route (x y : String) : "Service [" ++ x ≠ "route \"" ++ y := by
  intro h
  have h2 := congrArg (fun s : String => s.data.head?) h
  simp only [String.data_append] at h2
  have h3 : some 'S' = some 'r' := h2
  exact absurd h3 (by decide)

/-- A port inside 1..65535 does not give the error of the port range. -/
theorem serviceError_in_range (kc : KubernetesCache) (docNs routeMatch : String)
    (svc : ServiceRef) (h1 : 1 ≤ svc.Port) (h2 : svc.Port ≤ 65535) (m s : String) :
    kc.serviceError docNs routeMatch svc
      ≠ some (Status.invalid ("route \"" ++ m ++ "\": service \"" ++ s
          ++ "\": port must be in the range 1-65535")) := by
  unfold KubernetesCache.serviceError
  rw [if_neg (by omega)]
  intro h
  split at h
  · split at h
    · cases h
    · have h3 := congrArg (fun st : Contour.Status => st.Description) (Option.some.inj h)
      simp only [Status.invalid, String.append_assoc] at h3
      exact service_ne_route _ _ h3
  · have h3 := congrArg (fun st : Contour.Status => st.Description) (Option.some.inj h)
    simp only [Status.invalid, String.append_assoc] at h3
    exact service_ne_route _ _ h3

theorem findSome_first {α β : Type} (f : α → Option β) (pre : List α) (a : α) (post : List α)
    (b : β) (hpre : ∀ x ∈ pre, f x = none) (ha : f a = some b) :
    (pre ++ a :: post).findSome? f = some b := by
  induction pre with
  | nil => simp [List.findSome?, ha]
  | cons x rest ih =>
    simp only [List.cons_append, List.findSome?, hpre x (List.mem_cons_self x rest)]
    exact ih (fun y hy => hpre y (List.mem_cons_of_mem x hy))

/-- The status a walked document earns is recorded by `Build`. -/
theorem Walked_status (kc : KubernetesCache) (k : ProxyKind) (evs : List Event)
    (hb : kc.buildEvents k = some evs) (visited : List Meta) (parent : String) (m : Meta)
    (spec : ProxySpec) (h : kc.Walked k visited parent m spec) :
    Event.status m (kc.scan k m visited parent spec.items).2 ∈ evs := by
  obtain ⟨fuel, wevs, hw, hsub⟩ := Walked_events kc k evs hb visited parent m spec h
  obtain ⟨f, cevs, _, _, rfl⟩ := walk_some kc k fuel visited parent m spec wevs hw
  exact hsub _ (List.mem_append_right _ (List.mem_singleton_self _))

/-- A walked root is walked from itself. -/
theorem Walked_root (kc : KubernetesCache) (k : ProxyKind) (visited : List Meta)
    (parent : String) (m : Meta) (spec : ProxySpec) (vh : VirtualHost)
    (h : kc.Walked k visited parent m spec) (hv : spec.VirtualHost = some vh) :
    visited = [m] ∧ parent = "" ∧ kc.precheck k m spec vh = none := by
  cases h with
  | root m spec vh' hl hv' hp =>
    rw [hv] at hv'
    cases hv'
    exact ⟨rfl, rfl, hp⟩
  | descend visited parent m' spec' t path tspec _ hs hl =>
    obtain ⟨_, tspec', hl', hroot⟩ := scan_descend kc k m' visited parent spec'.items m _ hs
    rw [hl] at hl'
    cases hl'
    rw [hv] at hroot
    cases hroot

/-- Every document on a walk is reached by a walk. -/
theorem Walked_visited (kc : KubernetesCache) (k : ProxyKind) (visited : List Meta)
    (parent : String) (m : Meta) (spec : ProxySpec) (h : kc.Walked k visited parent m spec) :
    ∀ v ∈ visited, ∃ vis par vspec, kc.Walked k vis par v vspec := by
  induction h with
  | root m spec vh hl hv hp =>
    intro v hmem
    rw [List.mem_singleton] at hmem
    subst hmem
    exact ⟨_, _, _, KubernetesCache.Walked.root v spec vh hl hv hp⟩
  | descend visited parent m spec t path tspec hw hs hl ih =>
    intro v hmem
    rcases List.mem_append.1 hmem with hmem | hmem
    · exact ih v hmem
    · rw [List.mem_singleton] at hmem
      subst hmem
      exact ⟨_, _, _, KubernetesCache.Walked.descend visited parent m spec v path tspec hw hs hl⟩

/-- A route without delegation, whose path extends that of the parent, and
whose first service in error has a port outside 1..65535, is in error with the
description of the port range. -/
theorem itemStep_port (kc : KubernetesCache) (k : ProxyKind) (m : Meta) (visited : List Meta)
    (parent : String) (r : Route) (spre : List ServiceRef) (svc : ServiceRef)
    (spost : List ServiceRef) (hdel : r.Delegate = none)
    (hpar : k = ProxyKind.IngressRoute → parent.toList.isPrefixOf r.Match.toList = true)
    (hsv : r.Services = spre ++ svc :: spost)
    (hspre : ∀ s ∈ spre, kc.serviceError m.ns r.Match s = none)
    (hport : svc.Port < 1 ∨ 65535 < svc.Port) :
    kc.itemStep k m visited parent (Item.route r)
      = .error (Status.invalid ("route \"" ++ r.Match ++ "\": service \"" ++ svc.Name
          ++ "\": port must be in the range 1-65535")) := by
  have hne : r.Services ≠ [] := by
    rw [hsv]
    exact List.append_ne_nil_of_right_ne_nil _ (List.cons_ne_nil _ _)
  have hfind := findSome_first (kc.serviceError m.ns r.Match) spre svc spost _ hspre
    (serviceError_port kc m.ns r.Match svc hport)
  rw [← hsv] at hfind
  simp only [KubernetesCache.itemStep]
  rw [if_neg (by simp [hdel]), if_pos hne, if_neg (fun h => h.2 (hpar h.1)), hfind]

/-- A status that a walk records against a document is the status that the
items of that document earn on a walk that reaches it, or the status of a
cycle that revisits that document. -/
theorem walk_status_origin (kc : KubernetesCache) (k : ProxyKind) :
    ∀ (fuel : Nat) (visited : List Meta) (parent : String) (m : Meta) (spec : ProxySpec)
      (evs : List Event), kc.Walked k visited parent m spec →
      kc.walk k fuel visited parent m spec = some evs →
      ∀ d st, Event.status d st ∈ evs →
        (∃ vis par dspec, kc.Walked k vis par d dspec
            ∧ st = (kc.scan k d vis par dspec.items).2)
          ∨ (∃ vis par x xspec, kc.Walked k vis par x xspec
              ∧ Step.cycle d ∈ (kc.scan k x vis par xspec.items).1
              ∧ st = Status.invalid (cycleDescription k vis d)) := by
  intro fuel
  induction fuel with
  | zero =>
    intro visited parent m spec evs _ h
    cases h
  | succ f ih =>
    intro visited parent m spec evs hw h d st he
    obtain ⟨f', cevs, hf, hc, rfl⟩ := walk_some kc k (f + 1) visited parent m spec evs h
    cases hf
    rcases List.mem_append.1 he with he | he
    · obtain ⟨s, hs, a, ha, hea⟩ := (collectEvents_mem _ _ cevs hc _).1 he
      cases s with
      | cycle t =>
        cases ha
        rw [List.mem_singleton] at hea
        cases hea
        exact Or.inr ⟨visited, parent, m, spec, hw, hs, rfl⟩
      | route path =>
        cases ha
        rw [List.mem_singleton] at hea
        cases hea
      | descend t path =>
        obtain ⟨_, tspec, hl, _⟩ := scan_descend kc k m visited parent spec.items t path hs
        simp only [KubernetesCache.stepEvents, hl] at ha
        exact ih _ _ _ _ _ (KubernetesCache.Walked.descend visited parent m spec t path tspec
          hw hs hl) ha d st hea
    · rw [List.mem_singleton] at he
      cases he
      exact Or.inl ⟨visited, parent, spec, hw, rfl⟩

/-- A status that `Build` records against a document is the status that the
items of that document earn on a walk that reaches it, or the status of a
cycle that revisits that document. -/
theorem buildEvents_status_origin (kc : KubernetesCache) (k : ProxyKind) (evs : List Event)
    (h : kc.buildEvents k = some evs) (d : Meta) (st : Contour.Status)
    (he : Event.status d st ∈ evs) :
    (∃ vis par dspec, kc.Walked k vis par d dspec ∧ st = (kc.scan k d vis par dspec.items).2)
      ∨ (∃ vis par x xspec, kc.Walked k vis par x xspec
          ∧ Step.cycle d ∈ (kc.scan k x vis par xspec.items).1
          ∧ st = Status.invalid (cycleDescription k vis d)) := by
  obtain ⟨x, hx, vh, a, hv, ha, hea⟩ := (eventsOf_mem kc k _ evs h).2 _ he
  have hl := ((mem_roots kc k x).1 hx).1
  unfold KubernetesCache.rootEvents at ha
  cases hp : kc.precheck k x.1 x.2 vh with
  | some st' =>
    simp only [hp, Option.some.injEq] at ha
    subst ha
    exact absurd hea (List.not_mem_nil _)
  | none =>
    simp only [hp] at ha
    exact walk_status_origin kc k _ _ _ _ _ _ (KubernetesCache.Walked.root x.1 x.2 vh hl hv hp)
      ha d st hea

/-- Every document on a walk has the status its own items earn recorded by
`Build`. -/
theorem Walked_chain (kc : KubernetesCache) (k : ProxyKind) (evs : List Event)
    (hb : kc.buildEvents k = some evs) (visited : List Meta) (parent : String) (m : Meta)
    (spec : ProxySpec) (h : kc.Walked k visited parent m spec) :
    ∀ d ∈ visited, ∃ vis par dspec, kc.Walked k vis par d dspec
      ∧ Event.status d (kc.scan k d vis par dspec.items).2 ∈ evs := by
  intro d hd
  obtain ⟨vis, par, dspec, hw⟩ := Walked_visited kc k visited parent m spec h d hd
  exact ⟨vis, par, dspec, hw, Walked_status kc k evs hb vis par d dspec hw⟩

/-- A walked document that is not a root is reached from a walked document
one of whose items, read without error, delegates to it. -/
theorem Walked_parent (kc : KubernetesCache) (k : ProxyKind) (visited : List Meta)
    (parent : String) (m : Meta) (spec : ProxySpec) (h : kc.Walked k visited parent m spec)
    (hv : spec.VirtualHost = none) :
    ∃ pvis ppar p pspec, visited = pvis ++ [m] ∧ kc.Walked k pvis ppar p pspec
      ∧ Step.descend m parent ∈ (kc.scan k p pvis ppar pspec.items).1 := by
  cases h with
  | root m spec vh hl hv' hp =>
    rw [hv] at hv'
    cases hv'
  | descend pvis ppar p pspec t path tspec hw hs hl =>
    exact ⟨pvis, ppar, p, pspec, rfl, hw, hs⟩

theorem withProxy_services (kc : KubernetesCache) (k : ProxyKind) (m : Meta) (spec : ProxySpec) :
    (kc.withProxy k m spec).services = kc.services := by
  cases k <;> rfl

theorem withProxy_secrets (kc : KubernetesCache) (k : ProxyKind) (m : Meta) (spec : ProxySpec) :
    (kc.withProxy k m spec).secrets = kc.secrets := by
  cases k <;> rfl

theorem withProxy_delegations (kc : KubernetesCache) (k : ProxyKind) (m : Meta)
    (spec : ProxySpec) : (kc.withProxy k m spec).delegations = kc.delegations := by
  cases k <;> rfl

theorem withProxy_RootNamespaces (kc : KubernetesCache) (k : ProxyKind) (m : Meta)
    (spec : ProxySpec) : (kc.withProxy k m spec).RootNamespaces = kc.RootNamespaces := by
  cases k <;> rfl

theorem withProxy_proxies (kc : KubernetesCache) (k : ProxyKind) (m : Meta) (spec : ProxySpec) :
    (kc.withProxy k m spec).proxies k = (kc.proxies k).insert m spec := by
  cases k <;> rfl

theorem withProxy_lookup_ne (kc : KubernetesCache) (k : ProxyKind) (m : Meta) (spec : ProxySpec)
    (d : Meta) (h : d ≠ m) :
    ((kc.withProxy k m spec).proxies k).lookup d = (kc.proxies k).lookup d := by
  rw [withProxy_proxies, AList.lookup_insert_ne h]

/-- Replacing a document that is not a root by one that is not a root leaves
every key stored or not, and a root or not, as it was. -/
theorem withProxy_rootness (kc : KubernetesCache) (k : ProxyKind) (m : Meta)
    (old spec : ProxySpec) (hl : (kc.proxies k).lookup m = some old)
    (hold : old.VirtualHost = none) (hnew : spec.VirtualHost = none) (d : Meta) :
    (((kc.withProxy k m spec).proxies k).lookup d).map (fun s => s.VirtualHost.isSome)
      = ((kc.proxies k).lookup d).map (fun s => s.VirtualHost.isSome) := by
  by_cases h : d = m
  · subst h
    rw [withProxy_proxies, AList.lookup_insert, hl]
    simp [hold, hnew]
  · rw [withProxy_lookup_ne kc k m spec d h]

theorem delegateStep_congr (kc kc' : KubernetesCache) (k : ProxyKind)
    (hp : ∀ d, ((kc'.proxies k).lookup d).map (fun s => s.VirtualHost.isSome)
      = ((kc.proxies k).lookup d).map (fun s => s.VirtualHost.isSome))
    (m : Meta) (visited : List Meta) (name ns path : String) :
    kc'.delegateStep k m visited name ns path = kc.delegateStep k m visited name ns path := by
  have h := hp (delegateTarget m name ns)
  unfold KubernetesCache.delegateStep
  cases h1 : (kc'.proxies k).lookup (delegateTarget m name ns) with
  | none =>
    cases h2 : (kc.proxies k).lookup (delegateTarget m name ns) with
    | none => rfl
    | some b => simp [h1, h2] at h
  | some a =>
    cases h2 : (kc.proxies k).lookup (delegateTarget m name ns) with
    | none => simp [h1, h2] at h
    | some b =>
      have hab : a.VirtualHost.isSome = b.VirtualHost.isSome := by simpa [h1, h2] using h
      simp only [hab]

theorem serviceError_congr (kc kc' : KubernetesCache) (hs : kc'.services = kc.services)
    (docNs routeMatch : String) (svc : ServiceRef) :
    kc'.serviceError docNs routeMatch svc = kc.serviceError docNs routeMatch svc := by
  unfold KubernetesCache.serviceError
  rw [hs]

theorem itemStep_congr (kc kc' : KubernetesCache) (k : ProxyKind)
    (hs : kc'.services = kc.services)
    (hp : ∀ d, ((kc'.proxies k).lookup d).map (fun s => s.VirtualHost.isSome)
      = ((kc.proxies k).lookup d).map (fun s => s.VirtualHost.isSome))
    (m : Meta) (visited : List Meta) (parent : String) (item : Item) :
    kc'.itemStep k m visited parent item = kc.itemStep k m visited parent item := by
  have hse : kc'.serviceError = kc.serviceError := by
    funext docNs routeMatch svc
    exact serviceError_congr kc kc' hs docNs routeMatch svc
  cases item with
  | incl i => exact delegateStep_congr kc kc' k hp m visited _ _ _
  | route r =>
    simp only [KubernetesCache.itemStep, hse, delegateStep_congr kc kc' k hp]

/-- The reading of the items of a document depends on the cache only through
the stored services and through which keys hold a document and which of these
are roots. -/
theorem scan_congr (kc kc' : KubernetesCache) (k : ProxyKind)
    (hs : kc'.services = kc.services)
    (hp : ∀ d, ((kc'.proxies k).lookup d).map (fun s => s.VirtualHost.isSome)
      = ((kc.proxies k).lookup d).map (fun s => s.VirtualHost.isSome))
    (m : Meta) (visited : List Meta) (parent : String) (items : List Item) :
    kc'.scan k m visited parent items = kc.scan k m visited parent items := by
  induction items with
  | nil => rfl
  | cons item rest ih =>
    simp only [KubernetesCache.scan, itemStep_congr kc kc' k hs hp, ih]

theorem filter_kerase {V : Type} (p : Sigma (fun _ : Meta => V) → Bool) (m : Meta) :
    ∀ l : List (Sigma (fun _ : Meta => V)), (∀ e ∈ l, e.1 = m → p e = false) →
      (l.kerase m).filter p = l.filter p := by
  intro l
  induction l with
  | nil => intro _; rfl
  | cons e l ih =>
    intro h
    by_cases he : e.1 = m
    · have hk : List.kerase m (e :: l) = l := by
        subst he
        exact List.kerase_cons_eq rfl
      rw [hk, List.filter_cons, h e (List.mem_cons_self e l) he]
      rfl
    · have hk : List.kerase m (e :: l) = e :: List.kerase m l :=
        List.kerase_cons_ne (fun h' => he h'.symm)
      rw [hk, List.filter_cons, List.filter_cons,
        ih (fun x hx => h x (List.mem_cons_of_mem e hx))]

/-- Replacing a document that is not a root by one that is not a root leaves
the roots that declare an FQDN as they were. -/
theorem withProxy_claimants (kc : KubernetesCache) (k : ProxyKind) (m : Meta)
    (old spec : ProxySpec) (hl : (kc.proxies k).lookup m = some old)
    (hold : old.VirtualHost = none) (hnew : spec.VirtualHost = none) (fqdn : String) :
    (kc.withProxy k m spec).claimants k fqdn = kc.claimants k fqdn := by
  unfold KubernetesCache.claimants
  rw [withProxy_proxies]
  show ((⟨m, spec⟩ :: (kc.proxies k).entries.kerase m).filter _).map _ = _
  rw [List.filter_cons]
  simp only [hnew, Bool.false_eq_true, if_false]
  rw [filter_kerase]
  intro e he hem
  have h1 := AList.mem_lookup_iff.2 he
  rw [hem, hl] at h1
  cases h1
  simp only [hold]

theorem withProxy_precheck (kc : KubernetesCache) (k : ProxyKind) (m : Meta)
    (old spec : ProxySpec) (hl : (kc.proxies k).lookup m = some old)
    (hold : old.VirtualHost = none) (hnew : spec.VirtualHost = none) (r : Meta)
    (rspec : ProxySpec) (vh : VirtualHost) :
    (kc.withProxy k m spec).precheck k r rspec vh = kc.precheck k r rspec vh := by
  unfold KubernetesCache.precheck KubernetesCache.conflictDescription
    KubernetesCache.rootAllowed KubernetesCache.tlsCheck KubernetesCache.delegated
  rw [withProxy_claimants kc k m old spec hl hold hnew, withProxy_RootNamespaces,
    withProxy_secrets, withProxy_delegations]

/-- The status of a root, and the status that the items of any document earn,
do not depend on what a document that is not a root holds, as long as it
stays a document that is not a root. -/
theorem withProxy_status (kc : KubernetesCache) (k : ProxyKind) (m : Meta)
    (old spec : ProxySpec) (hl : (kc.proxies k).lookup m = some old)
    (hold : old.VirtualHost = none) (hnew : spec.VirtualHost = none) :
    (∀ r rspec rvh, (kc.proxies k).lookup r = some rspec → rspec.VirtualHost = some rvh →
      (kc.withProxy k m spec).buildStatus k r = kc.buildStatus k r)
    ∧ (∀ d visited parent items,
        (kc.withProxy k m spec).scan k d visited parent items = kc.scan k d visited parent items)
    := by
  have hscan : ∀ d visited parent items,
      (kc.withProxy k m spec).scan k d visited parent items
        = kc.scan k d visited parent items :=
    scan_congr kc (kc.withProxy k m spec) k (withProxy_services kc k m spec)
      (withProxy_rootness kc k m old spec hl hold hnew)
  refine ⟨fun r rspec rvh hr hv => ?_, hscan⟩
  have hne : r ≠ m := by
    intro h
    rw [h, hl] at hr
    cases hr
    rw [hold] at hv
    cases hv
  rw [buildStatus_root kc k r rspec rvh hr hv,
    buildStatus_root (kc.withProxy k m spec) k r rspec rvh
      ((withProxy_lookup_ne kc k m spec r hne).trans hr) hv]
  unfold KubernetesCache.rootStatus
  rw [withProxy_precheck kc k m old spec hl hold hnew, hscan]

/-- C21, amended. In a document that the walk from a root reaches, a route
service whose port lies outside 1..65535 (for example -80 or 12345678), and
before which the document has no error (no earlier item in error, the route
does not delegate, its path extends the parent's in an IngressRoute, no earlier
service of the route in error), makes `Build` record against the document the
status invalid with the description `route "<m>": service "<s>": port must be
in the range 1-65535`. The document is invalid; a root has that description,
and so has a document that is not a root when no other error is recorded
against it. The parent is not invalidated: `Build` records against every
document on the walk, the parent among them, the status that its own items
earn, the delegation to the document in error being an item of the parent
read without error; every status that `Build` records against a document is
either that, on a walk that reaches the document, or the status of a cycle that
revisits it; and neither the status of a root nor the status that the items of
a document earn depends on what the document in error contains. A port inside
1..65535 never gives this error. -/
theorem C21_port_range (kc : KubernetesCache) (k : ProxyKind) (visited : List Meta)
    (parent : String) (m : Meta) (spec : ProxySpec) (pre : List Item) (r : Route)
    (post : List Item) (spre : List ServiceRef) (svc : ServiceRef) (spost : List ServiceRef)
    (hw : kc.Walked k visited parent m spec)
    (hi : spec.items = pre ++ Item.route r :: post)
    (hpre : ∀ i ∈ pre, ∃ steps, kc.itemStep k m visited parent i = .ok steps)
    (hdel : r.Delegate = none)
    (hpar : k = ProxyKind.IngressRoute → parent.toList.isPrefixOf r.Match.toList = true)
    (hsv : r.Services = spre ++ svc :: spost)
    (hspre : ∀ s ∈ spre, kc.serviceError m.ns r.Match s = none)
    (hport : svc.Port < 1 ∨ 65535 < svc.Port) :
    (∃ evs, kc.buildEvents k = some evs
      ∧ Event.status m (Status.invalid ("route \"" ++ r.Match ++ "\": service \"" ++ svc.Name
          ++ "\": port must be in the range 1-65535")) ∈ evs
      ∧ (∃ st, kc.buildStatus k m = some st ∧ st.Status = "invalid")
      ∧ ((∀ st, Event.status m st ∈ evs → st.Status = "invalid" →
            st = Status.invalid ("route \"" ++ r.Match ++ "\": service \"" ++ svc.Name
              ++ "\": port must be in the range 1-65535")) →
          kc.buildStatus k m
            = some (Status.invalid ("route \"" ++ r.Match ++ "\": service \"" ++ svc.Name
                ++ "\": port must be in the range 1-65535")))
      ∧ (∀ d ∈ visited, ∃ vis par dspec, kc.Walked k vis par d dspec
          ∧ Event.status d (kc.scan k d vis par dspec.items).2 ∈ evs)
      ∧ (∀ d st, Event.status d st ∈ evs →
          (∃ vis par dspec, kc.Walked k vis par d dspec
              ∧ st = (kc.scan k d vis par dspec.items).2)
            ∨ (∃ vis par x xspec, kc.Walked k vis par x xspec
                ∧ Step.cycle d ∈ (kc.scan k x vis par xspec.items).1
                ∧ st = Status.invalid (cycleDescription k vis d)))
      ∧ (spec.VirtualHost = none →
          ∃ pvis ppar p pspec, visited = pvis ++ [m] ∧ kc.Walked k pvis ppar p pspec
            ∧ Step.descend m parent ∈ (kc.scan k p pvis ppar pspec.items).1
            ∧ Event.status p (kc.scan k p pvis ppar pspec.items).2 ∈ evs))
    ∧ (spec.VirtualHost.isSome = true →
        kc.buildStatus k m
          = some (Status.invalid ("route \"" ++ r.Match ++ "\": service \"" ++ svc.Name
              ++ "\": port must be in the range 1-65535")))
    ∧ (spec.VirtualHost = none → ∀ spec' : ProxySpec, spec'.VirtualHost = none →
        (∀ r rspec rvh, (kc.proxies k).lookup r = some rspec → rspec.VirtualHost = some rvh →
          (kc.withProxy k m spec').buildStatus k r = kc.buildStatus k r)
        ∧ (∀ d vis par items,
            (kc.withProxy k m spec').scan k d vis par items = kc.scan k d vis par items))
    ∧ (∀ (kc' : KubernetesCache) (docNs routeMatch : String) (svc' : ServiceRef)
        (m' s' : String), 1 ≤ svc'.Port → svc'.Port ≤ 65535 →
          kc'.serviceError docNs routeMatch svc'
            ≠ some (Status.invalid ("route \"" ++ m' ++ "\": service \"" ++ s'
                ++ "\": port must be in the range 1-65535"))) := by
  have hscan : (kc.scan k m visited parent spec.items).2
      = Status.invalid ("route \"" ++ r.Match ++ "\": service \"" ++ svc.Name
          ++ "\": port must be in the range 1-65535") := by
    rw [hi]
    exact scan_first_error kc k m visited parent pre (Item.route r) post _ hpre
      (itemStep_port kc k m visited parent r spre svc spost hdel hpar hsv hspre hport)
  have hl := Walked_lookup kc k visited parent m spec hw
  obtain ⟨evs, hevs⟩ := buildEvents_total kc k
  have hev := Walked_status kc k evs hevs visited parent m spec hw
  rw [hscan] at hev
  have hrootcase : ∀ vh, spec.VirtualHost = some vh →
      kc.buildStatus k m
        = some (Status.invalid ("route \"" ++ r.Match ++ "\": service \"" ++ svc.Name
            ++ "\": port must be in the range 1-65535")) := by
    intro vh hv
    obtain ⟨rfl, rfl, hp⟩ := Walked_root kc k visited parent m spec vh hw hv
    rw [buildStatus_root kc k m spec vh hl hv]
    simp only [KubernetesCache.rootStatus, hp, hscan]
  refine ⟨⟨evs, hevs, hev, ?_, ?_, Walked_chain kc k evs hevs visited parent m spec hw,
    fun d st' he => buildEvents_status_origin kc k evs hevs d st' he, fun hv => ?_⟩, ?_,
    fun hv spec' hnew => withProxy_status kc k m spec spec' hl hv hnew, ?_⟩
  · cases hv : spec.VirtualHost with
    | some vh => exact ⟨_, hrootcase vh hv, rfl⟩
    | none =>
      obtain ⟨st, hst, hinv, _, _⟩ := buildStatus_invalid kc k m spec evs _ hl hv hevs
        ((mem_statusesOf m evs _).2 hev) rfl
      exact ⟨st, hst, hinv⟩
  · intro hall
    cases hv : spec.VirtualHost with
    | some vh => exact hrootcase vh hv
    | none =>
      obtain ⟨st, hst, hinv, hmem, _⟩ := buildStatus_invalid kc k m spec evs _ hl hv hevs
        ((mem_statusesOf m evs _).2 hev) rfl
      rw [hst, hall st ((mem_statusesOf m evs st).1 hmem) hinv]
  · obtain ⟨pvis, ppar, p, pspec, hvis, hpw, hstep⟩ :=
      Walked_parent kc k visited parent m spec hw hv
    exact ⟨pvis, ppar, p, pspec, hvis, hpw, hstep,
      Walked_status kc k evs hevs pvis ppar p pspec hpw⟩
  · intro hsome
    cases hv : spec.VirtualHost with
    | some vh => exact hrootcase vh hv
    | none => simp [hv] at hsome
  · intro kc' docNs routeMatch svc' m' s' h1 h2
    exact serviceError_in_range kc' docNs routeMatch svc' h1 h2 m' s'

/-- C21 at inputs. The status test "invalid port in service": the root
`roots/example` sends `/foo` to `home` on the port -80 and is invalid with the
description of the port range. The status test "ingressroute delegates to
multiple ingressroutes, one is invalid": `roots/invalidChild`, reached from
`roots/parent` under `/bar`, has that status for the port 12345678, and its
parent `roots/parent` is valid. -/
theorem C21_port_range_witness :
    exCacheBadPort.buildStatus ProxyKind.IngressRoute { name := "example", ns := "roots" }
      = some (Status.invalid
          "route \"/foo\": service \"home\": port must be in the range 1-65535")
    ∧ exCacheTwoChildren.buildStatus ProxyKind.IngressRoute
        { name := "invalidChild", ns := "roots" }
      = some (Status.invalid
          "route \"/bar\": service \"foo3\": port must be in the range 1-65535")
    ∧ exCacheTwoChildren.buildStatus ProxyKind.IngressRoute { name := "parent", ns := "roots" }
      = some (Status.valid ProxyKind.IngressRoute)
    ∧ (∀ spec' : ProxySpec, spec'.VirtualHost = none →
        (exCacheTwoChildren.withProxy ProxyKind.IngressRoute
            { name := "invalidChild", ns := "roots" } spec').buildStatus ProxyKind.IngressRoute
            { name := "parent", ns := "roots" }
          = some (Status.valid ProxyKind.IngressRoute)) :=
  have hroot : exCacheBadPort.Walked ProxyKind.IngressRoute [{ name := "example", ns := "roots" }]
      "" { name := "example", ns := "roots" } exBadPortRoot.Spec :=
    KubernetesCache.Walked.root _ _ { Fqdn := "example.com" } (by decide) rfl (by decide)
  have h := C21_port_range exCacheBadPort ProxyKind.IngressRoute _ _ _ _ []
    { Match := "/foo", Services := [{ Name := "home", Port := -80 }] } []
    [] { Name := "home", Port := -80 } [] hroot rfl
    (fun i hi => absurd hi (List.not_mem_nil i)) rfl (fun _ => by decide) rfl
    (fun s hs => absurd hs (List.not_mem_nil s)) (Or.inl (by decide))
  have hparent : exCacheTwoChildren.Walked ProxyKind.IngressRoute
      [{ name := "parent", ns := "roots" }] "" { name := "parent", ns := "roots" }
      exTwoChildren.Spec :=
    KubernetesCache.Walked.root _ _ { Fqdn := "example.com" } (by decide) rfl (by decide)
  have hchild : exCacheTwoChildren.Walked ProxyKind.IngressRoute
      ([{ name := "parent", ns := "roots" }] ++ [{ name := "invalidChild", ns := "roots" }])
      "/bar" { name := "invalidChild", ns := "roots" } exInvalidChild.Spec :=
    KubernetesCache.Walked.descend _ _ _ _ _ _ _ hparent (by decide) (by decide)
  have h2 := C21_port_range exCacheTwoChildren ProxyKind.IngressRoute _ _ _ _ []
    { Match := "/bar", Services := [{ Name := "foo3", Port := 12345678 }] } []
    [] { Name := "foo3", Port := 12345678 } [] hchild rfl
    (fun i hi => absurd hi (List.not_mem_nil i)) rfl (fun _ => by decide) rfl
    (fun s hs => absurd hs (List.not_mem_nil s)) (Or.inr (by decide))
  ⟨(h.2.1 rfl).trans (by decide), by decide, by decide,
    fun spec' hnew => ((h2.2.2.1 rfl spec' hnew).1 _ exTwoChildren.Spec
      { Fqdn := "example.com" } (by decide) rfl).trans (by decide)⟩

/-- C21 fails as stated: the document `roots/invalidChild`, stored with its
service but without a parent, holds a route service of port 12345678, and its
status is orphaned, not invalid. -/
theorem C21_counterexample :
    (exCacheLoneChild.proxies ProxyKind.IngressRoute).lookup
        { name := "invalidChild", ns := "roots" } = some exInvalidChild.Spec
    ∧ exInvalidChild.Spec.Routes
        = [{ Match := "/bar", Services := [{ Name := "foo3", Port := 12345678 }] }]
    ∧ exCacheLoneChild.buildStatus ProxyKind.IngressRoute
        { name := "invalidChild", ns := "roots" }
      = some (Status.orphaned ProxyKind.IngressRoute)
    ∧ exCacheLoneChild.buildStatus ProxyKind.IngressRoute
        { name := "invalidChild", ns := "roots" }
      ≠ some (Status.invalid
          "route \"/bar\": service \"foo3\": port must be in the range 1-65535") := by
  decide


/-! ## Determinism of the builder -/

/-- Two sorted rearrangements of one list are equal when the order is
antisymmetric on the members of the list. -/
theorem eq_of_perm_of_sorted_on {α : Type} (r : α → α → Prop) :
    ∀ (l₁ l₂ : List α), l₁.Perm l₂ → l₁.Pairwise r → l₂.Pairwise r →
      (∀ a ∈ l₁, ∀ b ∈ l₁, r a b → r b a → a = b) → l₁ = l₂ := by
  intro l₁
  induction l₁ with
  | nil =>
    intro l₂ hp _ _ _
    exact hp.nil_eq
  | cons a l₁ ih =>
    intro l₂ hp hs₁ hs₂ hanti
    cases l₂ with
    | nil => exact absurd hp.length_eq (by simp)
    | cons b l₂ =>
      have hab : a = b := by
        have ha : a ∈ b :: l₂ := hp.subset (List.mem_cons_self a l₁)
        have hb : b ∈ a :: l₁ := hp.symm.subset (List.mem_cons_self b l₂)
        rcases List.mem_cons.1 ha with ha | ha
        · exact ha
        · rcases List.mem_cons.1 hb with hb' | hb'
          · exact hb'.symm
          · exact hanti a (List.mem_cons_self a l₁) b hb ((List.pairwise_cons.1 hs₁).1 b hb')
              ((List.pairwise_cons.1 hs₂).1 a ha)
      subst hab
      rw [ih l₂ (List.Perm.cons_inv hp) (List.pairwise_cons.1 hs₁).2 (List.pairwise_cons.1 hs₂).2
        (fun x hx y hy => hanti x (List.mem_cons_of_mem a hx) y (List.mem_cons_of_mem a hy))]

theorem span_slash (pre post : List Char) (h : '/' ∉ pre) :
    (pre ++ '/' :: post).span (fun c => c != '/') = (pre, '/' :: post) := by
  rw [List.span_eq_take_drop]
  induction pre with
  | nil => simp
  | cons c rest ih =>
    have hc : c ≠ '/' := fun hc => h (hc ▸ List.mem_cons_self c rest)
    have hrest : '/' ∉ rest := fun hr => h (List.mem_cons_of_mem c hr)
    have ih2 := ih hrest
    simp only [Prod.mk.injEq] at ih2 ⊢
    simp [hc, ih2.1, ih2.2]

/-- The secret that `ns/name` refers to is the secret `name` of the namespace
`ns`, when `ns` holds no slash. -/
theorem splitSecret_qualified (ns name docNs : String) (h : '/' ∉ ns.toList) :
    splitSecret (ns ++ "/" ++ name) docNs = { name := name, ns := ns } := by
  unfold splitSecret
  have hl : (ns ++ "/" ++ name).toList = ns.toList ++ '/' :: name.toList := by
    simp [String.toList, String.data_append]
  rw [hl, span_slash _ _ h]
  rfl

theorem claimants_lt_two (kc : KubernetesCache) (k : ProxyKind) (m : Meta) (fqdn : String)
    (hown : ∀ (m' : Meta) (spec' : ProxySpec) (vh' : VirtualHost),
      (kc.proxies k).lookup m' = some spec' → spec'.VirtualHost = some vh' →
      vh'.Fqdn = fqdn → m' = m) :
    (kc.claimants k fqdn).length < 2 := by
  apply length_le_one_of_nodup _ m (claimants_nodup kc k fqdn)
  intro x hx
  obtain ⟨spec', vh', hl', hv', hf'⟩ := (mem_claimants kc k fqdn x).1 hx
  exact hown x spec' vh' hl' hv' hf'

/-- The checks made before the walk pass only if phase D passes. -/
theorem precheck_none_tlsCheck (kc : KubernetesCache) (k : ProxyKind) (m : Meta)
    (spec : ProxySpec) (vh : VirtualHost) (h : kc.precheck k m spec vh = none) :
    kc.tlsCheck m.ns spec vh = none := by
  unfold KubernetesCache.precheck at h
  split_ifs at h
  exact h

/-- Phase D passes for a named secret only if the secret is stored, is a TLS
secret, and lives in the namespace of the document or is delegated to it. -/
theorem tlsCheck_none (kc : KubernetesCache) (docNs : String) (spec : ProxySpec)
    (vh : VirtualHost) (tls : TLS) (htls : vh.TLS = some tls) (hname : tls.SecretName ≠ "")
    (h : kc.tlsCheck docNs spec vh = none) :
    ∃ body, kc.secrets.lookup (splitSecret tls.SecretName docNs) = some body
      ∧ body.validTLS = true
      ∧ ((splitSecret tls.SecretName docNs).ns = docNs
          ∨ kc.delegated (splitSecret tls.SecretName docNs) docNs = true) := by
  unfold KubernetesCache.tlsCheck at h
  simp only [htls] at h
  rw [if_pos (by simpa using hname)] at h
  cases hs : kc.secrets.lookup (splitSecret tls.SecretName docNs) with
  | none => simp [hs] at h
  | some body =>
    simp only [hs] at h
    by_cases hvalid : body.validTLS = true
    · rw [if_pos hvalid] at h
      by_cases hd : ((splitSecret tls.SecretName docNs).ns == docNs
          || kc.delegated (splitSecret tls.SecretName docNs) docNs) = true
      · refine ⟨body, rfl, hvalid, ?_⟩
        simpa using hd
      · rw [if_neg hd] at h
        cases h
    · rw [if_neg hvalid] at h
      cases h

theorem qualified_ne_empty (ns name : String) : ns ++ "/" ++ name ≠ "" := by
  intro h
  have h2 := congrArg String.length h
  simp only [String.length_append] at h2
  have h3 : "/".length = 1 := rfl
  have h4 : "".length = 0 := rfl
  omega

/-- C23, amended. A root IngressRoute or HTTPProxy of namespace `d` names its
TLS secret as `ns/name`, `ns` being another namespace than `d`. It obtains a
secure virtual host only if the secret is stored and is a TLS secret with
certificate and key, and a stored TLSCertificateDelegation of the namespace
`ns` names the secret and lists `d` or "*" among its target namespaces. When
the root passes the checks made before TLS resolution (no other root of its
kind declares its FQDN, its namespace is allowed, its FQDN is not empty and
holds no wildcard), the secret is stored and is such a TLS secret, and no
delegation covers it, the root is invalid with the description `ns/name:
certificate delegation not permitted`; it obtains no secure virtual host and
is not walked, so that it contributes no `ingress_https` listener. -/
theorem C23_tls_delegation (kc : KubernetesCache) (k : ProxyKind) (m : Meta) (spec : ProxySpec)
    (vh : VirtualHost) (tls : TLS) (ns name : String)
    (hl : (kc.proxies k).lookup m = some spec) (hv : spec.VirtualHost = some vh)
    (htls : vh.TLS = some tls) (hname : tls.SecretName = ns ++ "/" ++ name)
    (hslash : '/' ∉ ns.toList) (hns : ns ≠ m.ns) :
    (∀ s : Meta, kc.secureVirtualHost k m spec vh = some s →
      s = { name := name, ns := ns }
      ∧ (∃ body, kc.secrets.lookup s = some body ∧ body.validTLS = true)
      ∧ ∃ dm grants, kc.delegations.lookup dm = some grants ∧ dm.ns = ns
          ∧ ∃ cd ∈ grants, cd.SecretName = name
              ∧ (m.ns ∈ cd.TargetNamespaces ∨ "*" ∈ cd.TargetNamespaces))
    ∧ ((∀ (m' : Meta) (spec' : ProxySpec) (vh' : VirtualHost),
          (kc.proxies k).lookup m' = some spec' → spec'.VirtualHost = some vh' →
          vh'.Fqdn = vh.Fqdn → m' = m) →
        kc.rootAllowed m.ns = true → vh.Fqdn ≠ "" → '*' ∉ vh.Fqdn.toList →
        (∃ body, kc.secrets.lookup { name := name, ns := ns } = some body
          ∧ body.validTLS = true) →
        (¬ ∃ dm grants, kc.delegations.lookup dm = some grants ∧ dm.ns = ns
          ∧ ∃ cd ∈ grants, cd.SecretName = name
              ∧ (m.ns ∈ cd.TargetNamespaces ∨ "*" ∈ cd.TargetNamespaces)) →
        kc.buildStatus k m
            = some (Status.invalid (ns ++ "/" ++ name ++ ": certificate delegation not permitted"))
          ∧ kc.secureVirtualHost k m spec vh = none
          ∧ kc.rootEvents k m spec vh = some []) := by
  have hsplit : splitSecret tls.SecretName m.ns = { name := name, ns := ns } := by
    rw [hname]
    exact splitSecret_qualified ns name m.ns hslash
  have hne : tls.SecretName ≠ "" := by
    rw [hname]
    exact qualified_ne_empty ns name
  refine ⟨fun s hs => ?_, fun hown hallowed hfq hwild hsec hnodel => ?_⟩
  · unfold KubernetesCache.secureVirtualHost at hs
    cases hp : kc.precheck k m spec vh with
    | some st => simp [hp] at hs
    | none =>
      simp only [hp, htls] at hs
      rw [if_pos (by simpa using hne), hsplit] at hs
      cases hs
      obtain ⟨body, hbody, hvalid, hperm⟩ := tlsCheck_none kc m.ns spec vh tls htls hne
        (precheck_none_tlsCheck kc k m spec vh hp)
      rw [hsplit] at hbody hperm
      refine ⟨rfl, ⟨body, hbody, hvalid⟩, ?_⟩
      rcases hperm with hperm | hperm
      · exact absurd hperm hns
      · exact (delegated_iff kc _ m.ns).1 hperm
  · obtain ⟨body, hbody, hvalid⟩ := hsec
    have hdel : kc.delegated { name := name, ns := ns } m.ns = false := by
      rw [← Bool.not_eq_true]
      exact fun h => hnodel ((delegated_iff kc _ m.ns).1 h)
    have hpre : kc.precheck k m spec vh
        = some (Status.invalid (ns ++ "/" ++ name ++ ": certificate delegation not permitted")) := by
      unfold KubernetesCache.precheck
      rw [if_neg (by have := claimants_lt_two kc k m vh.Fqdn hown; omega)]
      simp only [hallowed, Bool.not_true, Bool.false_eq_true, if_false]
      rw [if_neg (by simpa using hfq), if_neg (by simpa using hwild)]
      unfold KubernetesCache.tlsCheck
      simp only [htls]
      rw [if_pos (by simpa using hne), hsplit]
      simp only [hbody, hvalid, if_true, hdel, Bool.or_false, beq_iff_eq]
      rw [if_neg hns, hname]
    refine ⟨?_, ?_, ?_⟩
    · rw [buildStatus_root kc k m spec vh hl hv]
      simp only [KubernetesCache.rootStatus, hpre]
    · simp only [KubernetesCache.secureVirtualHost, hpre]
    · simp only [KubernetesCache.rootEvents, hpre]

/-- C23 at inputs. In the status test "check status set when routes combined
with tls delegation failure" the root `roots/app-with-tls-delegation` names
the stored TLS secret `heptio-contour/default-ssl-cert`, no delegation is
stored, and the root is invalid with the description of the delegation. In
`TestIngressRouteTLSCertificateDelegation` the root `default/simple` obtains
its secure virtual host once the delegation of `secret/wildcard` to `default`
is stored. -/
theorem C23_tls_delegation_witness :
    exCacheAppTLS.buildStatus ProxyKind.IngressRoute
        { name := "app-with-tls-delegation", ns := "roots" }
      = some (Status.invalid
          "heptio-contour/default-ssl-cert: certificate delegation not permitted")
    ∧ exCacheWildcard.secureVirtualHost ProxyKind.IngressRoute
        { name := "simple", ns := "default" } exSimpleWildcard.Spec
        { Fqdn := "example.com", TLS := some { SecretName := "secret/wildcard" } } = none
    ∧ exCacheWildcardDelegated.secureVirtualHost ProxyKind.IngressRoute
        { name := "simple", ns := "default" } exSimpleWildcard.Spec
        { Fqdn := "example.com", TLS := some { SecretName := "secret/wildcard" } }
      = some { name := "wildcard", ns := "secret" } :=
  have h := (C23_tls_delegation exCacheAppTLS ProxyKind.IngressRoute
    { name := "app-with-tls-delegation", ns := "roots" } exAppTLS.Spec
    { Fqdn := "app-with-tls-delegation.127.0.0.1.nip.io",
      TLS := some { SecretName := "heptio-contour/default-ssl-cert" } }
    { SecretName := "heptio-contour/default-ssl-cert" } "heptio-contour" "default-ssl-cert"
    (by decide) rfl rfl (by decide) (by decide) (by decide)).2
    (fun m' spec' vh' hl' _ _ => by
      have hmem := lookup_mem_keys _ m' spec' hl'
      have hkeys : (exCacheAppTLS.proxies ProxyKind.IngressRoute).keys
          = [{ name := "app-with-tls-delegation", ns := "roots" }] := by decide
      rw [hkeys, List.mem_singleton] at hmem
      exact hmem)
    (by decide) (by decide) (by decide) ⟨exDefaultSSLCert.body, rfl, by decide⟩
    (fun ⟨dm, grants, hd, _⟩ => by
      have hmem := lookup_mem_keys _ dm grants hd
      have hkeys : exCacheAppTLS.delegations.keys = [] := by decide
      rw [hkeys] at hmem
      exact absurd hmem (List.not_mem_nil dm))
  ⟨h.1.trans (by decide), by decide, by decide⟩

/-- C23 fails as stated: the roots `roots/app-with-tls-delegation` and
`roots/app-twin` both name the stored TLS secret
`heptio-contour/default-ssl-cert`, no delegation is stored, and their
description is not that of the delegation: both declare the same FQDN, and the
description is that of the conflict. -/
theorem C23_counterexample :
    (exCacheAppTLSTwin.proxies ProxyKind.IngressRoute).lookup
        { name := "app-with-tls-delegation", ns := "roots" } = some exAppTLS.Spec
    ∧ exAppTLS.Spec.secretNames = ["heptio-contour/default-ssl-cert"]
    ∧ (exCacheAppTLSTwin.secrets.lookup { name := "default-ssl-cert", ns := "heptio-contour" }).map
        SecretBody.validTLS = some true
    ∧ exCacheAppTLSTwin.delegations.keys = []
    ∧ exCacheAppTLSTwin.buildStatus ProxyKind.IngressRoute
        { name := "app-with-tls-delegation", ns := "roots" }
      = some (Status.invalid
          "fqdn \"app-with-tls-delegation.127.0.0.1.nip.io\" is used in multiple IngressRoutes: roots/app-twin, roots/app-with-tls-delegation")
    ∧ exCacheAppTLSTwin.buildStatus ProxyKind.IngressRoute
        { name := "app-with-tls-delegation", ns := "roots" }
      ≠ some (Status.invalid
          "heptio-contour/default-ssl-cert: certificate delegation not permitted") := by
  decide


/-! ## The names of the projected resources -/

theorem strTake_length (s : String) (n : Nat) : (strTake s n).length = min n s.length := by
  unfold strTake
  rw [String.length_mk, List.length_take]
  rfl

theorem hex_length (bytes : List Nat) : (hex bytes).length = 2 * bytes.length := by
  unfold hex
  rw [String.length_mk]
  induction bytes with
  | nil => rfl
  | cons b rest ih =>
    simp only [List.flatMap_cons, List.length_append, List.length_cons, List.length_nil, ih]
    omega

theorem bigEndian_length (width n : Nat) : (bigEndian width n).length = width := by
  simp [bigEndian]

theorem sha1_Sum_length (msg : List Nat) : (sha1.Sum msg).length = 20 := by
  simp [sha1.Sum, bigEndian_length]

theorem sha256_Sum256_length (msg : List Nat) : (sha256.Sum256 msg).length = 32 := by
  simp [sha256.Sum256, bigEndian_length]

/-- The hash component of the name of a cluster has 10 digits. -/
theorem hash_length (c : DagCluster) : c.hash.length = 10 := by
  unfold DagCluster.hash
  rw [hex_length, List.length_take, sha1_Sum_length]
  rfl

theorem shorthash_length (msg : List Nat) :
    (strTake (hex (sha256.Sum256 msg)) 6).length = 6 := by
  rw [strTake_length, hex_length, sha256_Sum256_length]
  rfl

theorem truncate_short (l : Nat) (s suffix : String) (h : s.length ≤ l) :
    truncate l s suffix = s := by
  unfold truncate
  rw [if_pos h]

theorem truncate_long (l : Nat) (s suffix : String) (h : l < s.length)
    (hs : suffix.length < l) :
    truncate l s suffix = strTake s (l - suffix.length - 1) ++ "-" ++ suffix := by
  unfold truncate
  rw [if_neg (by omega), if_neg (by omega)]

theorem truncate_length (l : Nat) (s suffix : String) (hs : suffix.length < l) :
    (truncate l s suffix).length ≤ l := by
  by_cases h : s.length ≤ l
  · rw [truncate_short l s suffix h]
    exact h
  · rw [truncate_long l s suffix (by omega) hs]
    simp only [String.length_append, strTake_length]
    have h1 : "-".length = 1 := rfl
    omega

theorem intercalate4 (a b c d : String) :
    "/".intercalate [a, b, c, d] = a ++ "/" ++ b ++ "/" ++ c ++ "/" ++ d := rfl

theorem intercalate3 (a b c : String) :
    "/".intercalate [a, b, c] = a ++ "/" ++ b ++ "/" ++ c := rfl

theorem intercalate4_length (a b c d : String) :
    ("/".intercalate [a, b, c, d]).length = a.length + b.length + c.length + d.length + 3 := by
  rw [intercalate4]
  simp only [String.length_append]
  have h1 : "/".length = 1 := rfl
  omega

theorem intercalate3_length (a b c : String) :
    ("/".intercalate [a, b, c]).length = a.length + b.length + c.length + 2 := by
  rw [intercalate3]
  simp only [String.length_append]
  have h1 : "/".length = 1 := rfl
  omega

/-- The outcome of `hashname` on four elements, the last of which has at most
12 characters: the elements are cut to 15 characters, the third first, then
the second, then the first, until the name has at most 60 characters. -/
theorem hashname_four (a b c d : String) (hd : d.length ≤ 12) :
    hashname 60 [a, b, c, d]
      = if ("/".intercalate [a, b, c, d]).length ≤ 60 then "/".intercalate [a, b, c, d]
        else if ("/".intercalate [a, b,
            truncate 15 c (strTake (hex (sha256.Sum256 (bytesOf ("/".intercalate [a, b, c, d])))) 6),
            d]).length ≤ 60 then
          "/".intercalate [a, b,
            truncate 15 c (strTake (hex (sha256.Sum256 (bytesOf ("/".intercalate [a, b, c, d])))) 6),
            d]
        else if ("/".intercalate [a,
            truncate 15 b (strTake (hex (sha256.Sum256 (bytesOf ("/".intercalate [a, b, c, d])))) 6),
            truncate 15 c (strTake (hex (sha256.Sum256 (bytesOf ("/".intercalate [a, b, c, d])))) 6),
            d]).length ≤ 60 then
          "/".intercalate [a,
            truncate 15 b (strTake (hex (sha256.Sum256 (bytesOf ("/".intercalate [a, b, c, d])))) 6),
            truncate 15 c (strTake (hex (sha256.Sum256 (bytesOf ("/".intercalate [a, b, c, d])))) 6),
            d]
        else
          "/".intercalate [
            truncate 15 a (strTake (hex (sha256.Sum256 (bytesOf ("/".intercalate [a, b, c, d])))) 6),
            truncate 15 b (strTake (hex (sha256.Sum256 (bytesOf ("/".intercalate [a, b, c, d])))) 6),
            truncate 15 c (strTake (hex (sha256.Sum256 (bytesOf ("/".intercalate [a, b, c, d])))) 6),
            d] := by
  have hlen : (strTake (hex (sha256.Sum256 (bytesOf ("/".intercalate [a, b, c, d])))) 6).length
      = 6 := shorthash_length _
  unfold hashname
  generalize hex (sha256.Sum256 (bytesOf ("/".intercalate [a, b, c, d]))) = hash at hlen ⊢
  generalize hshort : strTake hash 6 = short at hlen ⊢
  have hTd : truncate 15 d short = d := truncate_short 15 d short (by omega)
  have hTa := truncate_length 15 a short (by omega)
  have hTb := truncate_length 15 b short (by omega)
  have hTc := truncate_length 15 c short (by omega)
  by_cases h0 : ("/".intercalate [a, b, c, d]).length ≤ 60
  · rw [if_pos h0, if_pos h0]
  · rw [if_neg h0, if_neg h0]
    have e15 : (60 : Nat) / 4 = 15 := rfl
    simp only [List.length_cons, List.length_nil, Nat.zero_add, Nat.reduceAdd, hashname.loop,
      List.set, List.getD_cons_succ, List.getD_cons_zero, e15, hshort, hTd, h0, if_false,
      List.length_set]
    by_cases h1 : ("/".intercalate [a, b, truncate 15 c short, d]).length ≤ 60
    · rw [if_pos h1, if_pos h1]
    · rw [if_neg h1, if_neg h1]
      by_cases h2 : ("/".intercalate [a, truncate 15 b short, truncate 15 c short, d]).length ≤ 60
      · rw [if_pos h2, if_pos h2]
      · rw [if_neg h2, if_neg h2]
        have h3 : ("/".intercalate [truncate 15 a short, truncate 15 b short,
            truncate 15 c short, d]).length ≤ 60 := by
          rw [intercalate4_length]
          omega
        rw [if_pos h3]

theorem hashname_three (a b d : String) (hd : d.length ≤ 18) :
    hashname 60 [a, b, d]
      = if ("/".intercalate [a, b, d]).length ≤ 60 then "/".intercalate [a, b, d]
        else if ("/".intercalate [a,
            truncate 20 b (strTake (hex (sha256.Sum256 (bytesOf ("/".intercalate [a, b, d])))) 6),
            d]).length ≤ 60 then
          "/".intercalate [a,
            truncate 20 b (strTake (hex (sha256.Sum256 (bytesOf ("/".intercalate [a, b, d])))) 6),
            d]
        else
          "/".intercalate [
            truncate 20 a (strTake (hex (sha256.Sum256 (bytesOf ("/".intercalate [a, b, d])))) 6),
            truncate 20 b (strTake (hex (sha256.Sum256 (bytesOf ("/".intercalate [a, b, d])))) 6),
            d] := by
  have hlen : (strTake (hex (sha256.Sum256 (bytesOf ("/".intercalate [a, b, d])))) 6).length
      = 6 := shorthash_length _
  unfold hashname
  generalize hex (sha256.Sum256 (bytesOf ("/".intercalate [a, b, d]))) = hash at hlen ⊢
  generalize hshort : strTake hash 6 = short at hlen ⊢
  have hTd : truncate 20 d short = d := truncate_short 20 d short (by omega)
  have hTa := truncate_length 20 a short (by omega)
  have hTb := truncate_length 20 b short (by omega)
  by_cases h0 : ("/".intercalate [a, b, d]).length ≤ 60
  · rw [if_pos h0, if_pos h0]
  · rw [if_neg h0, if_neg h0]
    have e20 : (60 : Nat) / 3 = 20 := rfl
    simp only [List.length_cons, List.length_nil, Nat.zero_add, Nat.reduceAdd, hashname.loop,
      List.set, List.getD_cons_succ, List.getD_cons_zero, e20, hshort, hTd, h0, if_false,
      List.length_set]
    by_cases h1 : ("/".intercalate [a, truncate 20 b short, d]).length ≤ 60
    · rw [if_pos h1, if_pos h1]
    · rw [if_neg h1, if_neg h1]
      have h2 : ("/".intercalate [truncate 20 a short, truncate 20 b short, d]).length ≤ 60 := by
        rw [intercalate3_length]
        omega
      rw [if_pos h2]

/-- The name `hashname` gives four elements, the last of at most 12
characters, has at most 60 characters and ends with a slash and the last
element. -/
theorem hashname_four_spec (a b c d : String) (hd : d.length ≤ 12) :
    (hashname 60 [a, b, c, d]).length ≤ 60
      ∧ ∃ pre, hashname 60 [a, b, c, d] = pre ++ "/" ++ d := by
  rw [hashname_four a b c d hd]
  split_ifs with h0 h1 h2
  · exact ⟨h0, _, intercalate4 _ _ _ _⟩
  · exact ⟨h1, _, intercalate4 _ _ _ _⟩
  · exact ⟨h2, _, intercalate4 _ _ _ _⟩
  · refine ⟨?_, _, intercalate4 _ _ _ _⟩
    have hlen := shorthash_length (bytesOf ("/".intercalate [a, b, c, d]))
    have hTa := truncate_length 15 a _ (by omega : (strTake (hex (sha256.Sum256
      (bytesOf ("/".intercalate [a, b, c, d])))) 6).length < 15)
    have hTb := truncate_length 15 b _ (by omega : (strTake (hex (sha256.Sum256
      (bytesOf ("/".intercalate [a, b, c, d])))) 6).length < 15)
    have hTc := truncate_length 15 c _ (by omega : (strTake (hex (sha256.Sum256
      (bytesOf ("/".intercalate [a, b, c, d])))) 6).length < 15)
    rw [intercalate4_length]
    omega

theorem hashname_three_spec (a b d : String) (hd : d.length ≤ 18) :
    (hashname 60 [a, b, d]).length ≤ 60
      ∧ ∃ pre, hashname 60 [a, b, d] = pre ++ "/" ++ d := by
  rw [hashname_three a b d hd]
  split_ifs with h0 h1
  · exact ⟨h0, _, intercalate3 _ _ _⟩
  · exact ⟨h1, _, intercalate3 _ _ _⟩
  · refine ⟨?_, _, intercalate3 _ _ _⟩
    have hlen := shorthash_length (bytesOf ("/".intercalate [a, b, d]))
    have hTa := truncate_length 20 a _ (by omega : (strTake (hex (sha256.Sum256
      (bytesOf ("/".intercalate [a, b, d])))) 6).length < 20)
    have hTb := truncate_length 20 b _ (by omega : (strTake (hex (sha256.Sum256
      (bytesOf ("/".intercalate [a, b, d])))) 6).length < 20)
    rw [intercalate3_length]
    omega

/-- Two names that end with different texts of the same length differ. -/
theorem ne_of_suffix_ne (p₁ p₂ h₁ h₂ : String) (hlen : h₁.length = h₂.length) (hne : h₁ ≠ h₂) :
    p₁ ++ h₁ ≠ p₂ ++ h₂ := by
  intro h
  apply hne
  have hd := congrArg String.data h
  simp only [String.data_append] at hd
  have hl : h₁.data.length = h₂.data.length := hlen
  have hp : p₁.data.length = p₂.data.length := by
    have := congrArg List.length hd
    simp only [List.length_append] at this
    omega
  have := (List.append_inj hd hp).2
  exact String.ext this

/-- The name of a cluster has at most 60 characters and ends with a slash and
the hash of the policy tuple. -/
theorem Clustername_spec (c : DagCluster) :
    (envoy.Clustername c).length ≤ 60 ∧ ∃ pre, envoy.Clustername c = pre ++ "/" ++ c.hash :=
  hashname_four_spec c.Namespace c.ServiceName (toString c.Port) c.hash
    (by rw [hash_length]; omega)

/-- Clusters whose policy tuples have different hashes have different names. -/
theorem Clustername_ne (c c' : DagCluster) (h : c'.hash ≠ c.hash) :
    envoy.Clustername c' ≠ envoy.Clustername c := by
  obtain ⟨pre, hpre⟩ := (Clustername_spec c).2
  obtain ⟨pre', hpre'⟩ := (Clustername_spec c').2
  rw [hpre, hpre']
  exact ne_of_suffix_ne _ _ _ _ ((hash_length c').trans (hash_length c).symm) h

/-- C24, amended. For every namespace, service name, port and policy the name
of the projected cluster has at most 60 characters. It is the natural name
`<ns>/<svc>/<port>/<hash>` when that has at most 60 characters. When the
natural name is longer, the portions longer than 15 characters are cut, the
port first, then the service name, then the namespace, until at most 60
characters remain: each to its first 8 characters, "-" and the first 6
hexadecimal digits of the SHA-256 of the natural name. When the port has at
most 15 characters and the namespace and the port at most 32 together, the
service name has more than 15 characters and it alone is cut; the service
`kbujbkuhdod66gjdmwmijz8xzgsx1nkfbrloezdjiulquzk4x3p0nnvpzi8r` of `default` on
port 8080 gives `default/kbujbkuh-c83ceb/8080/da39a3ee5e`. -/
theorem C24_cluster_name_length (c : DagCluster) :
    (envoy.Clustername c).length ≤ 60
    ∧ (c.naturalName.length ≤ 60 → envoy.Clustername c = c.naturalName)
    ∧ (∀ x : String,
        (x.length ≤ 15 → c.cut x = x)
        ∧ (15 < x.length →
            c.cut x = strTake x 8 ++ "-" ++ strTake (hex (sha256.Sum256 (bytesOf c.naturalName))) 6
            ∧ (c.cut x).length = 15))
    ∧ (60 < c.naturalName.length →
        envoy.Clustername c
          = if ("/".intercalate [c.Namespace, c.ServiceName, c.cut (toString c.Port),
                c.hash]).length ≤ 60 then
              "/".intercalate [c.Namespace, c.ServiceName, c.cut (toString c.Port), c.hash]
            else if ("/".intercalate [c.Namespace, c.cut c.ServiceName, c.cut (toString c.Port),
                c.hash]).length ≤ 60 then
              "/".intercalate [c.Namespace, c.cut c.ServiceName, c.cut (toString c.Port), c.hash]
            else
              "/".intercalate [c.cut c.Namespace, c.cut c.ServiceName, c.cut (toString c.Port),
                c.hash])
    ∧ (60 < c.naturalName.length → (toString c.Port).length ≤ 15 →
        c.Namespace.length + (toString c.Port).length ≤ 32 →
        15 < c.ServiceName.length
        ∧ envoy.Clustername c
          = c.Namespace ++ "/"
            ++ (strTake c.ServiceName 8 ++ "-"
                ++ strTake (hex (sha256.Sum256 (bytesOf c.naturalName))) 6)
            ++ "/" ++ toString c.Port ++ "/" ++ c.hash)
    ∧ exLongServiceCluster.naturalName.length = 84
    ∧ envoy.Clustername exLongServiceCluster = "default/kbujbkuh-c83ceb/8080/da39a3ee5e" := by
  have hshort := shorthash_length (bytesOf c.naturalName)
  have hn : "/".intercalate [c.Namespace, c.ServiceName, toString c.Port, c.hash]
      = c.naturalName := rfl
  have hfour := hashname_four c.Namespace c.ServiceName (toString c.Port) c.hash
    (by rw [hash_length]; omega)
  rw [hn] at hfour
  have hcut : ∀ x : String,
      (x.length ≤ 15 → c.cut x = x)
      ∧ (15 < x.length →
          c.cut x = strTake x 8 ++ "-" ++ strTake (hex (sha256.Sum256 (bytesOf c.naturalName))) 6
          ∧ (c.cut x).length = 15) := by
    intro x
    refine ⟨fun h => truncate_short 15 x _ h, fun h => ?_⟩
    have heq : c.cut x
        = strTake x 8 ++ "-" ++ strTake (hex (sha256.Sum256 (bytesOf c.naturalName))) 6 := by
      unfold DagCluster.cut
      rw [truncate_long 15 x _ h (by omega), hshort]
    refine ⟨heq, ?_⟩
    rw [heq]
    simp only [String.length_append, strTake_length, hshort]
    have h1 : "-".length = 1 := rfl
    omega
  refine ⟨(Clustername_spec c).1, fun h => ?_, hcut, fun h => ?_,
    fun h hport hroom => ?_, ?_, ?_⟩
  · show hashname 60 _ = _
    rw [hfour, if_pos h]
  · show hashname 60 _ = _
    rw [hfour, if_neg (by exact Nat.not_le.2 h)]
    rfl
  · have hlenh := hash_length c
    have hnat : c.naturalName.length
        = c.Namespace.length + c.ServiceName.length + (toString c.Port).length + c.hash.length + 3 := by
      rw [← hn, intercalate4_length]
    have hsvc : 15 < c.ServiceName.length := by omega
    refine ⟨hsvc, ?_⟩
    show hashname 60 _ = _
    rw [hfour, if_neg (by exact Nat.not_le.2 h)]
    have hp : truncate 15 (toString c.Port)
        (strTake (hex (sha256.Sum256 (bytesOf c.naturalName))) 6) = toString c.Port :=
      (hcut (toString c.Port)).1 hport
    have hs : truncate 15 c.ServiceName
        (strTake (hex (sha256.Sum256 (bytesOf c.naturalName))) 6)
        = strTake c.ServiceName 8 ++ "-"
          ++ strTake (hex (sha256.Sum256 (bytesOf c.naturalName))) 6 :=
      ((hcut c.ServiceName).2 hsvc).1
    rw [hp, hn, if_neg (by exact Nat.not_le.2 h), hs, if_pos, intercalate4]
    rw [intercalate4_length]
    simp only [String.length_append, strTake_length, hshort, hlenh]
    have h1 : "-".length = 1 := rfl
    omega
  · decide
  · set_option maxRecDepth 100000 in decide

/-- C24 fails as stated: the natural name of this cluster has 83 characters,
and the name of the projected cluster does not cut the service portion
`kuard`: the namespace is cut. -/
theorem C24_counterexample :
    exLongNamespaceCluster.naturalName.length = 83
    ∧ exLongNamespaceCluster.ServiceName = "kuard"
    ∧ envoy.Clustername exLongNamespaceCluster = "a-namesp-ae8b48/kuard/80/da39a3ee5e" := by
  set_option maxRecDepth 100000 in decide

/-- C26, amended. The hash component of the name of a cluster is the hex
encoding of the first 5 bytes of the SHA-1 of the policy tuple: it has ten
hexadecimal digits and closes the name after a slash. For the empty policy
tuple it is `da39a3ee5e`; `default/kuard` on port 80 is named
`default/kuard/80/da39a3ee5e`, and the strategy "Random" gives the hash
`58d888c08a`. -/
theorem C26_cluster_hash (c : DagCluster) :
    c.hash = hex ((sha1.Sum (bytesOf c.policy)).take 5)
    ∧ c.hash.length = 10
    ∧ (∃ pre, envoy.Clustername c = pre ++ "/" ++ c.hash)
    ∧ (c.naturalName.length ≤ 60 →
        envoy.Clustername c
          = c.Namespace ++ "/" ++ c.ServiceName ++ "/" ++ toString c.Port ++ "/" ++ c.hash)
    ∧ (c.policy = "" → c.hash = "da39a3ee5e")
    ∧ envoy.Clustername exKuardCluster = "default/kuard/80/da39a3ee5e"
    ∧ DagCluster.hash { exKuardCluster with LoadBalancerStrategy := "Random" } = "58d888c08a" := by
  refine ⟨rfl, hash_length c, (Clustername_spec c).2, fun h => ?_, fun h => ?_, ?_, ?_⟩
  · have h2 : ("/".intercalate [c.Namespace, c.ServiceName, toString c.Port, c.hash]).length
        ≤ 60 := h
    show hashname 60 _ = _
    rw [hashname_four _ _ _ _ (by rw [hash_length]; omega), if_pos h2]
    rfl
  · unfold DagCluster.hash
    rw [h]
    set_option maxRecDepth 100000 in decide
  · set_option maxRecDepth 100000 in decide
  · set_option maxRecDepth 100000 in decide

/-- C26 fails as stated: the first 5 bytes of the SHA-256 of the empty policy
tuple are `e3b0c44298`, and the hash component of the name of the cluster
without policy is `da39a3ee5e`. -/
theorem C26_counterexample :
    exKuardCluster.policy = ""
    ∧ hex ((sha256.Sum256 (bytesOf exKuardCluster.policy)).take 5) = "e3b0c44298"
    ∧ exKuardCluster.hash = "da39a3ee5e" := by
  set_option maxRecDepth 100000 in decide

/-- C25, amended. The name of a cluster is a function of namespace, service,
port and policy tuple, and not of the weight: two Cluster vertices that differ
only in weight have one name, and the cluster visitor gives them one entry of
its map. Two that differ in load-balancing strategy have different names
whenever the hashes of their policy tuples differ, as they do for any two of
the empty strategy, "Random" and "WeightedLeastRequest" on a cluster without
health check and upstream validation. -/
theorem C25_cluster_name_weight (c : DagCluster) :
    (∀ w : Nat, envoy.Clustername { c with Weight := w } = envoy.Clustername c)
    ∧ (∀ c' : DagCluster, c'.hash ≠ c.hash → envoy.Clustername c' ≠ envoy.Clustername c)
    ∧ (∀ s ∈ ["", "Random", "WeightedLeastRequest"],
        ∀ s' ∈ ["", "Random", "WeightedLeastRequest"], s ≠ s' →
          envoy.Clustername { c with LoadBalancerStrategy := s, HealthCheckPolicy := none,
                                     UpstreamValidation := none }
            ≠ envoy.Clustername { c with LoadBalancerStrategy := s', HealthCheckPolicy := none,
                                         UpstreamValidation := none })
    ∧ (∀ (g : Dag DagCluster) (rank : Nat → Nat) (root fuel v v' : Nat) (w : Nat),
        (∀ x, g.Reachable root x → ∀ y ∈ g.children x, rank y < rank x) → rank root < fuel →
        g.Reachable root v → g.asCluster v = some c →
        g.Reachable root v' → g.asCluster v' = some { c with Weight := w } →
        ∃ m, visitClusters envoy.functions g fuel root = some m
          ∧ m.keys.Nodup
          ∧ envoy.Clustername c ∈ m.keys
          ∧ envoy.Clustername { c with Weight := w } = envoy.Clustername c) := by
  refine ⟨fun w => rfl, fun c' h => Clustername_ne c c' h, ?_, ?_⟩
  · have hhash : ∀ s : String,
        DagCluster.hash { c with LoadBalancerStrategy := s, HealthCheckPolicy := none,
                                 UpstreamValidation := none }
          = hex ((sha1.Sum (bytesOf (s ++ "" ++ ""))).take 5) := fun s => rfl
    have h0 : hex ((sha1.Sum (bytesOf ("" ++ "" ++ ""))).take 5) = "da39a3ee5e" := by
      set_option maxRecDepth 100000 in decide
    have h1 : hex ((sha1.Sum (bytesOf ("Random" ++ "" ++ ""))).take 5) = "58d888c08a" := by
      set_option maxRecDepth 100000 in decide
    have h2 : hex ((sha1.Sum (bytesOf ("WeightedLeastRequest" ++ "" ++ ""))).take 5)
        = "8bf87fefba" := by
      set_option maxRecDepth 100000 in decide
    intro s hs s' hs' hne
    apply Clustername_ne
    rw [hhash, hhash]
    simp only [List.mem_cons, List.mem_singleton, List.not_mem_nil, or_false] at hs hs'
    rcases hs with rfl | rfl | rfl <;> rcases hs' with rfl | rfl | rfl <;>
      first
      | exact absurd rfl hne
      | (simp only [h0, h1, h2]; decide)
  · intro g rank root fuel v v' w hrank hfuel hv hc _ _
    obtain ⟨cv, hcv, hk⟩ := visit_keys envoy.functions g (fun _ => rfl) rank fuel root hfuel hrank
      { clusters := ∅ }
    refine ⟨cv.clusters, ?_, cv.clusters.keys_nodup, ?_, rfl⟩
    · unfold visitClusters
      rw [hcv]
      rfl
    · rw [← AList.mem_keys, hk]
      exact Or.inr ⟨v, c, hv, hc, rfl⟩

/-- C25 fails as stated: these two Cluster vertices differ in load-balancing
strategy only, and they have the same name: the first 5 bytes of the SHA-1 of
the two strategies are the same. -/
theorem C25_counterexample :
    envoy.Clustername { exKuardCluster with LoadBalancerStrategy := "strategy-364014" }
      = "default/kuard/80/42d0296b84"
    ∧ envoy.Clustername { exKuardCluster with LoadBalancerStrategy := "strategy-842506" }
      = "default/kuard/80/42d0296b84" := by
  set_option maxRecDepth 100000 in decide

/-- The name of a secret has at most 60 characters and ends with a slash and
the hash of the certificate. -/
theorem Secretname_spec (s : DagSecret) :
    (envoy.Secretname s).length ≤ 60
      ∧ ∃ pre, envoy.Secretname s = pre ++ "/" ++ hex ((sha1.Sum (bytesOf s.Cert)).take 5) := by
  apply hashname_three_spec
  rw [hex_length, List.length_take, sha1_Sum_length]
  decide

/-- C28, amended. The projected name of a secret is `<ns>/<name>/<h>`, cut to
at most 60 characters when it is longer, where `h` is the 10 hexadecimal
digits of the first 5 bytes of the SHA-1 of the certificate. Replacing the
private key does not change the name. Replacing the certificate changes it
whenever the hash of the certificate changes, as from "cert" to "cert-a". The
secret `default/secret` with the certificate "cert" and the key "key" is named
`default/secret/cd1b506996`. -/
theorem C28_secret_name (s : DagSecret) :
    (∀ key : String, envoy.Secretname { s with Key := key } = envoy.Secretname s)
    ∧ (envoy.Secretname s).length ≤ 60
    ∧ (∃ pre, envoy.Secretname s = pre ++ "/" ++ hex ((sha1.Sum (bytesOf s.Cert)).take 5))
    ∧ (hex ((sha1.Sum (bytesOf s.Cert)).take 5)).length = 10
    ∧ (("/".intercalate [s.Namespace, s.Name, hex ((sha1.Sum (bytesOf s.Cert)).take 5)]).length
          ≤ 60 →
        envoy.Secretname s
          = s.Namespace ++ "/" ++ s.Name ++ "/" ++ hex ((sha1.Sum (bytesOf s.Cert)).take 5))
    ∧ (∀ cert : String,
        hex ((sha1.Sum (bytesOf cert)).take 5) ≠ hex ((sha1.Sum (bytesOf s.Cert)).take 5) →
        envoy.Secretname { s with Cert := cert } ≠ envoy.Secretname s)
    ∧ envoy.Secretname exDagSecret = "default/secret/cd1b506996"
    ∧ envoy.Secretname { exDagSecret with Cert := "cert-a" } = "default/secret/ff2a9f58ca" := by
  have hlen : ∀ cert : String, (hex ((sha1.Sum (bytesOf cert)).take 5)).length = 10 := by
    intro cert
    rw [hex_length, List.length_take, sha1_Sum_length]
    rfl
  refine ⟨fun key => rfl, (Secretname_spec s).1, (Secretname_spec s).2, hlen s.Cert,
    fun h => ?_, fun cert hne => ?_, ?_, ?_⟩
  · show hashname 60 _ = _
    rw [hashname_three _ _ _ (by rw [hlen]; omega), if_pos h]
    rfl
  · obtain ⟨pre, hpre⟩ := (Secretname_spec s).2
    obtain ⟨pre', hpre'⟩ := (Secretname_spec { s with Cert := cert }).2
    rw [hpre, hpre']
    exact ne_of_suffix_ne _ _ _ _ ((hlen cert).trans (hlen s.Cert).symm) hne
  · set_option maxRecDepth 100000 in decide
  · set_option maxRecDepth 100000 in decide

/-- C28 fails as stated: the secret `default/secret` with the certificate
"cert" keeps its projected name when its private key is replaced; and the
first 5 bytes of the SHA-256 of certificate and key are `44b56c2f52`, not the
`cd1b506996` of the name. -/
theorem C28_counterexample :
    envoy.Secretname exDagSecret = "default/secret/cd1b506996"
    ∧ envoy.Secretname { exDagSecret with Key := "rotated" } = "default/secret/cd1b506996"
    ∧ hex ((sha256.Sum256 (bytesOf (exDagSecret.Cert ++ exDagSecret.Key))).take 5)
        = "44b56c2f52" := by
  set_option maxRecDepth 100000 in decide
/-! ## The secret projection -/

theorem dagSecret_some (kc : KubernetesCache) (m : Meta) (s : DagSecret)
    (h : kc.dagSecret m = some s) :
    m = { name := s.Name, ns := s.Namespace }
      ∧ ∃ body, kc.secrets.lookup m = some body ∧ body.validTLS = true
          ∧ s.Cert = body.Data.index "tls.crt" ∧ s.Key = body.Data.index "tls.key" := by
  unfold KubernetesCache.dagSecret at h
  cases hl : kc.secrets.lookup m with
  | none => simp [hl] at h
  | some body =>
    simp only [hl] at h
    by_cases hv : body.validTLS = true
    · rw [if_pos hv] at h
      cases h
      exact ⟨rfl, body, rfl, hv, rfl, rfl⟩
    · rw [if_neg hv] at h
      cases h

theorem mem_ingressSecrets (kc : KubernetesCache) (im : Meta) (ispec : IngressSpec)
    (s : DagSecret) (hl : kc.ingresses.lookup im = some ispec)
    (h : s ∈ kc.ingressSecrets im.ns ispec) : kc.Binds s := by
  unfold KubernetesCache.ingressSecrets at h
  by_cases hr : kc.ingressRouted im.ns ispec = true
  · rw [if_pos hr, List.mem_filterMap] at h
    obtain ⟨name, hname, hs⟩ := h
    split_ifs at hs
    obtain ⟨hm, body, hbody, hvalid, hcert, hkey⟩ := dagSecret_some kc _ s hs
    refine ⟨⟨body, hm ▸ hbody, hvalid, hcert, hkey⟩, Or.inl ⟨im, ispec, name, hl, hname, hm, hr⟩⟩
  · rw [if_neg hr] at h
    exact absurd h (List.not_mem_nil s)

theorem mem_proxySecrets (kc : KubernetesCache) (k : ProxyKind) (m : Meta) (spec : ProxySpec)
    (s : DagSecret) (hl : (kc.proxies k).lookup m = some spec)
    (h : s ∈ kc.proxySecrets k m spec) : kc.Binds s := by
  unfold KubernetesCache.proxySecrets at h
  cases hv : spec.VirtualHost with
  | none => simp [hv] at h
  | some vh =>
    simp only [hv] at h
    cases hs : kc.secureVirtualHost k m spec vh with
    | none => simp [hs] at h
    | some sm =>
      simp only [hs] at h
      split_ifs at h with hroute
      · rw [Option.mem_toList] at h
        obtain ⟨hm, body, hbody, hvalid, hcert, hkey⟩ := dagSecret_some kc sm s h
        refine ⟨⟨body, hm ▸ hbody, hvalid, hcert, hkey⟩,
          Or.inr ⟨k, m, spec, vh, hl, hv, hm ▸ hs, ?_⟩⟩
        rw [Bool.or_eq_true] at hroute
        rcases hroute with hroute | hroute
        · exact Or.inl hroute
        · right
          cases he : kc.rootEvents k m spec vh with
          | none => simp [he] at hroute
          | some evs =>
            simp only [he, List.any_eq_true] at hroute
            exact ⟨evs, rfl, hroute⟩
      · exact absurd h (List.not_mem_nil s)

/-- Every Secret vertex of the DAG is bound to a valid secure virtual host. -/
theorem mem_dagSecrets (kc : KubernetesCache) (s : DagSecret) (h : s ∈ kc.dagSecrets) :
    kc.Binds s := by
  unfold KubernetesCache.dagSecrets at h
  simp only [List.mem_append, List.mem_flatMap] at h
  rcases h with (⟨e, he, hs⟩ | ⟨e, he, hs⟩) | ⟨e, he, hs⟩
  · cases e with
    | mk im ispec =>
      exact mem_ingressSecrets kc im ispec s
        (AList.mem_lookup_iff.2 ((List.perm_insertionSort _ _).mem_iff.1 he)) hs
  · exact mem_proxySecrets kc _ e.1 e.2 s ((mem_roots kc _ e).1 he).1 hs
  · exact mem_proxySecrets kc _ e.1 e.2 s ((mem_roots kc _ e).1 he).1 hs

/-- The map of the secret projector holds, besides what it held before, the
messages of the vertices met, each under its projected name. -/
theorem visitSecrets_fold (l : List DagSecret) :
    ∀ acc : GoMap EnvoySecret,
      (∀ name v,
        (l.foldl (fun m s =>
            match m.lookup (envoy.Secretname s) with
            | some _ => m
            | none => m.insert (envoy.Secret s).Name (envoy.Secret s)) acc).lookup name = some v →
          acc.lookup name = some v ∨ ∃ s ∈ l, v = envoy.Secret s ∧ name = envoy.Secretname s)
      ∧ (∀ name,
        (name ∈ acc.keys ∨ ∃ s ∈ l, name = envoy.Secretname s) →
          name ∈ (l.foldl (fun m s =>
            match m.lookup (envoy.Secretname s) with
            | some _ => m
            | none => m.insert (envoy.Secret s).Name (envoy.Secret s)) acc).keys) := by
  induction l with
  | nil =>
    intro acc
    refine ⟨fun name v h => Or.inl h, fun name h => ?_⟩
    rcases h with h | ⟨s, hs, _⟩
    · exact h
    · exact absurd hs (List.not_mem_nil s)
  | cons s rest ih =>
    intro acc
    simp only [List.foldl_cons]
    cases hl : acc.lookup (envoy.Secretname s) with
    | some w =>
      simp only []
      obtain ⟨ih1, ih2⟩ := ih acc
      refine ⟨fun name v h => ?_, fun name h => ?_⟩
      · rcases ih1 name v h with h | ⟨s', hs', hv, hn⟩
        · exact Or.inl h
        · exact Or.inr ⟨s', List.mem_cons_of_mem s hs', hv, hn⟩
      · apply ih2
        rcases h with h | ⟨s', hs', hn⟩
        · exact Or.inl h
        · rcases List.mem_cons.1 hs' with rfl | hs'
          · left
            rw [hn]
            exact AList.mem_keys.1 (AList.lookup_isSome.1 (by simp [hl]))
          · exact Or.inr ⟨s', hs', hn⟩
    | none =>
      simp only []
      obtain ⟨ih1, ih2⟩ := ih (acc.insert (envoy.Secret s).Name (envoy.Secret s))
      have hname : (envoy.Secret s).Name = envoy.Secretname s := rfl
      refine ⟨fun name v h => ?_, fun name h => ?_⟩
      · rcases ih1 name v h with h | ⟨s', hs', hv, hn⟩
        · by_cases hk : name = (envoy.Secret s).Name
          · subst hk
            rw [AList.lookup_insert] at h
            exact Or.inr ⟨s, List.mem_cons_self s rest, (Option.some.inj h).symm, hname⟩
          · rw [AList.lookup_insert_ne hk] at h
            exact Or.inl h
        · exact Or.inr ⟨s', List.mem_cons_of_mem s hs', hv, hn⟩
      · apply ih2
        rcases h with h | ⟨s', hs', hn⟩
        · left
          rw [← AList.mem_keys, AList.mem_insert]
          exact Or.inr (AList.mem_keys.2 h)
        · rcases List.mem_cons.1 hs' with rfl | hs'
          · left
            rw [← AList.mem_keys, AList.mem_insert]
            exact Or.inl (hn.trans hname.symm)
          · exact Or.inr ⟨s', hs', hn⟩

theorem secureVirtualHost_some (kc : KubernetesCache) (k : ProxyKind) (m : Meta)
    (spec : ProxySpec) (vh : VirtualHost) (sm : Meta)
    (h : kc.secureVirtualHost k m spec vh = some sm) :
    kc.precheck k m spec vh = none
      ∧ ∃ tls, vh.TLS = some tls ∧ splitSecret tls.SecretName m.ns = sm := by
  unfold KubernetesCache.secureVirtualHost at h
  cases hp : kc.precheck k m spec vh with
  | some st => simp [hp] at h
  | none =>
    simp only [hp] at h
    cases ht : vh.TLS with
    | none => simp [ht] at h
    | some tls =>
      simp only [ht] at h
      split_ifs at h
      cases h
      exact ⟨rfl, tls, rfl, rfl⟩

/-- C27, amended. The secret projection holds a secret only if it is bound to a
valid secure virtual host of the DAG that `Build` produces: every entry is the
message of a Secret vertex, under its projected name, and that vertex is the
stored TLS secret, with certificate and key, of an Ingress that has a route or
of a root that passes the checks made before the walk and has a TCPProxy or a
route attached by its walk. A stored secret that is not such a TLS secret does
not appear, whoever names it. A stored TLS secret does not appear when every
Ingress that names it has no route and every root that names it fails the
checks made before the walk or has neither a TCPProxy nor a route attached.
The names of the entries are pairwise distinct, and a secret bound to several
virtual hosts appears exactly once. -/
theorem C27_secret_projection (kc : KubernetesCache) :
    (∀ name v, kc.secretProjection.lookup name = some v →
      ∃ s ∈ kc.dagSecrets, v = envoy.Secret s ∧ name = envoy.Secretname s ∧ kc.Binds s)
    ∧ (∀ (m : Meta) (body : SecretBody), kc.secrets.lookup m = some body →
        body.validTLS = false →
        ∀ s ∈ kc.dagSecrets, ¬ (s.Name = m.name ∧ s.Namespace = m.ns))
    ∧ (∀ m : Meta,
        (∀ im ispec name, kc.ingresses.lookup im = some ispec → name ∈ ispec.TLS →
          splitSecret name im.ns = m → kc.ingressRouted im.ns ispec = false) →
        (∀ k dm spec vh tls, (kc.proxies k).lookup dm = some spec → spec.VirtualHost = some vh →
          vh.TLS = some tls → splitSecret tls.SecretName dm.ns = m →
          kc.precheck k dm spec vh ≠ none
            ∨ (spec.TCPProxy.isSome = false
                ∧ ∀ evs, kc.rootEvents k dm spec vh = some evs →
                    ∀ e ∈ evs, e.isRoute = false)) →
        ∀ s ∈ kc.dagSecrets, ¬ (s.Name = m.name ∧ s.Namespace = m.ns))
    ∧ kc.secretProjection.keys.Nodup
    ∧ (∀ s ∈ kc.dagSecrets, kc.secretProjection.keys.count (envoy.Secretname s) = 1) := by
  have hfold := visitSecrets_fold kc.dagSecrets ∅
  have hthird : ∀ m : Meta,
      (∀ im ispec name, kc.ingresses.lookup im = some ispec → name ∈ ispec.TLS →
        splitSecret name im.ns = m → kc.ingressRouted im.ns ispec = false) →
      (∀ k dm spec vh tls, (kc.proxies k).lookup dm = some spec → spec.VirtualHost = some vh →
        vh.TLS = some tls → splitSecret tls.SecretName dm.ns = m →
        kc.precheck k dm spec vh ≠ none
          ∨ (spec.TCPProxy.isSome = false
              ∧ ∀ evs, kc.rootEvents k dm spec vh = some evs →
                  ∀ e ∈ evs, e.isRoute = false)) →
      ∀ s ∈ kc.dagSecrets, ¬ (s.Name = m.name ∧ s.Namespace = m.ns) := by
    intro m hing hroot s hs hsm
    have hm : ({ name := s.Name, ns := s.Namespace } : Meta) = m := by
      cases m
      simp only [Meta.mk.injEq]
      exact hsm
    obtain ⟨_, hb⟩ := mem_dagSecrets kc s hs
    rcases hb with ⟨im, ispec, name, hl, hname, hsplit, hrouted⟩ |
      ⟨k, dm, spec, vh, hl, hv, hsvh, hattached⟩
    · rw [hing im ispec name hl hname (hsplit.trans hm)] at hrouted
      cases hrouted
    · obtain ⟨hp, tls, htls, hsplit⟩ := secureVirtualHost_some kc k dm spec vh _ hsvh
      rcases hroot k dm spec vh tls hl hv htls (hsplit.trans hm) with hfail | ⟨htcp, hnoroute⟩
      · exact hfail hp
      · rcases hattached with htcp' | ⟨evs, hevs, e, he, hroute⟩
        · rw [htcp] at htcp'
          cases htcp'
        · rw [hnoroute evs hevs e he] at hroute
          cases hroute
  refine ⟨fun name v h => ?_, fun m body hl hinvalid s hs hsm => ?_,
    hthird, kc.secretProjection.keys_nodup, fun s hs => ?_⟩
  · rcases hfold.1 name v h with h0 | ⟨s, hs, hv, hn⟩
    · simp at h0
    · exact ⟨s, hs, hv, hn, mem_dagSecrets kc s hs⟩
  · obtain ⟨⟨body', hl', hvalid, _, _⟩, _⟩ := mem_dagSecrets kc s hs
    have hm : ({ name := s.Name, ns := s.Namespace } : Meta) = m := by
      cases m
      simp only [Meta.mk.injEq]
      exact hsm
    rw [hm, hl] at hl'
    cases hl'
    rw [hinvalid] at hvalid
    cases hvalid
  · exact List.count_eq_one_of_mem kc.secretProjection.keys_nodup
      (hfold.2 _ (Or.inr ⟨s, hs, rfl⟩))

/-- C27 at inputs, from `TestSecretVisit` and the SDS tests. The roots
`default/simple-a` and `default/simple-b` share the secret `default/secret`:
two Secret vertices, one entry, `default/secret/cd1b506996`. A TLS secret that
nothing names is not projected; neither is the secret of another type that an
Ingress with a route names, nor the TLS secret of an Ingress whose service is
missing. -/
theorem C27_secret_projection_witness :
    exCacheSharedSecret.dagSecrets.length = 2
    ∧ exCacheSharedSecret.secretProjection.entries
        = [⟨"default/secret/cd1b506996",
            { Name := "default/secret/cd1b506996", CertificateChain := "cert",
              PrivateKey := "key" }⟩]
    ∧ exCacheSharedSecret.secretProjection.keys.count "default/secret/cd1b506996" = 1
    ∧ exCacheUnassociated.secretProjection.entries = []
    ∧ exCacheInvalidSecret.secretProjection.entries = []
    ∧ exCacheNoService.secretProjection.entries = []
    ∧ exCacheIngressSecret.secretProjection.keys = ["default/secret/cd1b506996"] := by
  have hshared : exCacheSharedSecret.dagSecrets = [exDagSecret, exDagSecret] := by
    set_option maxRecDepth 100000 in decide
  have hname : envoy.Secretname exDagSecret = "default/secret/cd1b506996" := by
    set_option maxRecDepth 100000 in decide
  refine ⟨by rw [hshared]; rfl, ?_, ?_, ?_, ?_, ?_, ?_⟩
  · set_option maxRecDepth 100000 in decide
  · rw [← hname]
    exact (C27_secret_projection exCacheSharedSecret).2.2.2.2 exDagSecret
      (by rw [hshared]; exact List.mem_cons_self _ _)
  · set_option maxRecDepth 100000 in decide
  · set_option maxRecDepth 100000 in decide
  · set_option maxRecDepth 100000 in decide
  · set_option maxRecDepth 100000 in decide

/-- C27 fails as stated: the only routing document of this cache is the root
`default/simple-late`, which names the TLS secret `default/secret`; its second
route sends `/bar` to the port -80, so that the root is invalid; its first
route is attached to its secure virtual host, and the secret is projected. -/
theorem C27_counterexample :
    exCacheLateErrorTLS.ingresses.keys = []
    ∧ exCacheLateErrorTLS.httpproxies.keys = []
    ∧ exCacheLateErrorTLS.ingressroutes.keys = [{ name := "simple-late", ns := "default" }]
    ∧ exCacheLateErrorTLS.buildStatus ProxyKind.IngressRoute
        { name := "simple-late", ns := "default" }
      = some (Status.invalid
          "route \"/bar\": service \"backend\": port must be in the range 1-65535")
    ∧ exCacheLateErrorTLS.buildEvents ProxyKind.IngressRoute
      = some [Event.route { name := "simple-late", ns := "default" } "/",
          Event.status { name := "simple-late", ns := "default" }
            (Status.invalid
              "route \"/bar\": service \"backend\": port must be in the range 1-65535")]
    ∧ exCacheLateErrorTLS.secretProjection.keys = ["default/secret/cd1b506996"] := by
  set_option maxRecDepth 100000 in decide

/-! ## Queries of the resource cache -/

theorem length_filterMap_lookup (m : GoMap Cluster) (names : List String) :
    (names.filterMap (fun n => m.lookup n)).length
      = names.countP (fun n => (m.lookup n).isSome) := by
  induction names with
  | nil => rfl
  | cons n ns ih =>
    cases h : m.lookup n with
    | none => simp [List.filterMap_cons, List.countP_cons, h, ih]
    | some v => simp [List.filterMap_cons, List.countP_cons, h, ih]

theorem count_filterMap_lookup (m : GoMap Cluster) (names : List String) (v : Cluster) :
    (names.filterMap (fun n => m.lookup n)).count v
      = names.countP (fun n => decide (m.lookup n = some v)) := by
  induction names with
  | nil => rfl
  | cons n ns ih =>
    cases h : m.lookup n with
    | none => simp [List.filterMap_cons, List.countP_cons, h, ih]
    | some w =>
      by_cases hw : w = v
      · subst hw
        simp [List.filterMap_cons, List.countP_cons, h, ih]
      · simp [List.filterMap_cons, List.countP_cons, h, ih, hw, List.count_cons]

theorem filterMap_lookup_filter (m : GoMap Cluster) (names : List String) :
    names.filterMap (fun n => m.lookup n)
      = (names.filter (fun n => (m.lookup n).isSome)).filterMap (fun n => m.lookup n) := by
  induction names with
  | nil => rfl
  | cons n ns ih =>
    cases h : m.lookup n with
    | none => simp [List.filterMap_cons, List.filter_cons, h, ih]
    | some v => simp [List.filterMap_cons, List.filter_cons, h, ih]

theorem sortStable_eq_of_perm (l₁ l₂ : List Cluster) (hp : l₁.Perm l₂)
    (hinj : ∀ a ∈ l₁, ∀ b ∈ l₁, a.Name = b.Name → a = b) :
    clusterByName.sortStable l₁ = clusterByName.sortStable l₂ := by
  apply eq_of_perm_of_sorted_on (fun a b : Cluster => a.Name ≤ b.Name)
  · exact ((sortStable_perm l₁).trans hp).trans (sortStable_perm l₂).symm
  · exact sortStable_pairwise l₁
  · exact sortStable_pairwise l₂
  · intro a ha b hb hab hba
    exact hinj a (mem_sortStable.1 ha) b (mem_sortStable.1 hb) (le_antisymm hab hba)

theorem own_name_inj (m : GoMap Cluster) (hown : ∀ k v, m.lookup k = some v → v.Name = k)
    (names : List String) :
    ∀ a ∈ names.filterMap (fun n => m.lookup n), ∀ b ∈ names.filterMap (fun n => m.lookup n),
      a.Name = b.Name → a = b := by
  intro a ha b hb hab
  obtain ⟨ka, -, hka⟩ := List.mem_filterMap.1 ha
  obtain ⟨kb, -, hkb⟩ := List.mem_filterMap.1 hb
  have h1 := hown ka a hka
  have h2 := hown kb b hkb
  have hk : ka = kb := by rw [← h1, ← h2, hab]
  subst hk
  rw [hka] at hkb
  exact Option.some.inj hkb

theorem own_name_of_entries (m : GoMap Cluster) (h : ∀ e ∈ m.entries, e.2.Name = e.1) :
    ∀ k v, m.lookup k = some v → v.Name = k :=
  fun k v hk => h ⟨k, v⟩ (AList.mem_lookup_iff.1 hk)

theorem Query_perm (c : ClusterCache) (hown : ∀ k v, c.values.lookup k = some v → v.Name = k)
    (names names' : List String) (hp : names'.Perm names) : c.Query names' = c.Query names := by
  rw [Query_eq, Query_eq]
  exact sortStable_eq_of_perm _ _ (hp.filterMap _) (own_name_inj c.values hown names')

theorem dlookup_keys (l : List (Sigma (fun _ : String => Cluster))) (hnd : l.NodupKeys) :
    l.keys.filterMap (fun k => l.dlookup k) = l.map (fun e => e.2) := by
  induction l with
  | nil => rfl
  | cons e l ih =>
    obtain ⟨k, v⟩ := e
    have hk : k ∉ l.keys := (List.nodupKeys_cons.1 hnd).1
    have hl : l.NodupKeys := (List.nodupKeys_cons.1 hnd).2
    simp only [List.keys_cons, List.filterMap_cons, List.dlookup_cons_eq, List.map_cons]
    congr 1
    rw [← ih hl]
    apply List.filterMap_congr
    intro k' hk'
    have hne : k' ≠ k := fun h => hk (h ▸ hk')
    exact List.dlookup_cons_ne l ⟨k, v⟩ hne

theorem filterMap_lookup_keys (m : GoMap Cluster) :
    m.keys.filterMap (fun k => m.lookup k) = m.values :=
  dlookup_keys m.entries m.nodupKeys

theorem filter_keys_perm (m : GoMap Cluster) (names : List String)
    (hkeys : ∀ k, k ∈ m → names.count k = 1) :
    (names.filter (fun n => (m.lookup n).isSome)).Perm m.keys := by
  rw [List.perm_iff_count]
  intro a
  by_cases ha : a ∈ m
  · have h1 : (m.lookup a).isSome = true := AList.lookup_isSome.2 ha
    rw [List.count_filter (p := fun n => (m.lookup n).isSome) h1, hkeys a ha]
    exact (List.count_eq_one_of_mem m.keys_nodup (AList.mem_keys.1 ha)).symm
  · have h1 : a ∉ names.filter (fun n => (m.lookup n).isSome) := by
      intro h
      exact ha (AList.lookup_isSome.1 (List.mem_filter.1 h).2)
    rw [List.count_eq_zero_of_not_mem h1]
    exact (List.count_eq_zero_of_not_mem (fun h => ha (AList.mem_keys.2 h))).symm

/-- C31: the length of `Query(names)` is the number of positions of `names`
that hold a key of the cache, whatever the cache holds; a cluster occurs in the
result once for each position of `names` whose name it is stored under, so a
present name listed k times yields its cluster at least k times, and exactly k
times when the cluster is stored under that name only. -/
theorem C31_Query_length (c : ClusterCache) (names : List String) :
    (c.Query names).length = names.countP (fun n => (c.values.lookup n).isSome)
    ∧ (∀ v, (c.Query names).count v = names.countP (fun n => decide (c.values.lookup n = some v)))
    ∧ (∀ n v, c.values.lookup n = some v → names.count n ≤ (c.Query names).count v)
    ∧ (∀ n v, c.values.lookup n = some v → (∀ k, c.values.lookup k = some v → k = n) →
        (c.Query names).count v = names.count n)
    ∧ exCache.Query ["default/kuard/80/da39a3ee5e", "default/other/80/da39a3ee5e",
          "default/kuard/80/da39a3ee5e", "default/kuard/80/da39a3ee5e"]
        = [exKuard80, exKuard80, exKuard80] := by
  have hcount : ∀ v, (c.Query names).count v
      = names.countP (fun n => decide (c.values.lookup n = some v)) := by
    intro v
    rw [Query_eq, (sortStable_perm _).count_eq, count_filterMap_lookup]
  refine ⟨?_, hcount, fun n v h => ?_, fun n v h hk => ?_, by decide⟩
  · rw [Query_eq, (sortStable_perm _).length_eq, length_filterMap_lookup]
  · rw [hcount, List.count_eq_countP]
    apply List.countP_mono_left
    intro x _ hx
    have : x = n := by simpa using hx
    subst this
    simpa using h
  · rw [hcount, List.count_eq_countP]
    apply List.countP_congr
    intro x _
    constructor
    · intro hx
      have hx' : c.values.lookup x = some v := by simpa using hx
      simpa using hk x hx'
    · intro hx
      have : x = n := by simpa using hx
      subst this
      simpa using h

/-- C32: in a cache that stores every cluster under its own Name, `Query`
returns the same sequence for every rearrangement of `names`. Without that, two
clusters of equal Names stored under the keys "a" and "b" come out in the order
in which `names` lists their keys, and the two results differ. -/
theorem C32_Query_permutation (c : ClusterCache) (names names' : List String)
    (hown : ∀ k v, c.values.lookup k = some v → v.Name = k)
    (hperm : names'.Perm names) :
    c.Query names' = c.Query names
    ∧ (exTwinCache.Query ["a", "b"]).map (fun v => v.AltStatName) = ["first", "second"]
    ∧ (exTwinCache.Query ["b", "a"]).map (fun v => v.AltStatName) = ["second", "first"]
    ∧ exTwinCache.Query ["b", "a"] ≠ exTwinCache.Query ["a", "b"] :=
  ⟨Query_perm c hown names names' hperm, by decide, by decide, by decide⟩

/-- C32 at an input: the cache that holds the two clusters of `default/kuard`
under their names answers the two orders of the names alike. -/
theorem C32_Query_permutation_witness :
    exKuardCache.Query ["default/kuard/80/da39a3ee5e", "default/kuard/443/da39a3ee5e"]
      = exKuardCache.Query ["default/kuard/443/da39a3ee5e", "default/kuard/80/da39a3ee5e"]
    ∧ exKuardCache.Query ["default/kuard/80/da39a3ee5e", "default/kuard/443/da39a3ee5e"]
      = [exKuard443, exKuard80] :=
  ⟨(C32_Query_permutation exKuardCache
      ["default/kuard/443/da39a3ee5e", "default/kuard/80/da39a3ee5e"]
      ["default/kuard/80/da39a3ee5e", "default/kuard/443/da39a3ee5e"]
      (own_name_of_entries _ (by decide)) (List.Perm.swap _ _ _)).1, by decide⟩

/-- C33: in a cache that stores every cluster under its own Name, a query for
a list that holds every key of the cache exactly once, in any order (names that
are not keys may come with them), returns `Contents()`. -/
theorem C33_Query_all_keys (c : ClusterCache) (names : List String)
    (hown : ∀ k v, c.values.lookup k = some v → v.Name = k)
    (hkeys : ∀ k, k ∈ c.values → names.count k = 1) :
    c.Query names = c.Contents := by
  rw [Query_eq, Contents_eq, filterMap_lookup_filter, ← filterMap_lookup_keys]
  exact sortStable_eq_of_perm _ _ ((filter_keys_perm c.values names hkeys).filterMap _)
    (own_name_inj c.values hown _)

/-- C33 at an input: the cache that holds the two clusters of `default/kuard`
under their names, queried for the two names, port 80 first. -/
theorem C33_Query_all_keys_witness :
    exKuardCache.Query ["default/kuard/80/da39a3ee5e", "default/kuard/443/da39a3ee5e"]
      = exKuardCache.Contents :=
  C33_Query_all_keys exKuardCache
    ["default/kuard/80/da39a3ee5e", "default/kuard/443/da39a3ee5e"]
    (own_name_of_entries _ (by decide))
    (fun k hk => (by decide : ∀ k ∈ exKuardCache.values.keys,
      List.count k ["default/kuard/80/da39a3ee5e", "default/kuard/443/da39a3ee5e"] = 1) k
      (AList.mem_keys.1 hk))

/-! ## The order of the walk of the cluster visitor -/

theorem visit_record {K : Type} (e : Envoy K) (g : Dag K) (fuel : Nat) (cv : clusterVisitor)
    (x : Nat) :
    clusterVisitor.visit e g (fuel + 1) cv x
      = (g.children x).foldlM (fun acc child => clusterVisitor.visit e g fuel acc child)
          (cv.record e g x) := rfl

theorem visitOrder_succ {K : Type} (g : Dag K) (fuel x : Nat) :
    g.visitOrder (fuel + 1) x
      = (g.children x).foldlM
          (fun acc child => (g.visitOrder fuel child).map (fun l => acc ++ l)) [x] := rfl

theorem foldlM_visit_order {K : Type} (e : Envoy K) (g : Dag K) (fuel : Nat)
    (ih : ∀ (cv : clusterVisitor) (x : Nat), clusterVisitor.visit e g fuel cv x
      = (g.visitOrder fuel x).map (fun order => order.foldl (clusterVisitor.record e g) cv))
    (cv : clusterVisitor) (ws : List Nat) :
    ∀ acc : List Nat,
      ws.foldlM (fun s child => clusterVisitor.visit e g fuel s child)
          (acc.foldl (clusterVisitor.record e g) cv)
        = (ws.foldlM (fun acc child => (g.visitOrder fuel child).map (fun l => acc ++ l)) acc).map
            (fun order => order.foldl (clusterVisitor.record e g) cv) := by
  induction ws with
  | nil => intro acc; rfl
  | cons w ws ihws =>
    intro acc
    rw [List.foldlM_cons, List.foldlM_cons, ih]
    cases hw : g.visitOrder fuel w with
    | none => rfl
    | some o =>
      have := ihws (acc ++ o)
      rw [List.foldl_append] at this
      exact this

/-- The walk of `visit` is the first statement of its body, applied to the
vertices in the order of the calls. -/
theorem visit_order {K : Type} (e : Envoy K) (g : Dag K) :
    ∀ (fuel : Nat) (cv : clusterVisitor) (x : Nat), clusterVisitor.visit e g fuel cv x
      = (g.visitOrder fuel x).map (fun order => order.foldl (clusterVisitor.record e g) cv) := by
  intro fuel
  induction fuel with
  | zero => intro cv x; rfl
  | succ fuel ih =>
    intro cv x
    rw [visit_record, visitOrder_succ]
    exact foldlM_visit_order e g fuel ih cv (g.children x) [x]

theorem record_lookup {K : Type} (e : Envoy K) (g : Dag K)
    (hname : ∀ c, (e.Cluster c).Name = e.Clustername c) (cv : clusterVisitor) (x : Nat)
    (k : String) :
    (cv.record e g x).clusters.lookup k
      = (cv.clusters.lookup k).or ((g.firstNamed e [x] k).map e.Cluster) := by
  unfold clusterVisitor.record Dag.firstNamed
  cases hx : g.asCluster x with
  | none => simp [hx]
  | some c =>
    simp only [List.filterMap_cons, hx, List.filterMap_nil, List.find?_cons, List.find?_nil]
    by_cases hk : e.Clustername c = k
    · subst hk
      cases hl : cv.clusters.lookup (e.Clustername c) with
      | some v => simp [hl]
      | none => simp [hname]
    · cases hl : cv.clusters.lookup (e.Clustername c) with
      | some v => simp [hk]
      | none =>
        have hne : k ≠ (e.Cluster c).Name := by
          rw [hname]
          exact fun h => hk h.symm
        simp [hk, AList.lookup_insert_ne hne]

theorem record_fold_lookup {K : Type} (e : Envoy K) (g : Dag K)
    (hname : ∀ c, (e.Cluster c).Name = e.Clustername c) (k : String) (order : List Nat) :
    ∀ cv : clusterVisitor,
      (order.foldl (clusterVisitor.record e g) cv).clusters.lookup k
        = (cv.clusters.lookup k).or ((g.firstNamed e order k).map e.Cluster) := by
  induction order with
  | nil => intro cv; simp [Dag.firstNamed]
  | cons x xs ih =>
    intro cv
    rw [List.foldl_cons, ih, record_lookup e g hname]
    unfold Dag.firstNamed
    cases hx : g.asCluster x with
    | none => simp [hx]
    | some c =>
      by_cases hk : e.Clustername c = k
      · cases hl : cv.clusters.lookup k <;> simp [hx, hk]
      · cases hl : cv.clusters.lookup k <;> simp [hx, hk]

theorem foldlM_visitOrder_mem {K : Type} (g : Dag K) (fuel : Nat) (ws : List Nat)
    (ih : ∀ w ∈ ws, ∃ o, g.visitOrder fuel w = some o ∧ ∀ v, v ∈ o ↔ g.Reachable w v) :
    ∀ acc : List Nat, ∃ order,
      ws.foldlM (fun acc child => (g.visitOrder fuel child).map (fun l => acc ++ l)) acc
        = some order
      ∧ ∀ v, v ∈ order ↔ v ∈ acc ∨ ∃ w ∈ ws, g.Reachable w v := by
  induction ws with
  | nil =>
    intro acc
    exact ⟨acc, rfl, fun v => by simp⟩
  | cons w ws ihws =>
    intro acc
    obtain ⟨o, ho, hmem⟩ := ih w (List.mem_cons_self _ _)
    obtain ⟨order, horder, hmem2⟩ :=
      ihws (fun w' hw' => ih w' (List.mem_cons_of_mem _ hw')) (acc ++ o)
    refine ⟨order, ?_, fun v => ?_⟩
    · rw [List.foldlM_cons, ho]
      exact horder
    · rw [hmem2, List.mem_append, hmem]
      simp only [List.mem_cons, exists_eq_or_imp, or_assoc]

/-- On a finite acyclic graph the walk ends: a bound that leaves room for every
vertex not yet on the path from the root is enough, and the walk calls `visit`
on exactly the vertices that can be reached. -/
theorem visitOrder_total {K : Type} (g : Dag K) (root : Nat) (vs : List Nat)
    (hfin : ∀ v, g.Reachable root v → v ∈ vs)
    (hacyc : ∀ v, g.Reachable root v →
      ¬ Relation.TransGen (fun a b => b ∈ g.children a) v v) :
    ∀ (d x : Nat) (seen : List Nat), seen.Nodup → (∀ s ∈ seen, s ∈ vs) →
      (∀ s ∈ seen, g.Reachable s x) → g.Reachable root x → vs.length < d + seen.length →
      ∃ order, g.visitOrder d x = some order ∧ ∀ v, v ∈ order ↔ g.Reachable x v := by
  intro d
  induction d with
  | zero =>
    intro x seen hnd hsub _ _ hlen
    have h := (List.subperm_of_subset hnd hsub).length_le
    omega
  | succ d ih =>
    intro x seen hnd hsub hreach hx hlen
    have hch : ∀ w ∈ g.children x,
        ∃ o, g.visitOrder d w = some o ∧ ∀ v, v ∈ o ↔ g.Reachable w v := by
      intro w hw
      have hrw : g.Reachable root w := Relation.ReflTransGen.tail hx hw
      have hnot : w ∉ seen := by
        intro hws
        have h1 : g.Reachable w x := hreach w hws
        exact hacyc w hrw (Relation.TransGen.tail' h1 hw)
      apply ih w (w :: seen) (List.nodup_cons.2 ⟨hnot, hnd⟩)
      · intro s hs
        rcases List.mem_cons.1 hs with rfl | hs
        · exact hfin _ hrw
        · exact hsub s hs
      · intro s hs
        rcases List.mem_cons.1 hs with rfl | hs
        · exact Relation.ReflTransGen.refl
        · exact Relation.ReflTransGen.tail (hreach s hs) hw
      · exact hrw
      · simp only [List.length_cons]
        omega
    obtain ⟨order, horder, hmem⟩ := foldlM_visitOrder_mem g d (g.children x) hch [x]
    refine ⟨order, ?_, fun v => ?_⟩
    · rw [visitOrder_succ]
      exact horder
    · rw [hmem, reachable_iff g x v, List.mem_singleton]

theorem visitOrder_root {K : Type} (g : Dag K) (root : Nat) (vs : List Nat)
    (hfin : ∀ v, g.Reachable root v → v ∈ vs)
    (hacyc : ∀ v, g.Reachable root v →
      ¬ Relation.TransGen (fun a b => b ∈ g.children a) v v)
    (fuel : Nat) (hfuel : vs.length ≤ fuel) :
    ∃ order, g.visitOrder fuel root = some order ∧ ∀ v, v ∈ order ↔ g.Reachable root v := by
  apply visitOrder_total g root vs hfin hacyc fuel root [root] (List.nodup_singleton _)
  · intro s hs
    rw [List.mem_singleton.1 hs]
    exact hfin root Relation.ReflTransGen.refl
  · intro s hs
    rw [List.mem_singleton.1 hs]
    exact Relation.ReflTransGen.refl
  · exact Relation.ReflTransGen.refl
  · simp only [List.length_singleton]
    omega

theorem exDag_bound (v : Nat) (h : exDag.Reachable 0 v) : v ∈ [0, 1, 2, 3, 4, 5] := by
  have hstep : ∀ a b, b ∈ exChildren a → b ∈ [0, 1, 2, 3, 4, 5] := by
    intro a b hb
    match a, hb with
    | 0, hb => simp [exChildren] at hb; rcases hb with rfl | rfl <;> decide
    | 1, hb => simp [exChildren] at hb; rcases hb with rfl | rfl <;> decide
    | 2, hb => simp [exChildren] at hb; rcases hb with rfl | rfl <;> decide
    | n + 3, hb => simp [exChildren] at hb
  rcases Relation.ReflTransGen.cases_tail h with h0 | ⟨a, -, hab⟩
  · rw [h0]
    decide
  · exact hstep a v hab

theorem exDag_acyclic (v : Nat) :
    ¬ Relation.TransGen (fun a b => b ∈ exDag.children a) v v := by
  have hlt : ∀ a b, Relation.TransGen (fun a b => b ∈ exDag.children a) a b →
      exRank b < exRank a := by
    intro a b h
    induction h with
    | single h => exact exRank_decreases _ _ h
    | tail _ h ih => exact lt_trans (exRank_decreases _ _ h) ih
  intro h
  exact lt_irrefl _ (hlt v v h)

/-- C34: with `envoy.Cluster` naming a cluster by `envoy.Clustername`, the walk
of a finite acyclic graph returns a map in which every key is the Name of the
cluster stored under it, and the cluster stored under a key is the one built
from the first vertex of that name in the order of the calls of `visit`: a
later vertex of the same name does not replace it. -/
theorem C34_first_vertex_wins {K : Type} (e : Envoy K) (g : Dag K) (root fuel : Nat)
    (vs : List Nat)
    (hname : ∀ c, (e.Cluster c).Name = e.Clustername c)
    (hfin : ∀ v, g.Reachable root v → v ∈ vs)
    (hacyc : ∀ v, g.Reachable root v →
      ¬ Relation.TransGen (fun a b => b ∈ g.children a) v v)
    (hfuel : vs.length ≤ fuel) :
    ∃ m order, visitClusters e g fuel root = some m
      ∧ g.visitOrder fuel root = some order
      ∧ (∀ k v, m.lookup k = some v → v.Name = k)
      ∧ (∀ k, m.lookup k = (g.firstNamed e order k).map e.Cluster)
      ∧ ∀ before x later c, order = before ++ x :: later → g.asCluster x = some c →
          (∀ y ∈ before, ∀ c', g.asCluster y = some c' → e.Clustername c' ≠ e.Clustername c) →
          m.lookup (e.Clustername c) = some (e.Cluster c) := by
  obtain ⟨order, horder, -⟩ := visitOrder_root g root vs hfin hacyc fuel hfuel
  have hlookup : ∀ k, (order.foldl (clusterVisitor.record e g) { clusters := ∅ }).clusters.lookup k
      = (g.firstNamed e order k).map e.Cluster := by
    intro k
    rw [record_fold_lookup e g hname]
    simp
  refine ⟨(order.foldl (clusterVisitor.record e g) { clusters := ∅ }).clusters, order, ?_, horder,
    fun k v hk => ?_, hlookup, fun before x later c horder hx hbefore => ?_⟩
  · unfold visitClusters
    rw [visit_order, horder]
    rfl
  · rw [hlookup] at hk
    obtain ⟨c, hc, rfl⟩ := Option.map_eq_some'.1 hk
    unfold Dag.firstNamed at hc
    have := List.find?_some hc
    rw [hname]
    simpa using this
  · rw [hlookup, horder]
    unfold Dag.firstNamed
    rw [List.filterMap_append, List.find?_append]
    have hnone : List.find? (fun c' => decide (e.Clustername c' = e.Clustername c))
        (before.filterMap g.asCluster) = none := by
      rw [List.find?_eq_none]
      intro c' hc'
      obtain ⟨y, hy, hyc⟩ := List.mem_filterMap.1 hc'
      simpa using hbefore y hy c' hyc
    rw [hnone]
    simp [List.filterMap_cons, hx]

/-- C34 at an input: in the example graph the vertices 3 and 4 name the same
cluster, with the weights 90 and 10; the walk calls `visit` on 3 first and on 4
twice, and the entry is the cluster built from vertex 3. -/
theorem C34_first_vertex_wins_witness :
    (∃ m order, visitClusters exEnvoyWeighted exDag 6 0 = some m
      ∧ exDag.visitOrder 6 0 = some order
      ∧ (∀ k v, m.lookup k = some v → v.Name = k)
      ∧ (∀ k, m.lookup k = (exDag.firstNamed exEnvoyWeighted order k).map exEnvoyWeighted.Cluster)
      ∧ ∀ before x later c, order = before ++ x :: later → exDag.asCluster x = some c →
          (∀ y ∈ before, ∀ c', exDag.asCluster y = some c' →
            exEnvoyWeighted.Clustername c' ≠ exEnvoyWeighted.Clustername c) →
          m.lookup (exEnvoyWeighted.Clustername c) = some (exEnvoyWeighted.Cluster c))
    ∧ exDag.visitOrder 6 0 = some [0, 1, 3, 4, 2, 4, 5]
    ∧ (visitClusters exEnvoyWeighted exDag 6 0).map
          (fun m => (m.lookup "default/kuard/80/da39a3ee5e").map (fun v => v.AltStatName))
        = some (some "90") :=
  ⟨C34_first_vertex_wins exEnvoyWeighted exDag 0 6 [0, 1, 2, 3, 4, 5] (fun _ => rfl)
      exDag_bound (fun v _ => exDag_acyclic v) (by decide),
    by decide, by decide⟩

/-- C35: on a finite graph whose child relation has no cycle (the vertices
reachable from `root` are among the finitely many `vs`, and none of them is its
own descendant), `visit` ends from every state of the visitor, within a depth
of recursion of the number of vertices; the calls of `visit` are made on
exactly the vertices reachable from `root`, and the result is the first
statement of `visit` applied to them in the order of the calls. -/
theorem C35_visit_terminates {K : Type} (e : Envoy K) (g : Dag K) (root fuel : Nat)
    (vs : List Nat) (cv : clusterVisitor)
    (hfin : ∀ v, g.Reachable root v → v ∈ vs)
    (hacyc : ∀ v, g.Reachable root v →
      ¬ Relation.TransGen (fun a b => b ∈ g.children a) v v)
    (hfuel : vs.length ≤ fuel) :
    ∃ cv' order, clusterVisitor.visit e g fuel cv root = some cv'
      ∧ g.visitOrder fuel root = some order
      ∧ (∀ v, v ∈ order ↔ g.Reachable root v)
      ∧ cv' = order.foldl (clusterVisitor.record e g) cv := by
  obtain ⟨order, horder, hmem⟩ := visitOrder_root g root vs hfin hacyc fuel hfuel
  refine ⟨order.foldl (clusterVisitor.record e g) cv, order, ?_, horder, hmem, rfl⟩
  rw [visit_order, horder]
  rfl

theorem visit_loop (fuel : Nat) :
    ∀ cv : clusterVisitor, clusterVisitor.visit exEnvoy exLoop fuel cv 0 = none := by
  induction fuel with
  | zero => intro cv; rfl
  | succ fuel ih =>
    intro cv
    rw [visit_record]
    show List.foldlM (fun acc child => clusterVisitor.visit exEnvoy exLoop fuel acc child)
      (cv.record exEnvoy exLoop 0) [0] = none
    rw [List.foldlM_cons, ih]
    rfl

/-- C35 at an input: the walk of the example graph from its virtual host ends
within depth 6 and calls `visit` on the six vertices, on vertex 4 twice; on the
graph whose vertex is its own child the walk has no result at any depth. -/
theorem C35_visit_terminates_witness :
    (∃ cv' order, clusterVisitor.visit exEnvoy exDag 6 { clusters := ∅ } 0 = some cv'
      ∧ exDag.visitOrder 6 0 = some order
      ∧ (∀ v, v ∈ order ↔ exDag.Reachable 0 v)
      ∧ cv' = order.foldl (clusterVisitor.record exEnvoy exDag) { clusters := ∅ })
    ∧ exDag.visitOrder 6 0 = some [0, 1, 3, 4, 2, 4, 5]
    ∧ ∀ (fuel : Nat) (cv : clusterVisitor), clusterVisitor.visit exEnvoy exLoop fuel cv 0 = none :=
  ⟨C35_visit_terminates exEnvoy exDag 0 6 [0, 1, 2, 3, 4, 5] { clusters := ∅ }
      exDag_bound (fun v _ => exDag_acyclic v) (by decide),
    by decide, visit_loop⟩

/-! ## The annotation parsers, continued -/

theorem parseUInt32_decimal (s : String) (h : isUInt32Decimal s) :
    parseUInt32 s = decimalValue s := by
  obtain ⟨hne, hd, hv⟩ := h
  unfold parseUInt32 strconv.ParseUint
  rw [if_neg hne]
  unfold decimalValue at hv ⊢
  rw [parseUintLoop_ok s.toList 0 (by omega) hd hv]
  exact Nat.mod_eq_of_lt (by omega)

theorem parseUInt32_other (s : String) (h : ¬ isUInt32Decimal s) : parseUInt32 s = 0 := by
  unfold parseUInt32 strconv.ParseUint
  by_cases hne : s = ""
  · rw [if_pos hne]
  · rw [if_neg hne]
    obtain ⟨err, herr⟩ := parseUintLoop_error s.toList 0 (by omega)
      (fun hh => h ⟨hne, hh.1, hh.2⟩)
    rw [herr]

/-- C36: `parseUInt32(s)` is zero exactly when `s` is no decimal of a uint32 or
denotes zero. "0" and "000" give the value of the empty string, which is what
the index expression on the annotations yields for a missing key, and of a
malformed value: the value parsed from the annotation `max-retries` set to "0"
is the value parsed when the annotation is missing. -/
theorem C36_parseUInt32_zero (s : String) :
    (parseUInt32 s = 0 ↔ ¬ isUInt32Decimal s ∨ decimalValue s = 0)
    ∧ parseUInt32 "0" = parseUInt32 ""
    ∧ parseUInt32 "000" = parseUInt32 ""
    ∧ parseUInt32 "0" = parseUInt32 "1e6"
    ∧ parseUInt32 "0" = 0
    ∧ (∀ annotations : GoMap String,
        parseUInt32 (GoMap.index (annotations.insert annotationMaxRetries "0") annotationMaxRetries)
          = parseUInt32 (GoMap.index (annotations.erase annotationMaxRetries) annotationMaxRetries))
    := by
  refine ⟨?_, by decide, by decide, by decide, by decide, fun annotations => ?_⟩
  · by_cases h : isUInt32Decimal s
    · rw [parseUInt32_decimal s h]
      constructor
      · exact Or.inr
      · rintro (h1 | h1)
        · exact absurd h h1
        · exact h1
    · rw [parseUInt32_other s h]
      exact ⟨fun _ => Or.inl h, fun _ => rfl⟩
  · unfold GoMap.index
    rw [AList.lookup_insert, AList.lookup_erase]
    decide

theorem last_listed (annotations : GoMap String) ( annotation : String) (port : String)
    (protocols : List String) :
    ∀ acc : Option String,
      protocols.foldl
          (fun acc protocol =>
            if port ∈ upstreamPorts annotations annotation protocol then some protocol else acc)
          acc
        = ((protocols.filter
            (fun p => decide (port ∈ upstreamPorts annotations annotation p))).getLast?).or acc := by
  induction protocols with
  | nil => intro acc; simp
  | cons p ps ih =>
    intro acc
    rw [List.foldl_cons, ih]
    by_cases hp : port ∈ upstreamPorts annotations annotation p
    · simp only [hp, if_true, List.filter_cons, decide_True]
      cases hl : (ps.filter
          (fun p => decide (port ∈ upstreamPorts annotations annotation p))).getLast? with
      | none =>
        rw [List.getLast?_eq_none_iff] at hl
        simp [hl]
      | some q =>
        rw [List.getLast?_cons, hl]
        simp
    · simp [hp, List.filter_cons]

/-- C37: `parseUpstreamProtocols` maps a port to the last of the given
protocols under whose annotation the port is an entry: a port listed under
several of them goes to the one that comes last in `protocols`, and a port has
one protocol only. The port 443, listed under h2 and tls, goes to tls for the
protocols h2, h2c, tls and to h2 for the protocols tls, h2. -/
theorem C37_last_protocol_wins (annotations : GoMap String) ( annotation : String)
    (protocols : List String) (port : String) :
    (parseUpstreamProtocols annotations annotation protocols).lookup port
      = (protocols.filter
          (fun p => decide (port ∈ upstreamPorts annotations annotation p))).getLast?
    ∧ (∀ before q later, protocols = before ++ q :: later →
        port ∈ upstreamPorts annotations annotation q →
        (∀ p ∈ later, port ∉ upstreamPorts annotations annotation p) →
        (parseUpstreamProtocols annotations annotation protocols).lookup port = some q)
    ∧ (parseUpstreamProtocols annotations annotation protocols).keys.Nodup
    ∧ (∀ p q, (⟨port, p⟩ : Sigma (fun _ : String => String))
          ∈ (parseUpstreamProtocols annotations annotation protocols).entries →
        (⟨port, q⟩ : Sigma (fun _ : String => String))
          ∈ (parseUpstreamProtocols annotations annotation protocols).entries → p = q)
    ∧ (parseUpstreamProtocols exBothProtocols "contour.heptio.com/upstream-protocol"
          ["h2", "h2c", "tls"]).lookup "443" = some "tls"
    ∧ (parseUpstreamProtocols exBothProtocols "contour.heptio.com/upstream-protocol"
          ["tls", "h2"]).lookup "443" = some "h2" := by
  have hlast : (parseUpstreamProtocols annotations annotation protocols).lookup port
      = (protocols.filter
          (fun p => decide (port ∈ upstreamPorts annotations annotation p))).getLast? := by
    unfold parseUpstreamProtocols
    rw [lookup_outer_fold, last_listed]
    simp
  refine ⟨hlast, fun before q later hsplit hq hlater => ?_, AList.keys_nodup _,
    fun p q hp hq => ?_, by decide, by decide⟩
  · rw [hlast, hsplit, List.filter_append, List.filter_cons]
    have hnil : later.filter
        (fun p => decide (port ∈ upstreamPorts annotations annotation p)) = [] := by
      rw [List.filter_eq_nil_iff]
      intro p hp
      simpa using hlater p hp
    simp [hq, hnil]
  · have h1 := AList.mem_lookup_iff.2 hp
    have h2 := AList.mem_lookup_iff.2 hq
    rw [h1] at h2
    exact Option.some.inj h2

/-- C38: when `contour.heptio.com/ingress.class` is present with the value `v`,
`getIngressClassAnnotation` returns `v` whatever `kubernetes.io/ingress.class`
holds, set to any value or removed; an empty `v` gives the empty string, as do
annotations that hold neither key. -/
theorem C38_contour_class_first (annotations : GoMap String) (v : String)
    (h : annotations.lookup "contour.heptio.com/ingress.class" = some v) :
    getIngressClassAnnotation annotations = v
    ∧ (∀ w, getIngressClassAnnotation (annotations.insert "kubernetes.io/ingress.class" w) = v)
    ∧ getIngressClassAnnotation (annotations.erase "kubernetes.io/ingress.class") = v
    ∧ (v = "" → ∀ absent : GoMap String,
        absent.lookup "contour.heptio.com/ingress.class" = none →
        absent.lookup "kubernetes.io/ingress.class" = none →
        getIngressClassAnnotation annotations = getIngressClassAnnotation absent) := by
  have hne : "contour.heptio.com/ingress.class" ≠ "kubernetes.io/ingress.class" := by decide
  refine ⟨?_, fun w => ?_, ?_, fun hv absent h1 h2 => ?_⟩
  · unfold getIngressClassAnnotation
    rw [h]
  · unfold getIngressClassAnnotation
    rw [AList.lookup_insert_ne hne, h]
  · unfold getIngressClassAnnotation
    rw [AList.lookup_erase_ne hne, h]
  · unfold getIngressClassAnnotation
    rw [h, h1, h2, hv]

/-- C38 at an input: the Contour annotation is empty and the Kubernetes one
names "nginx"; the class returned is empty, as for an object without
annotations. -/
theorem C38_contour_class_first_witness :
    getIngressClassAnnotation exEmptyContourClass = ""
    ∧ exEmptyContourClass.lookup "kubernetes.io/ingress.class" = some "nginx"
    ∧ getIngressClassAnnotation exEmptyContourClass = getIngressClassAnnotation ∅ :=
  ⟨(C38_contour_class_first exEmptyContourClass "" (by decide)).1, by decide,
    (C38_contour_class_first exEmptyContourClass "" (by decide)).2.2.2 rfl ∅ (by decide)
      (by decide)⟩

theorem lookup_routes_fold (vs : List String) :
    ∀ (routes : GoMap Bool) (route : String),
      (vs.foldl
        (fun routes v => if strings.TrimSpace v ≠ "" then routes.insert (strings.TrimSpace v) true
          else routes) routes).lookup route
        = if route ∈ (vs.map strings.TrimSpace).filter (fun route => decide (route ≠ ""))
          then some true else routes.lookup route := by
  induction vs with
  | nil => intro routes route; simp
  | cons v vs ih =>
    intro routes route
    rw [List.foldl_cons, ih]
    by_cases hv : strings.TrimSpace v = ""
    · simp [hv]
    · by_cases hp : route = strings.TrimSpace v
      · subst hp
        simp [hv]
      · simp [hv, hp, List.filter_cons, AList.lookup_insert_ne hp]

theorem websocketRoutes_lookup (i : Ingress) (route : String) :
    (websocketRoutes i).lookup route
      = if route ∈ websocketEntries i then some true else none := by
  unfold websocketRoutes websocketEntries
  rw [lookup_routes_fold]
  simp

theorem trimmed_entries_blank (s : String)
    (h : ∀ c ∈ s.toList, c = ',' ∨ unicode.IsSpace c = true) :
    ((strings.Split s ',').map strings.TrimSpace).filter (fun route => decide (route ≠ ""))
      = [] := by
  rw [List.filter_eq_nil_iff]
  intro port hport
  obtain ⟨v, hv, rfl⟩ := List.mem_map.1 hport
  unfold strings.Split at hv
  obtain ⟨w, hw, rfl⟩ := List.mem_map.1 hv
  have : strings.TrimSpace (String.mk w) = "" := by
    apply TrimSpace_blank
    intro c hc
    have hc2 := splitChars_mem ',' _ w hw c hc
    rcases h c hc2.1 with hcomma | hsp
    · exact absurd hcomma hc2.2
    · exact hsp
  simp [this]

/-- C39: the map that `websocketRoutes` returns for an Ingress holds exactly
the non-empty, trimmed, comma-separated entries of the annotation
`contour.heptio.com/websocket-routes`, each mapped to true: the empty string is
no key and no key is mapped to false. When the annotation is absent, or holds
only white space and commas, the map is empty. -/
theorem C39_websocketRoutes (i : Ingress) :
    (∀ route b, (websocketRoutes i).lookup route = some b ↔
      b = true ∧ route ∈ websocketEntries i)
    ∧ (∀ route, route ∈ (websocketRoutes i).keys ↔
        route ≠ "" ∧ ∃ v ∈ strings.Split (i.Annotations.index annotationWebsocketRoutes) ',',
          strings.TrimSpace v = route)
    ∧ "" ∉ (websocketRoutes i).keys
    ∧ (∀ route, (websocketRoutes i).lookup route ≠ some false)
    ∧ ((i.Annotations.lookup annotationWebsocketRoutes = none ∨
          ∃ v, i.Annotations.lookup annotationWebsocketRoutes = some v ∧
            ∀ c ∈ v.toList, c = ',' ∨ unicode.IsSpace c = true) →
        websocketRoutes i = ∅)
    ∧ (websocketRoutes exWebsocketIngress).entries = [⟨"/ws2", true⟩, ⟨"/ws1", true⟩]
    ∧ (websocketRoutes exBlankWebsocketIngress).entries = []
    ∧ (websocketRoutes { Name := "kuard", Namespace := "default" }).entries = [] := by
  have hkeys : ∀ route, route ∈ (websocketRoutes i).keys ↔ route ∈ websocketEntries i := by
    intro route
    rw [← AList.mem_keys, ← AList.lookup_isSome, websocketRoutes_lookup]
    by_cases h : route ∈ websocketEntries i <;> simp [h]
  have hentries : ∀ route, route ∈ websocketEntries i ↔
      route ≠ "" ∧ ∃ v ∈ strings.Split (i.Annotations.index annotationWebsocketRoutes) ',',
        strings.TrimSpace v = route := by
    intro route
    unfold websocketEntries
    simp only [List.mem_filter, List.mem_map, decide_eq_true_eq]
    exact and_comm
  refine ⟨fun route b => ?_, fun route => ?_, ?_, fun route => ?_, fun h => ?_, by decide,
    by decide, by decide⟩
  · rw [websocketRoutes_lookup]
    by_cases h : route ∈ websocketEntries i
    · simp only [h, if_true, and_true]
      exact ⟨fun hb => (Option.some.inj hb).symm, fun hb => by rw [hb]⟩
    · simp [h]
  · rw [hkeys, hentries]
  · rw [hkeys, hentries]
    exact fun h => h.1 rfl
  · rw [websocketRoutes_lookup]
    by_cases h : route ∈ websocketEntries i <;> simp [h]
  · apply GoMap_eq_empty
    intro route hroute
    have hmem := (hkeys route).1 (AList.mem_keys.1 hroute)
    have hblank : websocketEntries i = [] := by
      apply trimmed_entries_blank
      intro c hc
      rcases h with hnone | ⟨v, hv, hall⟩
      · unfold GoMap.index at hc
        rw [hnone] at hc
        exact absurd hc (List.not_mem_nil c)
      · unfold GoMap.index at hc
        rw [hv] at hc
        exact hall c hc
    rw [hblank] at hmem
    exact absurd hmem (List.not_mem_nil route)

end Contour
